import Mathlib

/-!
# stat_analysis: plane extraction and consolidation

A shallow embedding of the plane-extraction code of the repository:

* `src/terrain.cpp`: `is_similar_plane`, `extract_planes` and the process-wide registry
  `plane_coefficients`;
* `src/plane_prob.cpp`: `extractPlanes`, `ClusterPlanes` and
  `EuclideanClusteringAndDownsampleClusters`;
* `src/archive.cpp`: `customRegionGrowing`, `segmentPlanes` and `classifyPlanes`.

Conventions of the embedding.

* `float` / `double` values are idealised as exact real numbers where the claims do not depend
  on the rounding: in the loops, and in `Terrain.is_similar_plane`, which the claims on the scan
  of the registry use for whatever it answers or at inputs where the rounding does not change
  the answer.  The two places where IEEE arithmetic leaves the reals are kept explicit: a
  division by a zero denominator and an `acos` argument outside `[-1, 1]` both give NaN, and
  every comparison with NaN is false.
* The claims on the values of `is_similar_plane` and of `customRegionGrowing` depend on the
  rounding.  For them the two functions are embedded in the arithmetic of the source,
  `Terrain.Binary32.is_similar_plane` and `Archive.customRegionGrowing`, every `float` and
  `double` operation rounded as IEEE 754 prescribes (section "Binary32 and binary64
  arithmetic"); the library functions `acos` and `cos` are parameters.
* A point cloud is the list of its points, in storage order.  The point type is a parameter.
* The RANSAC segmenter `pcl::SACSegmentation` is an external collaborator.  It is a parameter of
  the embedding: a function from the input cloud to the inlier indices and the plane
  coefficients it reports (PCL seeds its sampler with a constant, so one configuration is a
  function of the cloud).
* `pcl::ExtractIndices` is modelled by what the library does: with `setNegative(false)` the output
  holds the points at the given indices, in the order of the indices; with `setNegative(true)` it
  holds the points at the indices `0 .. n-1` that are not listed, in ascending order.
-/

namespace PCL

/-- The four `values` of a `pcl::ModelCoefficients` of a plane `A x + B y + C z + D = 0`:
`values[0] = A`, `values[1] = B`, `values[2] = C`, `values[3] = D`. -/
structure ModelCoefficients where
  A : ℝ
  B : ℝ
  C : ℝ
  D : ℝ

/-- An `Eigen::Vector3f`. -/
structure Vector3f where
  x : ℝ
  y : ℝ
  z : ℝ

/-- The product `Eigen::Vector3f::dot` in exact arithmetic. -/
def Vector3f.dot (u v : Vector3f) : ℝ := u.x * v.x + u.y * v.y + u.z * v.z

/-- The length `Eigen::Vector3f::norm` in exact arithmetic. -/
noncomputable def Vector3f.norm (u : Vector3f) : ℝ := Real.sqrt (u.dot u)

/-- The C function `acos` without its rounding: the angle on `[-1, 1]`, NaN (`none`)
elsewhere. -/
noncomputable def acos (x : ℝ) : Option ℝ :=
  if -1 ≤ x ∧ x ≤ 1 then some (Real.arccos x) else none

/-- What one call `seg.segment(*inliers, *coefficients)` writes: the inlier indices and the
coefficients of the fitted plane. -/
structure SegResult where
  indices : List Nat
  coefficients : ModelCoefficients

/-- A `pcl::SACSegmentation` object: given `setMaxIterations`, `setDistanceThreshold` and the
input cloud, the outputs of `segment`. -/
abbrev Segmenter (Pt : Type) : Type := Int → ℝ → List Pt → SegResult

/-- The output of `pcl::ExtractIndices::filter` for the input cloud `input` and the indices
`indices`.  With `negative = false` the points at `indices`, in that order; with
`negative = true` the points whose index in `0 .. n-1` is not in `indices`. -/
def ExtractIndices.filter {Pt : Type} (input : List Pt) (indices : List Nat)
    (negative : Bool) : List Pt :=
  if negative then
    ((List.range input.length).filter (fun i => !indices.contains i)).filterMap
      (fun i => input[i]?)
  else
    indices.filterMap (fun i => input[i]?)

/-- The conversion of an `int` to `size_t` (64 bits) that the comparison of a `size()` with an
`int` performs. -/
def size_t_of_int (n : Int) : Nat := (n % 2 ^ 64).toNat

end PCL

/-! ## Binary32 and binary64 arithmetic

`is_similar_plane` and `customRegionGrowing` compute with `float` and `double`, and their
answers at a given input depend on the rounding of each operation.  The definitions of this
section give that rounding: a real number is rounded to the nearest number with 24 (binary32)
or 53 (binary64) significant bits, ties to the even one, as IEEE 754 prescribes for `+`, `-`,
`*`, `/` and `sqrt`, each operation rounded on its own (no fused multiply-add).  The exponent
is not bounded here: `rnd` is the rounding of the hardware whenever the rounded result is in the
normal range of the format (for binary32 a magnitude between `2^-126` and `2^128`) and whenever
the exact result is a number of the format.  The statements that use it say for which inputs
this is the case (`InRange`). -/

namespace IEEE

/-- The integer nearest to `x`, the even one when `x` is half-way between two integers. -/
noncomputable def roundEven (x : ℝ) : ℤ :=
  if x - ⌊x⌋ < 1 / 2 then ⌊x⌋
  else if 1 / 2 < x - ⌊x⌋ then ⌊x⌋ + 1
  else if Even ⌊x⌋ then ⌊x⌋ else ⌊x⌋ + 1

/-- The exponent of the last place of a positive `x` written with `p` significant bits:
`2 ^ expo p x` is the spacing of the numbers of precision `p` in the binade of `x`. -/
noncomputable def expo (p : ℕ) (x : ℝ) : ℤ := Int.log 2 x - ((p : ℤ) - 1)

/-- Rounding of a positive number to `p` significant bits, to nearest, ties to even. -/
noncomputable def roundPos (p : ℕ) (x : ℝ) : ℝ :=
  (roundEven (x / (2 : ℝ) ^ expo p x) : ℝ) * (2 : ℝ) ^ expo p x

/-- Rounding to `p` significant bits, to nearest, ties to even: the magnitude is rounded and the
sign kept. -/
noncomputable def rnd (p : ℕ) (x : ℝ) : ℝ :=
  if 0 < x then roundPos p x else if x < 0 then -roundPos p (-x) else 0

/-- The result of a `float` operation whose exact result is `x`. -/
noncomputable def f32 (x : ℝ) : ℝ := rnd 24 x

/-- The result of a `double` operation whose exact result is `x`. -/
noncomputable def f64 (x : ℝ) : ℝ := rnd 53 x

/-- A coefficient is in range when it is zero or its magnitude lies between `2^-60` and `2^60`.
For coefficients in range the products, the sums of products, the square roots, the products of
two norms and the quotients of an offset by a norm that the two predicates form are in the
normal range of binary32 or are computed exactly, so that `f32` is the rounding the hardware
performs: these operations neither overflow nor underflow.  (The quotient of the dot product by
the product of the norms can still underflow, when the dot product all but cancels; no
statement below depends on its value in that case.) -/
def InRange (x : ℝ) : Prop := x = 0 ∨ ((2 : ℝ) ^ (-60 : ℤ) ≤ |x| ∧ |x| ≤ (2 : ℝ) ^ (60 : ℤ))

end IEEE

namespace Eigen

open PCL IEEE

/-- The product `Eigen::Vector3f::dot` in binary32.  Eigen adds the three products with its
unrolled reduction, which splits three terms into the first one and the sum of the other two;
the order matters only when all three products are non-zero. -/
noncomputable def dot (u v : Vector3f) : ℝ :=
  f32 (f32 (u.x * v.x) + f32 (f32 (u.y * v.y) + f32 (u.z * v.z)))

/-- The length `Eigen::Vector3f::norm` in binary32: `sqrt` of `squaredNorm()`, the same
reduction over the squares. -/
noncomputable def norm (u : Vector3f) : ℝ := f32 (Real.sqrt (dot u u))

end Eigen

namespace PCL

/-- What is known of the `acos` of the C library, whichever of `acos` on `double` and `acosf`
the call resolves to: NaN (`none`) outside `[-1, 1]`, and inside a value within `2^-20` of the
angle. -/
def AcosSpec (acos : ℝ → Option ℝ) : Prop :=
  (∀ x : ℝ, x < -1 ∨ 1 < x → acos x = none) ∧
  ∀ x : ℝ, -1 ≤ x → x ≤ 1 → ∃ y : ℝ, acos x = some y ∧ |y - Real.arccos x| ≤ (2 : ℝ) ^ (-20 : ℤ)

/-- A correctly rounded single-precision cosine: the `std::cos` on `float` of a C library whose
`cosf` rounds to nearest. -/
noncomputable def cosf (x : ℝ) : ℝ := IEEE.f32 (Real.cos x)

/-- The four coefficients of a plane are in range. -/
def ModelCoefficients.InRange (p : ModelCoefficients) : Prop :=
  IEEE.InRange p.A ∧ IEEE.InRange p.B ∧ IEEE.InRange p.C ∧ IEEE.InRange p.D

/-- The plane `k * (A, B, C, D)`: every coefficient multiplied by the scale factor `k`. -/
def ModelCoefficients.scale (k : ℝ) (p : ModelCoefficients) : ModelCoefficients :=
  ⟨k * p.A, k * p.B, k * p.C, k * p.D⟩

end PCL

namespace Terrain

open PCL

/-- The function `is_similar_plane` of `terrain.cpp` (lines 156-166), read in exact arithmetic:
every operation gives its exact real result.  When `normal1.norm() * normal2.norm()` is zero the
quotient is NaN, and when the quotient is outside `[-1, 1]` so is `acos` of it;
`angle < angle_threshold` is then false.  This reading serves the claims on the scan of the
registry, which hold for whatever the predicate answers, and the scenarios with the normal
`(0, 0, 1)` and offsets well inside or outside the tolerance, where the rounding does not change
the answer.  The answers of the code in general are those of `Binary32.is_similar_plane` below;
the two differ, for instance, on the plane `(1, 1, 0, 0)` and itself. -/
noncomputable def is_similar_plane (plane1 plane2 : ModelCoefficients)
    (angle_threshold distance_threshold : ℝ) : Bool :=
  let normal1 : Vector3f := ⟨plane1.A, plane1.B, plane1.C⟩
  let normal2 : Vector3f := ⟨plane2.A, plane2.B, plane2.C⟩
  if normal1.norm * normal2.norm = 0 then false
  else
    match acos (normal1.dot normal2 / (normal1.norm * normal2.norm)) with
    | none => false
    | some angle =>
      let distance1 := plane1.D / normal1.norm
      let distance2 := plane2.D / normal2.norm
      let distance_difference := |distance1 - distance2|
      decide (angle < angle_threshold ∧ distance_difference < distance_threshold)

/-- The function `is_similar_plane` of `terrain.cpp` (lines 156-166) in the arithmetic of the
source.  The normals are `Eigen::Vector3f`, so the dot product, the two norms, their product,
the quotient and `values[3] / norm()` are binary32 operations; `distance1 - distance2` is a
subtraction of `double`s; the thresholds are `double`s.  The library function `acos` is a
parameter.  A zero product of the norms makes the quotient infinite or NaN and `acos` of it NaN,
and `angle < angle_threshold` is then false. -/
noncomputable def Binary32.is_similar_plane (acos : ℝ → Option ℝ)
    (plane1 plane2 : ModelCoefficients) (angle_threshold distance_threshold : ℝ) : Bool :=
  let normal1 : Vector3f := ⟨plane1.A, plane1.B, plane1.C⟩
  let normal2 : Vector3f := ⟨plane2.A, plane2.B, plane2.C⟩
  if IEEE.f32 (Eigen.norm normal1 * Eigen.norm normal2) = 0 then false
  else
    match acos (IEEE.f32 (Eigen.dot normal1 normal2 /
        IEEE.f32 (Eigen.norm normal1 * Eigen.norm normal2))) with
    | none => false
    | some angle =>
      let distance1 := IEEE.f32 (plane1.D / Eigen.norm normal1)
      let distance2 := IEEE.f32 (plane2.D / Eigen.norm normal2)
      let distance_difference := |IEEE.f64 (distance1 - distance2)|
      decide (angle < angle_threshold ∧ distance_difference < distance_threshold)

/-- The scan of `extract_planes` over the registry (lines 191-198): the first entry similar to
`coefficients` is overwritten and the scan stops.  Returns the registry after the scan and the
flag `plane_updated`. -/
noncomputable def update_first_similar (coefficients : ModelCoefficients)
    (angle_threshold distance_threshold : ℝ) :
    List ModelCoefficients → List ModelCoefficients × Bool
  | [] => ([], false)
  | existing_coeff :: rest =>
    if is_similar_plane existing_coeff coefficients angle_threshold (distance_threshold * 5) then
      (coefficients :: rest, true)
    else
      let r := update_first_similar coefficients angle_threshold distance_threshold rest
      (existing_coeff :: r.1, r.2)

/-- The consolidation step of `extract_planes` (lines 191-202): the scan, then `push_back` when
no entry was updated. -/
noncomputable def consolidate (plane_coefficients : List ModelCoefficients)
    (coefficients : ModelCoefficients) (angle_threshold distance_threshold : ℝ) :
    List ModelCoefficients :=
  let r := update_first_similar coefficients angle_threshold distance_threshold plane_coefficients
  if !r.2 then r.1 ++ [coefficients] else r.1

/-- The variables that the `while` loop of `extract_planes` changes: the working copy of the
cloud and the global registry. -/
structure LoopState (Pt : Type) where
  cloud_filtered : List Pt
  plane_coefficients : List ModelCoefficients

/-- One test of the `while` condition of `extract_planes` followed, when it holds, by one loop
body (lines 183-209).  `none` when the loop is left (the condition fails, or `break` on an empty
inlier set), otherwise the state after the body. -/
noncomputable def extract_planes_round {Pt : Type} (seg : Segmenter Pt) (cloud : List Pt)
    (remaining_percentage : ℝ) (max_planes max_iterations : Int)
    (distance_threshold angle_threshold : ℝ) (s : LoopState Pt) : Option (LoopState Pt) :=
  if (s.cloud_filtered.length : ℝ) > remaining_percentage * (cloud.length : ℝ)
      ∧ s.plane_coefficients.length < size_t_of_int max_planes then
    let r := seg max_iterations distance_threshold s.cloud_filtered
    if r.indices.length = 0 then none
    else
      some
        { plane_coefficients :=
            consolidate s.plane_coefficients r.coefficients angle_threshold distance_threshold
          cloud_filtered := ExtractIndices.filter s.cloud_filtered r.indices true }
  else none

/-- The `while` loop of `extract_planes`.  `fuel` bounds the number of times the loop condition
is tested; `none` when the loop has not been left within that bound. -/
noncomputable def extract_planes_loop {Pt : Type} (seg : Segmenter Pt) (cloud : List Pt)
    (remaining_percentage : ℝ) (max_planes max_iterations : Int)
    (distance_threshold angle_threshold : ℝ) : Nat → LoopState Pt → Option (LoopState Pt)
  | 0, _ => none
  | fuel + 1, s =>
    match extract_planes_round seg cloud remaining_percentage max_planes max_iterations
        distance_threshold angle_threshold s with
    | none => some s
    | some s' =>
      extract_planes_loop seg cloud remaining_percentage max_planes max_iterations
        distance_threshold angle_threshold fuel s'

/-- The final `std::sort` of the registry by `values[3]` (lines 211-213).  `std::sort` leaves the
order of entries with equal keys open; the model is one of the sorted permutations. -/
noncomputable def sort_by_D (plane_coefficients : List ModelCoefficients) :
    List ModelCoefficients :=
  plane_coefficients.insertionSort (fun a b => a.D ≤ b.D)

/-- The function `extract_planes` of `terrain.cpp` (lines 168-224).  The global
`plane_coefficients` is passed in as it stands when the call starts and returned as it stands when
the call returns; `cloud` is only read.  `none` when the loop is still running after `fuel` tests
of its condition. -/
noncomputable def extract_planes {Pt : Type} (seg : Segmenter Pt)
    (plane_coefficients : List ModelCoefficients) (cloud : List Pt)
    (remaining_percentage : ℝ) (max_planes max_iterations : Int)
    (distance_threshold angle_threshold : ℝ) (fuel : Nat) : Option (List ModelCoefficients) :=
  (extract_planes_loop seg cloud remaining_percentage max_planes max_iterations
      distance_threshold angle_threshold fuel
      { cloud_filtered := cloud, plane_coefficients := plane_coefficients }).map
    (fun s => sort_by_D s.plane_coefficients)

/-- The arguments of one call of `extract_planes`. -/
structure Call (Pt : Type) where
  cloud : List Pt
  remaining_percentage : ℝ
  max_planes : Int
  max_iterations : Int
  distance_threshold : ℝ
  angle_threshold : ℝ

/-- A sequence of calls of `extract_planes` in one process, threaded through the global
`plane_coefficients` (line 65), which nothing but `extract_planes` writes. -/
noncomputable def run_calls {Pt : Type} (seg : Segmenter Pt) (fuel : Nat) :
    List (Call Pt) → List ModelCoefficients → Option (List ModelCoefficients)
  | [], plane_coefficients => some plane_coefficients
  | c :: cs, plane_coefficients =>
    (extract_planes seg plane_coefficients c.cloud c.remaining_percentage c.max_planes
        c.max_iterations c.distance_threshold c.angle_threshold fuel).bind
      (run_calls seg fuel cs)

/-- The value of the global `plane_coefficients` at program start (line 65): an empty vector. -/
def plane_coefficients_init : List ModelCoefficients := []

end Terrain

namespace PlaneProb

open PCL

/-- The struct `ClusterPlanes` of `plane_prob.cpp` as `extractPlanes` uses it: one field
`planes`, a vector of clouds (the form of lines 78-80), which receives the vector of plane clouds
that `extractPlanes` builds (line 414).  The struct of lines 90-92 has the same single field with
`PlaneData` elements, a cloud and four coefficients; `extractPlanes` builds no such element. -/
structure ClusterPlanes (Pt : Type) where
  planes : List (List Pt)

/-- The inner loop of `extractPlanes` (lines 387-411), for one cluster.  `budget` is
`max_planes - j`, so the test `j < max_planes` is `budget ≠ 0`.  Returns the vector `planes` and
the cloud `current_cluster` as they stand when the loop is left.  The objects `inliers` and
`coefficients`, declared once for all clusters, are written by `segment` in every round before
they are read, so they are not part of the loop state. -/
def extractPlanes_cluster {Pt : Type} (seg : List Pt → SegResult) :
    Nat → List Pt → List (List Pt) → List (List Pt) × List Pt
  | 0, current_cluster, planes => (planes, current_cluster)
  | budget + 1, current_cluster, planes =>
    if current_cluster.length > 3 then
      let inliers := (seg current_cluster).indices
      if inliers.length = 0 then (planes, current_cluster)
      else
        let plane := ExtractIndices.filter current_cluster inliers false
        let temp := ExtractIndices.filter current_cluster inliers true
        extractPlanes_cluster seg budget temp (planes ++ [plane])
    else (planes, current_cluster)

/-- The outer loop of `extractPlanes` (lines 383-422) from index `i` on; the list argument holds
`clusters[i], clusters[i+1], ...`.  `none` when `plane_storage[i]` is out of range. -/
def extractPlanes_from {Pt : Type} (seg : List Pt → SegResult) (max_planes : Int) :
    Nat → List (List Pt) → List (ClusterPlanes Pt) → Option (List (ClusterPlanes Pt))
  | _, [], plane_storage => some plane_storage
  | i, current_cluster :: rest, plane_storage =>
    let planes := (extractPlanes_cluster seg max_planes.toNat current_cluster []).1
    if i < plane_storage.length then
      extractPlanes_from seg max_planes (i + 1) rest (plane_storage.set i { planes := planes })
    else none

/-- The function `extractPlanes` of `plane_prob.cpp` (lines 371-423): the contents of
`plane_storage` on return. -/
def extractPlanes {Pt : Type} (seg : Segmenter Pt) (clusters : List (List Pt))
    (plane_storage : List (ClusterPlanes Pt)) (max_planes max_iterations : Int)
    (distance_threshold : ℝ) : Option (List (ClusterPlanes Pt)) :=
  extractPlanes_from (seg max_iterations distance_threshold) max_planes 0 clusters plane_storage

/-- The points of `clusters[i]` that `extractPlanes` has left in `current_cluster` when it stores
the planes of cluster `i`; the code logs their number (lines 416-420). -/
def extractPlanes_residual {Pt : Type} (seg : Segmenter Pt) (current_cluster : List Pt)
    (max_planes max_iterations : Int) (distance_threshold : ℝ) : List Pt :=
  (extractPlanes_cluster (seg max_iterations distance_threshold) max_planes.toNat
    current_cluster []).2

end PlaneProb

/-! ## Further library interfaces -/

namespace PCL

/-- The value of `max_iterations_` that the constructor of `pcl::SACSegmentation` sets; it is in
force when `setMaxIterations` is not called. -/
def SACSegmentation_default_max_iterations : Int := 50

/-- A `pcl::EuclideanClusterExtraction` object: given `setClusterTolerance`,
`setMinClusterSize`, `setMaxClusterSize` and the input cloud, the vector `cluster_indices` that
`extract` writes, each cluster as the list of its point indices.  The sizes are passed as
natural numbers: a cloud that PCL can index has fewer points than the setters' parameter type
holds. -/
abbrev ClusterExtraction (Pt : Type) : Type := ℝ → Nat → Nat → List Pt → List (List Nat)

/-- The contract of `pcl::EuclideanClusterExtraction::extract`: every cluster has between
`min` and `max` points, lists distinct indices of the input cloud, and no index is in two
clusters. -/
def ClusterExtraction.Contract {Pt : Type} (ec : ClusterExtraction Pt) : Prop :=
  ∀ (tolerance : ℝ) (min max : Nat) (cloud : List Pt),
    (∀ c ∈ ec tolerance min max cloud,
      min ≤ c.length ∧ c.length ≤ max ∧ c.Nodup ∧ ∀ i ∈ c, i < cloud.length) ∧
    (ec tolerance min max cloud).Pairwise List.Disjoint

/-- A point with a normal (`PointTypeFull`, a `pcl::PointXYZINormal`): the coordinates and the
normal that `getNormalVector3fMap` reads. -/
structure PointTypeFull where
  x : ℝ
  y : ℝ
  z : ℝ
  normal_x : ℝ
  normal_y : ℝ
  normal_z : ℝ

/-- The accessor `getNormalVector3fMap`. -/
def PointTypeFull.getNormalVector3fMap (p : PointTypeFull) : Vector3f :=
  ⟨p.normal_x, p.normal_y, p.normal_z⟩

/-- The three components of the normal of a point are in range. -/
def PointTypeFull.NormalInRange (p : PointTypeFull) : Prop :=
  IEEE.InRange p.normal_x ∧ IEEE.InRange p.normal_y ∧ IEEE.InRange p.normal_z

end PCL

namespace PlaneProb

open PCL

/-- The calls of `seg.segment` that the inner loop of `extractPlanes` makes (line 389), in
order: for each call the vector `planes` as it stands at the call and the cloud
`current_cluster` that is passed to the segmenter.  Same recursion as `extractPlanes_cluster`:
`segment` is the first statement of the loop body. -/
def extractPlanes_cluster_calls {Pt : Type} (seg : List Pt → SegResult) :
    Nat → List Pt → List (List Pt) → List (List (List Pt) × List Pt)
  | 0, _, _ => []
  | budget + 1, current_cluster, planes =>
    if current_cluster.length > 3 then
      let inliers := (seg current_cluster).indices
      (planes, current_cluster) ::
        (if inliers.length = 0 then []
        else
          let plane := ExtractIndices.filter current_cluster inliers false
          let temp := ExtractIndices.filter current_cluster inliers true
          extractPlanes_cluster_calls seg budget temp (planes ++ [plane]))
    else []

/-- The globals `global_original_clusters` and `global_downsampled_clusters` (lines 60-61), as
clouds. -/
structure ClusterGlobals (Pt : Type) where
  global_original_clusters : List (List Pt)
  global_downsampled_clusters : List (List Pt)

/-- The inner loop of `EuclideanClusteringAndDownsampleClusters` (lines 283-284): the cloud
`cloud_cluster` built by `push_back` of `cloud->points[idx]` for the indices of one cluster.
`none` when an index is out of range. -/
def cloud_cluster_of {Pt : Type} (cloud : List Pt) : List Nat → Option (List Pt)
  | [] => some []
  | idx :: rest =>
    match cloud[idx]?, cloud_cluster_of cloud rest with
    | some point, some points => some (point :: points)
    | _, _ => none

/-- The outer loop of `EuclideanClusteringAndDownsampleClusters` (lines 281-325), without the
publishing: the clouds assigned to the slots of `global_original_clusters` and of
`global_downsampled_clusters`, slot by slot. -/
def cluster_slots {Pt : Type} (downsampleCluster : List Pt → ℝ → ℝ → ℝ → List Pt)
    (cloud : List Pt) (dw_leaf_size_x dw_leaf_size_y dw_leaf_size_z : ℝ) :
    List (List Nat) → Option (List (List Pt) × List (List Pt))
  | [] => some ([], [])
  | indices :: rest =>
    match cloud_cluster_of cloud indices,
      cluster_slots downsampleCluster cloud dw_leaf_size_x dw_leaf_size_y dw_leaf_size_z rest with
    | some cloud_cluster, some slots =>
      some (cloud_cluster :: slots.1,
        downsampleCluster cloud_cluster dw_leaf_size_x dw_leaf_size_y dw_leaf_size_z :: slots.2)
    | _, _ => none

/-- The function `EuclideanClusteringAndDownsampleClusters` of `plane_prob.cpp`
(lines 254-326), without the publishing: the two globals on return.  Both vectors are resized to
`cluster_indices.size()` and every slot is then assigned, so their previous contents do not
matter.  `downsampleCluster` wraps the library's voxel grid and is a parameter.  `none` when a
cluster index is out of range for `cloud->points[idx]`. -/
def EuclideanClusteringAndDownsampleClusters {Pt : Type} (ec : ClusterExtraction Pt)
    (downsampleCluster : List Pt → ℝ → ℝ → ℝ → List Pt) (cloud : List Pt)
    (cluster_tolerance dw_leaf_size_x dw_leaf_size_y dw_leaf_size_z : ℝ) :
    Option (ClusterGlobals Pt) :=
  let cluster_indices := ec cluster_tolerance (cloud.length / 10) (cloud.length / 2) cloud
  (cluster_slots downsampleCluster cloud dw_leaf_size_x dw_leaf_size_y dw_leaf_size_z
      cluster_indices).map
    (fun slots =>
      { global_original_clusters := slots.1, global_downsampled_clusters := slots.2 })

end PlaneProb

namespace Archive

open PCL

/-- The function `customRegionGrowing` of `archive.cpp` (lines 190-199), in the arithmetic of
the source: the dot product of the normals and the argument `30.0f / 180.0f *
static_cast<float>(M_PI)` are computed in binary32, `M_PI` being the `double` nearest to pi.
`cos` is the library function `std::cos` on `float`, a parameter. -/
noncomputable def customRegionGrowing (cos : ℝ → ℝ) (point_a point_b : PointTypeFull)
    (squared_distance : ℝ) : Bool :=
  let point_a_normal := point_a.getNormalVector3fMap
  let point_b_normal := point_b.getNormalVector3fMap
  if squared_distance < 10000 then
    if |Eigen.dot point_a_normal point_b_normal| >
        cos (IEEE.f32 (IEEE.f32 (30 / 180) * IEEE.f32 (IEEE.f64 Real.pi))) then true
    else false
  else false

/-- The loop of `segmentPlanes` (lines 256-277).  `budget` is `maxIterations - i`, so the test
`i < maxIterations` is `budget ≠ 0`.  Returns `segmentedPlanes` and `remainingCloud` as they
stand when the loop is left. -/
def segmentPlanes_loop {Pt : Type} (seg : List Pt → SegResult) (minPoints : Int) :
    Nat → List Pt → List (List Pt) → List (List Pt) × List Pt
  | 0, remainingCloud, segmentedPlanes => (segmentedPlanes, remainingCloud)
  | budget + 1, remainingCloud, segmentedPlanes =>
    let inliers := (seg remainingCloud).indices
    if inliers.length < size_t_of_int minPoints then (segmentedPlanes, remainingCloud)
    else
      let plane := ExtractIndices.filter remainingCloud inliers false
      let tempCloud := ExtractIndices.filter remainingCloud inliers true
      segmentPlanes_loop seg minPoints budget tempCloud (segmentedPlanes ++ [plane])

/-- The calls of `seg.segment` that the loop of `segmentPlanes` makes (line 258), in order:
the cloud `remainingCloud` passed at each call.  Same recursion as `segmentPlanes_loop`. -/
def segmentPlanes_calls {Pt : Type} (seg : List Pt → SegResult) (minPoints : Int) :
    Nat → List Pt → List (List Pt)
  | 0, _ => []
  | budget + 1, remainingCloud =>
    let inliers := (seg remainingCloud).indices
    remainingCloud ::
      (if inliers.length < size_t_of_int minPoints then []
      else
        segmentPlanes_calls seg minPoints budget
          (ExtractIndices.filter remainingCloud inliers true))

/-- The function `segmentPlanes` of `archive.cpp` (lines 242-280).  The segmenter is configured
with `setDistanceThreshold` only. -/
def segmentPlanes {Pt : Type} (seg : Segmenter Pt) (cloud : List Pt)
    (maxIterations minPoints : Int) (distanceThreshold : ℝ) : List (List Pt) :=
  (segmentPlanes_loop (seg SACSegmentation_default_max_iterations distanceThreshold) minPoints
    maxIterations.toNat cloud []).1

end Archive

/-! ## The same functions with the clouds held by pointer

The functions above pass clouds by value.  The definitions below follow the pointers of the
source (`pcl::PointCloud<pcl::PointXYZ>::Ptr`): a store maps each address to the cloud that lives
there, `new` takes the next free address, and `filter(*p)` or `copyPointCloud(.., *p)` overwrite
the cloud at the address `p`. -/

namespace PCL

/-- The clouds on the heap: the entry of index `p` is the cloud at the address `p`. -/
abbrev Store (Pt : Type) : Type := List (List Pt)

/-- The cloud `*p`. -/
def Store.read {Pt : Type} (store : Store Pt) (p : Nat) : List Pt := (store[p]?).getD []

/-- The statement `Ptr p(new pcl::PointCloud)`: the address of the new, empty cloud and the
store that holds it. -/
def Store.alloc {Pt : Type} (store : Store Pt) : Nat × Store Pt := (store.length, store ++ [[]])

/-- An assignment to the cloud `*p`. -/
def Store.write {Pt : Type} (store : Store Pt) (p : Nat) (cloud : List Pt) : Store Pt :=
  store.set p cloud

end PCL

namespace PlaneProb

open PCL

/-- The inner loop of `extractPlanes` (lines 387-411) on pointers: `current_cluster` and the
elements of `planes` are addresses.  `plane` and `temp` are new clouds written by `filter`;
`current_cluster.swap(temp)` exchanges two local pointers.  Returns `planes`,
`current_cluster` and the store when the loop is left. -/
def extractPlanes_cluster_ptr {Pt : Type} (seg : List Pt → SegResult) :
    Nat → Nat → List Nat → Store Pt → List Nat × Nat × Store Pt
  | 0, current_cluster, planes, store => (planes, current_cluster, store)
  | budget + 1, current_cluster, planes, store =>
    if (store.read current_cluster).length > 3 then
      let inliers := (seg (store.read current_cluster)).indices
      if inliers.length = 0 then (planes, current_cluster, store)
      else
        let plane := store.alloc.1
        let store1 := store.alloc.2
        let store2 := store1.write plane
          (ExtractIndices.filter (store1.read current_cluster) inliers false)
        let temp := store2.alloc.1
        let store3 := store2.alloc.2
        let store4 := store3.write temp
          (ExtractIndices.filter (store3.read current_cluster) inliers true)
        extractPlanes_cluster_ptr seg budget temp (planes ++ [plane]) store4
    else (planes, current_cluster, store)

/-- The outer loop of `extractPlanes` (lines 383-422) on pointers, from index `i` on.  The vector
`clusters` holds addresses and is only read; each record of `plane_storage` is the vector of the
addresses of its planes. -/
def extractPlanes_from_ptr {Pt : Type} (seg : List Pt → SegResult) (max_planes : Int) :
    Nat → List Nat → List (List Nat) → Store Pt → Option (List (List Nat) × Store Pt)
  | _, [], plane_storage, store => some (plane_storage, store)
  | i, current_cluster :: rest, plane_storage, store =>
    let r := extractPlanes_cluster_ptr seg max_planes.toNat current_cluster [] store
    if i < plane_storage.length then
      extractPlanes_from_ptr seg max_planes (i + 1) rest (plane_storage.set i r.1) r.2.2
    else none

/-- The function `extractPlanes` of `plane_prob.cpp` on pointers: `plane_storage` and the store
on return. -/
def extractPlanes_ptr {Pt : Type} (seg : Segmenter Pt) (clusters : List Nat)
    (plane_storage : List (List Nat)) (store : Store Pt) (max_planes max_iterations : Int)
    (distance_threshold : ℝ) : Option (List (List Nat) × Store Pt) :=
  extractPlanes_from_ptr (seg max_iterations distance_threshold) max_planes 0 clusters
    plane_storage store

end PlaneProb

namespace Terrain

open PCL

/-- The variables that the `while` loop of `extract_planes` changes, on pointers: the store, in
which the loop overwrites `*cloud_filtered`, and the global registry. -/
structure PtrLoopState (Pt : Type) where
  store : Store Pt
  plane_coefficients : List ModelCoefficients

/-- One test of the `while` condition of `extract_planes` and one loop body (lines 183-209) on
pointers: `cloud` and `cloud_filtered` are addresses, and `extract.filter(*cloud_filtered)`
overwrites the cloud at `cloud_filtered`. -/
noncomputable def extract_planes_round_ptr {Pt : Type} (seg : Segmenter Pt)
    (cloud cloud_filtered : Nat) (remaining_percentage : ℝ) (max_planes max_iterations : Int)
    (distance_threshold angle_threshold : ℝ) (s : PtrLoopState Pt) :
    Option (PtrLoopState Pt) :=
  if ((s.store.read cloud_filtered).length : ℝ)
        > remaining_percentage * ((s.store.read cloud).length : ℝ)
      ∧ s.plane_coefficients.length < size_t_of_int max_planes then
    let r := seg max_iterations distance_threshold (s.store.read cloud_filtered)
    if r.indices.length = 0 then none
    else
      some
        { plane_coefficients :=
            consolidate s.plane_coefficients r.coefficients angle_threshold distance_threshold
          store := s.store.write cloud_filtered
            (ExtractIndices.filter (s.store.read cloud_filtered) r.indices true) }
  else none

/-- The `while` loop of `extract_planes` on pointers; `fuel` as in `extract_planes_loop`. -/
noncomputable def extract_planes_loop_ptr {Pt : Type} (seg : Segmenter Pt)
    (cloud cloud_filtered : Nat) (remaining_percentage : ℝ) (max_planes max_iterations : Int)
    (distance_threshold angle_threshold : ℝ) : Nat → PtrLoopState Pt → Option (PtrLoopState Pt)
  | 0, _ => none
  | fuel + 1, s =>
    match extract_planes_round_ptr seg cloud cloud_filtered remaining_percentage max_planes
        max_iterations distance_threshold angle_threshold s with
    | none => some s
    | some s' =>
      extract_planes_loop_ptr seg cloud cloud_filtered remaining_percentage max_planes
        max_iterations distance_threshold angle_threshold fuel s'

/-- The function `extract_planes` of `terrain.cpp` on pointers (lines 168-224):
`cloud_filtered` is a new cloud, `copyPointCloud` writes the points of `*cloud` into it, and the
loop works on it.  Returns the registry and the store. -/
noncomputable def extract_planes_ptr {Pt : Type} (seg : Segmenter Pt)
    (plane_coefficients : List ModelCoefficients) (store : Store Pt) (cloud : Nat)
    (remaining_percentage : ℝ) (max_planes max_iterations : Int)
    (distance_threshold angle_threshold : ℝ) (fuel : Nat) :
    Option (List ModelCoefficients × Store Pt) :=
  let cloud_filtered := store.alloc.1
  let store1 := store.alloc.2
  let store2 := store1.write cloud_filtered (store1.read cloud)
  (extract_planes_loop_ptr seg cloud cloud_filtered remaining_percentage max_planes
      max_iterations distance_threshold angle_threshold fuel
      { store := store2, plane_coefficients := plane_coefficients }).map
    (fun s => (sort_by_D s.plane_coefficients, s.store))

end Terrain

/-! ## Further definitions: fitter calls of `extract_planes`, `classifyPlanes`, the callback -/

namespace Terrain

open PCL

/-- The calls of `seg.segment` that the `while` loop of `extract_planes` makes (line 185), in
order: the cloud `cloud_filtered` passed at each call.  Same recursion and same `fuel` as
`extract_planes_loop`: `segment` is the first statement of the loop body, so a call is made
exactly when the loop condition holds. -/
noncomputable def extract_planes_calls {Pt : Type} (seg : Segmenter Pt) (cloud : List Pt)
    (remaining_percentage : ℝ) (max_planes max_iterations : Int)
    (distance_threshold angle_threshold : ℝ) : Nat → LoopState Pt → List (List Pt)
  | 0, _ => []
  | fuel + 1, s =>
    if (s.cloud_filtered.length : ℝ) > remaining_percentage * (cloud.length : ℝ)
        ∧ s.plane_coefficients.length < size_t_of_int max_planes then
      s.cloud_filtered ::
        (match extract_planes_round seg cloud remaining_percentage max_planes max_iterations
            distance_threshold angle_threshold s with
        | none => []
        | some s' =>
          extract_planes_calls seg cloud remaining_percentage max_planes max_iterations
            distance_threshold angle_threshold fuel s')
    else []

end Terrain

namespace Archive

open PCL

/-- The two lines that `classifyPlanes` can print for a plane: "Plane classified as step" and
"Plane classified as riser". -/
inductive PlaneLabel where
  | step
  | riser

/-- The body of the loop of `classifyPlanes` (lines 288-296), for one plane.  When `acos` is NaN
the comparison is false and the plane is a riser. -/
noncomputable def classifyPlane (coeff : ModelCoefficients) : PlaneLabel :=
  let normal : Vector3f := ⟨coeff.A, coeff.B, coeff.C⟩
  let upVector : Vector3f := ⟨0, 0, 1⟩
  match acos (normal.dot upVector) with
  | none => PlaneLabel.riser
  | some angle => if |angle| < Real.pi / 6 then PlaneLabel.step else PlaneLabel.riser

/-- The function `classifyPlanes` of `archive.cpp` (lines 285-298): the lines it prints, one for
each plane, in order. -/
noncomputable def classifyPlanes (coefficients : List ModelCoefficients) : List PlaneLabel :=
  coefficients.map classifyPlane

end Archive

namespace PlaneProb

open PCL

/-- The call `v.resize(n)` of a `std::vector`: the first `n` elements are kept, and
value-initialised elements fill up to `n`. -/
def resize {α : Type} (v : List α) (n : Nat) (value : α) : List α :=
  v.take n ++ List.replicate (n - v.length) value

/-- The part of `pointcloud_callback` of `plane_prob.cpp` that clusters the cloud and extracts
the planes (lines 656-657 and 684-691): the call of `EuclideanClusteringAndDownsampleClusters`,
the `resize` of `downsampled_cluster_planes` and the call of `extractPlanes`.  Returns the
cluster globals and `downsampled_cluster_planes`. -/
def pointcloud_callback_planes {Pt : Type} (ec : ClusterExtraction Pt)
    (downsampleCluster : List Pt → ℝ → ℝ → ℝ → List Pt) (seg : Segmenter Pt)
    (cloud_after_axis_downsampling : List Pt)
    (downsampled_cluster_planes : List (ClusterPlanes Pt)) :
    Option (ClusterGlobals Pt × List (ClusterPlanes Pt)) :=
  match EuclideanClusteringAndDownsampleClusters ec downsampleCluster
      cloud_after_axis_downsampling 0.09 0.16 0.40 0.16 with
  | none => none
  | some g =>
    let resized := resize downsampled_cluster_planes g.global_downsampled_clusters.length
      (ClusterPlanes.mk [])
    (extractPlanes seg g.global_downsampled_clusters resized 2 1000 0.03).map
      (fun plane_storage => (g, plane_storage))

end PlaneProb

/-! ## Sample inputs -/

namespace Samples

open PCL

/-- A sample segmenter on clouds of labelled points: on a cloud of at least three points it
reports the points of index 0, 1 and 2 as inliers and the horizontal plane whose `D` is the
label of the first point; on a smaller cloud it reports no inlier. -/
def seg_first : Segmenter ℕ := fun _ _ cloud =>
  { indices := if cloud.length < 3 then [] else [0, 1, 2]
    coefficients := ⟨0, 0, 1, ((cloud.headD 0 : ℕ) : ℝ)⟩ }

/-- A sample call of `extract_planes` on the three-point cloud `[h, h, h]` with
`max_planes = 1`. -/
def call_one (h : ℕ) : Terrain.Call ℕ :=
  { cloud := [h, h, h], remaining_percentage := 0, max_planes := 1, max_iterations := 100,
    distance_threshold := 0.01, angle_threshold := 0.1 }

/-- A sample segmenter on clouds of labelled points: on a cloud of more than two points it
reports the points of index 0 and 2 as inliers, on a smaller cloud none. -/
def seg_pair : Segmenter ℕ := fun _ _ cloud =>
  { indices := if cloud.length > 2 then [0, 2] else []
    coefficients := ⟨0, 0, 1, 0⟩ }

/-- A sample segmenter on clouds of labelled points: on a cloud of at least six points it
reports the points of index 0 and 2 as inliers, on a smaller cloud none. -/
def seg_six : Segmenter ℕ := fun _ _ cloud =>
  { indices := if cloud.length ≥ 6 then [0, 2] else []
    coefficients := ⟨0, 0, 1, 0⟩ }

/-- A sample clusterer: whatever the settings, it reports the two clusters of indices
`[0, 1, 2]` and `[3, 4, 5, 6]` on a cloud of ten points, and no cluster on any other cloud. -/
def ec_two : ClusterExtraction ℕ := fun _ min max cloud =>
  if cloud.length = 10 ∧ min ≤ 3 ∧ 4 ≤ max then [[0, 1, 2], [3, 4, 5, 6]] else []

/-- A sample downsampler: it keeps the first point of the cluster. -/
def downsample_head : List ℕ → ℝ → ℝ → ℝ → List ℕ := fun cluster _ _ _ => cluster.take 1

end Samples

/-! ## Lemmas on `is_similar_plane` in exact arithmetic -/

namespace Terrain

open PCL

/-- Cauchy-Schwarz for `Vector3f.dot`. -/
theorem dot_sq_le (u v : Vector3f) : (u.dot v) ^ 2 ≤ u.dot u * v.dot v := by
  unfold Vector3f.dot
  nlinarith [sq_nonneg (u.x * v.y - u.y * v.x), sq_nonneg (u.x * v.z - u.z * v.x),
    sq_nonneg (u.y * v.z - u.z * v.y)]

/-- A vector whose squared coordinates sum to one has `norm` one. -/
theorem norm_eq_one_of_unit (a b c : ℝ) (h : a ^ 2 + b ^ 2 + c ^ 2 = 1) :
    (Vector3f.mk a b c).norm = 1 := by
  unfold Vector3f.norm Vector3f.dot
  simp only
  rw [show a * a + b * b + c * c = 1 by nlinarith]
  exact Real.sqrt_one

/-- For unit normals, `is_similar_plane` is the conjunction of the two strict comparisons, the
angle being `arccos` of the plain dot product. -/
theorem is_similar_plane_of_unit (p1 p2 : ModelCoefficients) (a d : ℝ)
    (h1 : p1.A ^ 2 + p1.B ^ 2 + p1.C ^ 2 = 1) (h2 : p2.A ^ 2 + p2.B ^ 2 + p2.C ^ 2 = 1) :
    -1 ≤ p1.A * p2.A + p1.B * p2.B + p1.C * p2.C ∧
      p1.A * p2.A + p1.B * p2.B + p1.C * p2.C ≤ 1 ∧
      (is_similar_plane p1 p2 a d = true ↔
        (Real.arccos (p1.A * p2.A + p1.B * p2.B + p1.C * p2.C) < a ∧ |p1.D - p2.D| < d)) := by
  have n1 := norm_eq_one_of_unit p1.A p1.B p1.C h1
  have n2 := norm_eq_one_of_unit p2.A p2.B p2.C h2
  have hcs := dot_sq_le ⟨p1.A, p1.B, p1.C⟩ ⟨p2.A, p2.B, p2.C⟩
  have e1 : (Vector3f.mk p1.A p1.B p1.C).dot ⟨p1.A, p1.B, p1.C⟩ = 1 := by
    unfold Vector3f.dot; simp only; nlinarith
  have e2 : (Vector3f.mk p2.A p2.B p2.C).dot ⟨p2.A, p2.B, p2.C⟩ = 1 := by
    unfold Vector3f.dot; simp only; nlinarith
  rw [e1, e2] at hcs
  have hd : (Vector3f.mk p1.A p1.B p1.C).dot ⟨p2.A, p2.B, p2.C⟩
      = p1.A * p2.A + p1.B * p2.B + p1.C * p2.C := rfl
  rw [hd] at hcs
  set t := p1.A * p2.A + p1.B * p2.B + p1.C * p2.C with ht
  have hlo : -1 ≤ t := by nlinarith
  have hhi : t ≤ 1 := by nlinarith
  refine ⟨hlo, hhi, ?_⟩
  unfold is_similar_plane
  simp only [n1, n2, hd, ← ht, mul_one, div_one, one_ne_zero, if_false, acos, hlo, hhi,
    and_self, if_true, decide_eq_true_eq]

/-- Two planes with the normal `(0, 0, 1)`: the angle is zero, the offsets are compared as they
are. -/
theorem is_similar_plane_up (d1 d2 a d : ℝ) :
    is_similar_plane ⟨0, 0, 1, d1⟩ ⟨0, 0, 1, d2⟩ a d = decide (0 < a ∧ |d1 - d2| < d) := by
  have h := (is_similar_plane_of_unit ⟨0, 0, 1, d1⟩ ⟨0, 0, 1, d2⟩ a d (by norm_num)
    (by norm_num)).2.2
  simp only [mul_zero, mul_one, zero_add, Real.arccos_one] at h
  rw [Bool.eq_iff_iff, h, decide_eq_true_eq]

/-! ## Lemmas on the consolidation step -/

/-- The scan leaves the registry alone when no entry is similar. -/
theorem update_first_similar_of_none (cand : ModelCoefficients) (a d : ℝ) :
    ∀ reg : List ModelCoefficients,
      (∀ e ∈ reg, is_similar_plane e cand a (d * 5) = false) →
      update_first_similar cand a d reg = (reg, false)
  | [], _ => rfl
  | e :: rest, h => by
    have he : is_similar_plane e cand a (d * 5) = false := h e (List.mem_cons_self _ _)
    have ih := update_first_similar_of_none cand a d rest
      (fun x hx => h x (List.mem_cons_of_mem _ hx))
    simp [update_first_similar, he, ih]

/-- The scan overwrites the similar entry of lowest index, and only that entry. -/
theorem update_first_similar_of_some (cand : ModelCoefficients) (a d : ℝ) :
    ∀ reg : List ModelCoefficients,
      (∃ e ∈ reg, is_similar_plane e cand a (d * 5) = true) →
      ∃ k, k < reg.length ∧
        (∃ e, reg[k]? = some e ∧ is_similar_plane e cand a (d * 5) = true) ∧
        (∀ j e, j < k → reg[j]? = some e → is_similar_plane e cand a (d * 5) = false) ∧
        update_first_similar cand a d reg = (reg.set k cand, true)
  | [], h => by simp at h
  | e :: rest, h => by
    by_cases he : is_similar_plane e cand a (d * 5) = true
    · refine ⟨0, by simp, ⟨e, by simp, he⟩, ?_, ?_⟩
      · intro j e' hj; omega
      · simp [update_first_similar, he]
    · have he' : is_similar_plane e cand a (d * 5) = false := by simpa using he
      have hrest : ∃ x ∈ rest, is_similar_plane x cand a (d * 5) = true := by
        obtain ⟨x, hx, hs⟩ := h
        rcases List.mem_cons.1 hx with rfl | hx
        · exact absurd hs he
        · exact ⟨x, hx, hs⟩
      obtain ⟨k, hk, ⟨x, hxk, hxs⟩, hlow, hupd⟩ := update_first_similar_of_some cand a d rest hrest
      refine ⟨k + 1, by simpa using hk, ⟨x, by simpa using hxk, hxs⟩, ?_, ?_⟩
      · intro j e' hj hje
        cases j with
        | zero => simp at hje; rw [← hje]; exact he'
        | succ j => exact hlow j e' (by omega) (by simpa using hje)
      · simp [update_first_similar, he', hupd]

end Terrain

/-! ## Lemmas on `ExtractIndices.filter` -/

namespace PCL

/-- Reading a list at every index of `0 .. n-1` gives the list back. -/
theorem filterMap_range_getElem? {Pt : Type} (input : List Pt) :
    (List.range input.length).filterMap (fun i => input[i]?) = input := by
  induction input using List.reverseRecOn with
  | nil => rfl
  | append_singleton l a ih =>
    rw [List.length_append, List.length_singleton, List.range_succ, List.filterMap_append]
    have h1 : (List.range l.length).filterMap (fun i => (l ++ [a])[i]?)
        = (List.range l.length).filterMap (fun i => l[i]?) := by
      apply List.filterMap_congr
      intro i hi
      exact List.getElem?_append_left (List.mem_range.1 hi)
    rw [h1, ih]
    simp

/-- The two outputs of `ExtractIndices` for distinct in-range indices split the input: together
they hold every point of the input once. -/
theorem filter_split_perm {Pt : Type} (input : List Pt) (indices : List Nat)
    (hnd : indices.Nodup) (hin : ∀ i ∈ indices, i < input.length) :
    (ExtractIndices.filter input indices false ++ ExtractIndices.filter input indices true).Perm
      input := by
  unfold ExtractIndices.filter
  simp only [Bool.false_eq_true, if_false, if_true]
  rw [← List.filterMap_append]
  have hperm : (indices ++ (List.range input.length).filter (fun i => !indices.contains i)).Perm
      (List.range input.length) := by
    rw [List.perm_ext_iff_of_nodup]
    · intro i
      have hc : (!indices.contains i) = true ↔ i ∉ indices := by simp
      rw [List.mem_append, List.mem_filter, List.mem_range, hc]
      constructor
      · rintro (h | h)
        · exact hin i h
        · exact h.1
      · intro h
        by_cases hi : i ∈ indices
        · exact Or.inl hi
        · exact Or.inr ⟨h, hi⟩
    · rw [List.nodup_append]
      refine ⟨hnd, List.Nodup.filter _ (List.nodup_range _), ?_⟩
      intro i hi hi'
      simp [List.mem_filter] at hi'
      exact hi'.2 hi
    · exact List.nodup_range _
  have h2 := List.Perm.filterMap (fun i => input[i]?) hperm
  rw [filterMap_range_getElem?] at h2
  exact h2

/-- The filter `ExtractIndices` looks at positions only: it commutes with any relabelling of the
points. -/
theorem filter_map {Pt Qt : Type} (f : Pt → Qt) (input : List Pt) (indices : List Nat)
    (negative : Bool) :
    ExtractIndices.filter (input.map f) indices negative
      = (ExtractIndices.filter input indices negative).map f := by
  unfold ExtractIndices.filter
  split <;> simp [List.map_filterMap, List.getElem?_map]

end PCL

/-! ## Lemmas on the loops of `extractPlanes` -/

namespace PlaneProb

open PCL

/-- The inner loop only appends to `planes`. -/
theorem extractPlanes_cluster_acc {Pt : Type} (seg : List Pt → SegResult) :
    ∀ (budget : Nat) (cur : List Pt) (planes : List (List Pt)),
      (extractPlanes_cluster seg budget cur planes).1
          = planes ++ (extractPlanes_cluster seg budget cur []).1 ∧
        (extractPlanes_cluster seg budget cur planes).2
          = (extractPlanes_cluster seg budget cur []).2
  | 0, cur, planes => by simp [extractPlanes_cluster]
  | budget + 1, cur, planes => by
    simp only [extractPlanes_cluster]
    split
    · split
      · simp
      · have h1 := extractPlanes_cluster_acc seg budget
          (ExtractIndices.filter cur (seg cur).indices true)
          (planes ++ [ExtractIndices.filter cur (seg cur).indices false])
        have h2 := extractPlanes_cluster_acc seg budget
          (ExtractIndices.filter cur (seg cur).indices true)
          ([] ++ [ExtractIndices.filter cur (seg cur).indices false])
        rw [h1.1, h1.2, h2.1, h2.2]
        simp
    · simp

/-- The inner loop records at most `budget` planes on top of those it starts with. -/
theorem extractPlanes_cluster_length_le {Pt : Type} (seg : List Pt → SegResult) :
    ∀ (budget : Nat) (cur : List Pt) (planes : List (List Pt)),
      (extractPlanes_cluster seg budget cur planes).1.length ≤ planes.length + budget
  | 0, cur, planes => by simp [extractPlanes_cluster]
  | budget + 1, cur, planes => by
    simp only [extractPlanes_cluster]
    split
    · split
      · simp
      · have h := extractPlanes_cluster_length_le seg budget
          (ExtractIndices.filter cur (seg cur).indices true)
          (planes ++ [ExtractIndices.filter cur (seg cur).indices false])
        simp only [List.length_append, List.length_singleton] at h
        omega
    · simp

/-- With a segmenter that reports distinct in-range indices, the planes recorded by the inner
loop and the cloud it leaves hold together every point it started with, once. -/
theorem extractPlanes_cluster_perm {Pt : Type} (seg : List Pt → SegResult)
    (hseg : ∀ c, c.length > 3 → (seg c).indices.Nodup ∧ ∀ i ∈ (seg c).indices, i < c.length) :
    ∀ (budget : Nat) (cur : List Pt) (planes : List (List Pt)),
      ((extractPlanes_cluster seg budget cur planes).1.flatten
          ++ (extractPlanes_cluster seg budget cur planes).2).Perm (planes.flatten ++ cur)
  | 0, cur, planes => by simp [extractPlanes_cluster]
  | budget + 1, cur, planes => by
    simp only [extractPlanes_cluster]
    split
    · rename_i hlen
      split
      · exact List.Perm.refl _
      · refine (extractPlanes_cluster_perm seg hseg budget _ _).trans ?_
        rw [List.flatten_append, List.append_assoc]
        refine List.Perm.append_left _ ?_
        simpa using filter_split_perm cur (seg cur).indices (hseg cur hlen).1 (hseg cur hlen).2
    · exact List.Perm.refl _

/-- Relabelling the points of the cluster relabels the outcome of the inner loop, when the
segmenter is fed the relabelled cloud. -/
theorem extractPlanes_cluster_map {Pt Qt : Type} (f : Pt → Qt) (seg : List Qt → SegResult) :
    ∀ (budget : Nat) (cur : List Pt) (planes : List (List Pt)),
      extractPlanes_cluster seg budget (cur.map f) (planes.map (List.map f))
        = (((extractPlanes_cluster (fun c => seg (c.map f)) budget cur planes).1).map (List.map f),
            ((extractPlanes_cluster (fun c => seg (c.map f)) budget cur planes).2).map f)
  | 0, cur, planes => by simp [extractPlanes_cluster]
  | budget + 1, cur, planes => by
    simp only [extractPlanes_cluster, List.length_map]
    split
    · split
      · rfl
      · rw [filter_map, filter_map]
        have h := extractPlanes_cluster_map f seg budget
          (ExtractIndices.filter cur (seg (cur.map f)).indices true)
          (planes ++ [ExtractIndices.filter cur (seg (cur.map f)).indices false])
        simp only [List.map_append, List.map_cons, List.map_nil] at h
        exact h
    · rfl

/-- The outer loop writes into `plane_storage[i]`, for every cluster from index `i` on, the planes
of that cluster, and nothing else; it succeeds exactly when the storage is long enough. -/
theorem extractPlanes_from_spec {Pt : Type} (seg : List Pt → SegResult) (max_planes : Int) :
    ∀ (clusters : List (List Pt)) (i : Nat) (plane_storage : List (ClusterPlanes Pt)),
      i + clusters.length ≤ plane_storage.length →
      ∃ st, extractPlanes_from seg max_planes i clusters plane_storage = some st ∧
        st.length = plane_storage.length ∧
        (∀ k c, clusters[k]? = some c →
          st[i + k]? = some { planes := (extractPlanes_cluster seg max_planes.toNat c []).1 }) ∧
        (∀ j, j < i ∨ i + clusters.length ≤ j → st[j]? = plane_storage[j]?)
  | [], i, plane_storage, _ => ⟨plane_storage, rfl, rfl, by simp, fun _ _ => rfl⟩
  | c :: rest, i, plane_storage, h => by
    have hi : i < plane_storage.length := by
      simp only [List.length_cons] at h; omega
    obtain ⟨st, hst, hlen, hin, hout⟩ := extractPlanes_from_spec seg max_planes rest (i + 1)
      (plane_storage.set i { planes := (extractPlanes_cluster seg max_planes.toNat c []).1 })
      (by simp only [List.length_cons] at h; simp only [List.length_set]; omega)
    refine ⟨st, ?_, ?_, ?_, ?_⟩
    · simp only [extractPlanes_from, hi, if_true]
      exact hst
    · simpa using hlen
    · intro k c' hk
      cases k with
      | zero =>
        simp only [List.getElem?_cons_zero, Option.some.injEq] at hk
        subst hk
        rw [Nat.add_zero, hout i (Or.inl (Nat.lt_succ_self i))]
        simp [List.getElem?_set, hi]
      | succ k =>
        have := hin k c' (by simpa using hk)
        rw [show i + (k + 1) = i + 1 + k by omega]
        exact this
    · intro j hj
      have hj' : j < i + 1 ∨ i + 1 + rest.length ≤ j := by
        simp only [List.length_cons] at hj; omega
      have hne : i ≠ j := by
        simp only [List.length_cons] at hj; omega
      rw [hout j (by simp only [List.length_cons] at hj; omega), List.getElem?_set_ne hne]

end PlaneProb

namespace Terrain

open PCL

/-- The consolidation step keeps the length of the registry or adds one to it. -/
theorem consolidate_length (reg : List ModelCoefficients) (cand : ModelCoefficients) (a d : ℝ) :
    (consolidate reg cand a d).length = reg.length ∨
      (consolidate reg cand a d).length = reg.length + 1 := by
  by_cases h : ∃ e ∈ reg, is_similar_plane e cand a (d * 5) = true
  · obtain ⟨k, _, _, _, hupd⟩ := update_first_similar_of_some cand a d reg h
    left
    simp [consolidate, hupd]
  · right
    have h' : ∀ e ∈ reg, is_similar_plane e cand a (d * 5) = false := by
      intro e he
      by_contra hc
      exact h ⟨e, he, by simpa using hc⟩
    simp [consolidate, update_first_similar_of_none cand a d reg h']

/-- One round of the loop keeps the length of the registry or adds one to it. -/
theorem extract_planes_round_length {Pt : Type} (seg : Segmenter Pt) (cloud : List Pt)
    (rp : ℝ) (mp mi : Int) (dt at_ : ℝ) (s s' : LoopState Pt)
    (h : extract_planes_round seg cloud rp mp mi dt at_ s = some s') :
    s'.plane_coefficients.length = s.plane_coefficients.length ∨
      s'.plane_coefficients.length = s.plane_coefficients.length + 1 := by
  unfold extract_planes_round at h
  split at h
  · simp only at h
    split at h
    · exact absurd h (by simp)
    · simp only [Option.some.injEq] at h
      subst h
      exact consolidate_length _ _ _ _
  · exact absurd h (by simp)

/-- The loop never leaves a registry shorter than the one it starts from. -/
theorem extract_planes_loop_length {Pt : Type} (seg : Segmenter Pt) (cloud : List Pt)
    (rp : ℝ) (mp mi : Int) (dt at_ : ℝ) :
    ∀ (fuel : Nat) (s final : LoopState Pt),
      extract_planes_loop seg cloud rp mp mi dt at_ fuel s = some final →
      s.plane_coefficients.length ≤ final.plane_coefficients.length
  | 0, s, final, h => by simp [extract_planes_loop] at h
  | fuel + 1, s, final, h => by
    simp only [extract_planes_loop] at h
    split at h
    · simp only [Option.some.injEq] at h
      subst h
      exact le_refl _
    · rename_i s' hs'
      have h1 := extract_planes_round_length seg cloud rp mp mi dt at_ s s' hs'
      have h2 := extract_planes_loop_length seg cloud rp mp mi dt at_ fuel s' final h
      omega

/-- A whole call never leaves a registry shorter than the one it finds. -/
theorem extract_planes_length {Pt : Type} (seg : Segmenter Pt) (reg : List ModelCoefficients)
    (cloud : List Pt) (rp : ℝ) (mp mi : Int) (dt at_ : ℝ) (fuel : Nat)
    (result : List ModelCoefficients)
    (h : extract_planes seg reg cloud rp mp mi dt at_ fuel = some result) :
    reg.length ≤ result.length := by
  unfold extract_planes at h
  rw [Option.map_eq_some'] at h
  obtain ⟨final, hfinal, hres⟩ := h
  have := extract_planes_loop_length seg cloud rp mp mi dt at_ fuel _ final hfinal
  rw [← hres, sort_by_D, List.length_insertionSort]
  exact this

/-- The sample round: from an empty registry and the cloud `[h, h, h]`, the sample segmenter's
plane is appended and the three points are removed. -/
theorem sample_round (h : ℕ) :
    extract_planes_round Samples.seg_first [h, h, h] 0 1 100 0.01 0.1
        { cloud_filtered := [h, h, h], plane_coefficients := [] }
      = some { cloud_filtered := [], plane_coefficients := [⟨0, 0, 1, (h : ℝ)⟩] } := by
  simp [extract_planes_round, Samples.seg_first, consolidate, update_first_similar,
    ExtractIndices.filter, size_t_of_int, List.range_succ]

/-- The sample call from an empty registry leaves the sample segmenter's plane. -/
theorem sample_call_fresh (h : ℕ) :
    extract_planes Samples.seg_first [] [h, h, h] 0 1 100 0.01 0.1 2
      = some [⟨0, 0, 1, (h : ℝ)⟩] := by
  have h2 : extract_planes_round Samples.seg_first [h, h, h] 0 1 100 0.01 0.1
      { cloud_filtered := [], plane_coefficients := [⟨0, 0, 1, (h : ℝ)⟩] } = none := by
    simp [extract_planes_round]
  simp only [extract_planes, extract_planes_loop, sample_round, h2]
  simp [sort_by_D]

/-- The sample call with a registry that already holds one plane returns it untouched. -/
theorem sample_call_full (h : ℕ) (p : ModelCoefficients) :
    extract_planes Samples.seg_first [p] [h, h, h] 0 1 100 0.01 0.1 2 = some [p] := by
  simp [extract_planes, extract_planes_loop, extract_planes_round, size_t_of_int, sort_by_D]

end Terrain

namespace Terrain

open PCL

/-- C2: first match wins.  When some registry entry is similar to the candidate, the
consolidation step overwrites the similar entry of lowest index `k` with the candidate; every
other entry, later similar ones included, and the length of the registry are unchanged. -/
theorem consolidate_first_match_wins (reg : List ModelCoefficients) (cand : ModelCoefficients)
    (angle_threshold distance_threshold : ℝ)
    (h : ∃ e ∈ reg, is_similar_plane e cand angle_threshold (distance_threshold * 5) = true) :
    ∃ k, k < reg.length ∧
      (∃ e, reg[k]? = some e ∧
        is_similar_plane e cand angle_threshold (distance_threshold * 5) = true) ∧
      (∀ j e, j < k → reg[j]? = some e →
        is_similar_plane e cand angle_threshold (distance_threshold * 5) = false) ∧
      consolidate reg cand angle_threshold distance_threshold = reg.set k cand ∧
      (consolidate reg cand angle_threshold distance_threshold)[k]? = some cand ∧
      (∀ j, j ≠ k →
        (consolidate reg cand angle_threshold distance_threshold)[j]? = reg[j]?) ∧
      (consolidate reg cand angle_threshold distance_threshold).length = reg.length := by
  obtain ⟨k, hk, hsim, hlow, hupd⟩ :=
    update_first_similar_of_some cand angle_threshold distance_threshold reg h
  have hc : consolidate reg cand angle_threshold distance_threshold = reg.set k cand := by
    simp [consolidate, hupd]
  refine ⟨k, hk, hsim, hlow, hc, ?_, ?_, ?_⟩
  · rw [hc]; simp [List.getElem?_set, hk]
  · intro j hj
    rw [hc, List.getElem?_set_ne (Ne.symm hj)]
  · rw [hc, List.length_set]

/-- Witness of C2: the registry `[x = 0, z = 0, z = -0.002]` and the candidate `z = -0.001`; the
entries of index 1 and 2 are both similar to the candidate. -/
theorem consolidate_first_match_wins_witness :
    (∃ e ∈ [(⟨1, 0, 0, 0⟩ : ModelCoefficients), ⟨0, 0, 1, 0⟩, ⟨0, 0, 1, 0.002⟩],
        is_similar_plane e ⟨0, 0, 1, 0.001⟩ 0.05 (0.01 * 5) = true) ∧
      ∃ k, k < [(⟨1, 0, 0, 0⟩ : ModelCoefficients), ⟨0, 0, 1, 0⟩, ⟨0, 0, 1, 0.002⟩].length ∧
        consolidate [⟨1, 0, 0, 0⟩, ⟨0, 0, 1, 0⟩, ⟨0, 0, 1, 0.002⟩] ⟨0, 0, 1, 0.001⟩ 0.05 0.01
          = [(⟨1, 0, 0, 0⟩ : ModelCoefficients), ⟨0, 0, 1, 0⟩, ⟨0, 0, 1, 0.002⟩].set k
              ⟨0, 0, 1, 0.001⟩ := by
  have h : ∃ e ∈ [(⟨1, 0, 0, 0⟩ : ModelCoefficients), ⟨0, 0, 1, 0⟩, ⟨0, 0, 1, 0.002⟩],
      is_similar_plane e ⟨0, 0, 1, 0.001⟩ 0.05 (0.01 * 5) = true := by
    refine ⟨⟨0, 0, 1, 0⟩, by simp, ?_⟩
    rw [is_similar_plane_up, decide_eq_true_eq]
    constructor
    · norm_num
    · rw [abs_lt]; constructor <;> norm_num
  obtain ⟨k, hk, _, _, hc, _⟩ := consolidate_first_match_wins _ _ _ _ h
  exact ⟨h, k, hk, hc⟩

/-- C3: when no registry entry is similar to the candidate, the consolidation step appends the
candidate: the new registry is the old one followed by the candidate, one entry longer. -/
theorem consolidate_appends (reg : List ModelCoefficients) (cand : ModelCoefficients)
    (angle_threshold distance_threshold : ℝ)
    (h : ∀ e ∈ reg, is_similar_plane e cand angle_threshold (distance_threshold * 5) = false) :
    consolidate reg cand angle_threshold distance_threshold = reg ++ [cand] ∧
      (consolidate reg cand angle_threshold distance_threshold).length = reg.length + 1 ∧
      (∀ j, j < reg.length →
        (consolidate reg cand angle_threshold distance_threshold)[j]? = reg[j]?) := by
  have hc : consolidate reg cand angle_threshold distance_threshold = reg ++ [cand] := by
    simp [consolidate, update_first_similar_of_none cand angle_threshold distance_threshold reg h]
  refine ⟨hc, by rw [hc]; simp, ?_⟩
  intro j hj
  rw [hc, List.getElem?_append_left hj]

/-- Witness of C3: the registry `[z = 0]` and the candidate `z = -1`, with the offset tolerance
`0.05`. -/
theorem consolidate_appends_witness :
    (∀ e ∈ [(⟨0, 0, 1, 0⟩ : ModelCoefficients)],
        is_similar_plane e ⟨0, 0, 1, 1⟩ 0.05 (0.01 * 5) = false) ∧
      consolidate [⟨0, 0, 1, 0⟩] ⟨0, 0, 1, 1⟩ 0.05 0.01
        = [(⟨0, 0, 1, 0⟩ : ModelCoefficients)] ++ [⟨0, 0, 1, 1⟩] := by
  have h : ∀ e ∈ [(⟨0, 0, 1, 0⟩ : ModelCoefficients)],
      is_similar_plane e ⟨0, 0, 1, 1⟩ 0.05 (0.01 * 5) = false := by
    intro e he
    rw [List.mem_singleton] at he
    subst he
    rw [is_similar_plane_up, decide_eq_false_iff_not]
    rintro ⟨_, h2⟩
    rw [abs_lt] at h2
    norm_num at h2
  exact ⟨h, (consolidate_appends _ _ _ _ h).1⟩

/-- C4: the consolidation scenario.  With the registry `[(0,0,1,0)]`, the candidate
`(0,0,1,0.001)`, the angle tolerance `0.05` and `distance_threshold = 0.01` (so the offset
tolerance passed on is `0.01 * 5 = 0.05`), the entry of index 0 is similar to the candidate, the
scan reports an update, and the registry after the step is `[(0,0,1,0.001)]`. -/
theorem consolidation_scenario :
    (0.01 : ℝ) * 5 = 0.05 ∧
      is_similar_plane ⟨0, 0, 1, 0⟩ ⟨0, 0, 1, 0.001⟩ 0.05 0.05 = true ∧
      update_first_similar ⟨0, 0, 1, 0.001⟩ 0.05 0.01 [⟨0, 0, 1, 0⟩]
        = ([(⟨0, 0, 1, 0⟩ : ModelCoefficients)].set 0 ⟨0, 0, 1, 0.001⟩, true) ∧
      consolidate [⟨0, 0, 1, 0⟩] ⟨0, 0, 1, 0.001⟩ 0.05 0.01 = [⟨0, 0, 1, 0.001⟩] := by
  have h5 : (0.01 : ℝ) * 5 = 0.05 := by norm_num
  have hs : is_similar_plane ⟨0, 0, 1, 0⟩ ⟨0, 0, 1, 0.001⟩ 0.05 0.05 = true := by
    rw [is_similar_plane_up, decide_eq_true_eq]
    constructor
    · norm_num
    · rw [abs_lt]; constructor <;> norm_num
  have hu : update_first_similar ⟨0, 0, 1, 0.001⟩ 0.05 0.01 [⟨0, 0, 1, 0⟩]
      = ([(⟨0, 0, 1, 0⟩ : ModelCoefficients)].set 0 ⟨0, 0, 1, 0.001⟩, true) := by
    simp only [update_first_similar, h5, hs, if_true, List.set_cons_zero]
  refine ⟨h5, hs, hu, ?_⟩
  simp only [consolidate, hu, Bool.not_true, Bool.false_eq_true, if_false, List.set_cons_zero]

/-- C5: no removal or eviction.  A round of the loop of `extract_planes` leaves the length of the
registry unchanged or adds one to it; the loop, the final sort and the whole call never leave
the registry shorter than they found it. -/
theorem registry_never_shrinks {Pt : Type} (seg : Segmenter Pt) (cloud : List Pt)
    (remaining_percentage : ℝ) (max_planes max_iterations : Int)
    (distance_threshold angle_threshold : ℝ) (s : LoopState Pt) :
    (∀ s', extract_planes_round seg cloud remaining_percentage max_planes max_iterations
          distance_threshold angle_threshold s = some s' →
        s'.plane_coefficients.length = s.plane_coefficients.length ∨
          s'.plane_coefficients.length = s.plane_coefficients.length + 1) ∧
      (∀ fuel final, extract_planes_loop seg cloud remaining_percentage max_planes max_iterations
          distance_threshold angle_threshold fuel s = some final →
        s.plane_coefficients.length ≤ final.plane_coefficients.length) ∧
      (sort_by_D s.plane_coefficients).length = s.plane_coefficients.length ∧
      (∀ fuel result, extract_planes seg s.plane_coefficients cloud remaining_percentage
          max_planes max_iterations distance_threshold angle_threshold fuel = some result →
        s.plane_coefficients.length ≤ result.length) := by
  refine ⟨?_, ?_, ?_, ?_⟩
  · intro s' h
    exact extract_planes_round_length seg cloud _ _ _ _ _ s s' h
  · intro fuel final h
    exact extract_planes_loop_length seg cloud _ _ _ _ _ fuel s final h
  · rw [sort_by_D, List.length_insertionSort]
  · intro fuel result h
    exact extract_planes_length seg _ cloud _ _ _ _ _ fuel result h

/-- Witness of C5: the sample call on the cloud `[7, 7, 7]`, from an empty registry. -/
theorem registry_never_shrinks_witness :
    extract_planes_round Samples.seg_first [7, 7, 7] 0 1 100 0.01 0.1
        { cloud_filtered := [7, 7, 7], plane_coefficients := [] }
      = some { cloud_filtered := [], plane_coefficients := [⟨0, 0, 1, ((7 : ℕ) : ℝ)⟩] } ∧
    extract_planes Samples.seg_first [] [7, 7, 7] 0 1 100 0.01 0.1 2
      = some [⟨0, 0, 1, ((7 : ℕ) : ℝ)⟩] ∧
    ([] : List ModelCoefficients).length ≤ [(⟨0, 0, 1, ((7 : ℕ) : ℝ)⟩ : ModelCoefficients)].length
      ∧ ([(⟨0, 0, 1, ((7 : ℕ) : ℝ)⟩ : ModelCoefficients)].length = 0 ∨
          [(⟨0, 0, 1, ((7 : ℕ) : ℝ)⟩ : ModelCoefficients)].length = 0 + 1) := by
  have hthm := registry_never_shrinks Samples.seg_first [7, 7, 7] 0 1 100 0.01 0.1
    { cloud_filtered := [7, 7, 7], plane_coefficients := [] }
  exact ⟨sample_round 7, sample_call_fresh 7,
    hthm.2.2.2 2 _ (sample_call_fresh 7), hthm.1 _ (sample_round 7)⟩

/-- Counterexample to C6: with the sample segmenter, the call on the cloud `[2, 2, 2]` leaves the
plane `D = 2` when it is the first call of the process, and the plane `D = 1` of the earlier call
when it comes after the same call on the cloud `[1, 1, 1]`. -/
theorem registry_not_reset_counterexample :
    run_calls Samples.seg_first 2 [Samples.call_one 2] plane_coefficients_init
        = some [⟨0, 0, 1, ((2 : ℕ) : ℝ)⟩] ∧
      run_calls Samples.seg_first 2 [Samples.call_one 1, Samples.call_one 2]
          plane_coefficients_init
        = some [⟨0, 0, 1, ((1 : ℕ) : ℝ)⟩] ∧
      run_calls Samples.seg_first 2 [Samples.call_one 1, Samples.call_one 2]
          plane_coefficients_init
        ≠ run_calls Samples.seg_first 2 [Samples.call_one 2] plane_coefficients_init := by
  have h1 : run_calls Samples.seg_first 2 [Samples.call_one 2] plane_coefficients_init
      = some [⟨0, 0, 1, ((2 : ℕ) : ℝ)⟩] := by
    simp only [run_calls, Samples.call_one, plane_coefficients_init, sample_call_fresh,
      Option.some_bind]
  have h2 : run_calls Samples.seg_first 2 [Samples.call_one 1, Samples.call_one 2]
      plane_coefficients_init = some [⟨0, 0, 1, ((1 : ℕ) : ℝ)⟩] := by
    simp only [run_calls, Samples.call_one, plane_coefficients_init, sample_call_fresh,
      sample_call_full, Option.some_bind]
  refine ⟨h1, h2, ?_⟩
  rw [h1, h2]
  intro h
  simp only [Option.some.injEq, List.cons.injEq, ModelCoefficients.mk.injEq, and_true,
    true_and] at h
  norm_num at h

/-- Lemma: a sequence of calls followed by one more call is the sequence, then the call started
from the registry the sequence left. -/
theorem run_calls_append_one {Pt : Type} (seg : Segmenter Pt) (fuel : Nat) (c : Call Pt) :
    ∀ (history : List (Call Pt)) (reg : List ModelCoefficients),
      run_calls seg fuel (history ++ [c]) reg
        = (run_calls seg fuel history reg).bind (fun reg' =>
            extract_planes seg reg' c.cloud c.remaining_percentage c.max_planes c.max_iterations
              c.distance_threshold c.angle_threshold fuel)
  | [], reg => by
    simp only [List.nil_append, run_calls, Option.some_bind]
    cases extract_planes seg reg c.cloud c.remaining_percentage c.max_planes c.max_iterations
      c.distance_threshold c.angle_threshold fuel <;> rfl
  | c0 :: rest, reg => by
    simp only [List.cons_append, run_calls]
    cases extract_planes seg reg c0.cloud c0.remaining_percentage c0.max_planes c0.max_iterations
      c0.distance_threshold c0.angle_threshold fuel with
    | none => rfl
    | some reg1 =>
      simp only [Option.some_bind]
      exact run_calls_append_one seg fuel c rest reg1

/-- C6, amended: the registry is scoped to the process, not to a call.  The first call starts
from the empty registry; a call that follows earlier calls starts from the registry they left,
so its result is the same after two histories that left the same registry; and it never returns
a registry shorter than the one the earlier calls left. -/
theorem registry_carried_across_calls {Pt : Type} (seg : Segmenter Pt) (fuel : Nat)
    (c : Call Pt) (history history' : List (Call Pt)) :
    run_calls seg fuel [c] plane_coefficients_init
        = extract_planes seg [] c.cloud c.remaining_percentage c.max_planes c.max_iterations
            c.distance_threshold c.angle_threshold fuel ∧
      run_calls seg fuel (history ++ [c]) plane_coefficients_init
        = (run_calls seg fuel history plane_coefficients_init).bind (fun reg =>
            extract_planes seg reg c.cloud c.remaining_percentage c.max_planes c.max_iterations
              c.distance_threshold c.angle_threshold fuel) ∧
      (run_calls seg fuel history plane_coefficients_init
          = run_calls seg fuel history' plane_coefficients_init →
        run_calls seg fuel (history ++ [c]) plane_coefficients_init
          = run_calls seg fuel (history' ++ [c]) plane_coefficients_init) ∧
      (∀ reg result, run_calls seg fuel history plane_coefficients_init = some reg →
        run_calls seg fuel (history ++ [c]) plane_coefficients_init = some result →
        reg.length ≤ result.length) := by
  have h1 := run_calls_append_one seg fuel c [] plane_coefficients_init
  refine ⟨?_, run_calls_append_one seg fuel c history _, ?_, ?_⟩
  · simp [run_calls, plane_coefficients_init]
  · intro h
    rw [run_calls_append_one, run_calls_append_one, h]
  · intro reg result hreg hres
    rw [run_calls_append_one, hreg, Option.some_bind] at hres
    exact extract_planes_length seg reg _ _ _ _ _ _ fuel result hres

/-- Witness of C6, amended: the sample call on `[2, 2, 2]` after the sample call on
`[1, 1, 1]`. -/
theorem registry_carried_across_calls_witness :
    run_calls Samples.seg_first 2 [Samples.call_one 1] plane_coefficients_init
        = some [⟨0, 0, 1, ((1 : ℕ) : ℝ)⟩] ∧
      run_calls Samples.seg_first 2 ([Samples.call_one 1] ++ [Samples.call_one 2])
          plane_coefficients_init = some [⟨0, 0, 1, ((1 : ℕ) : ℝ)⟩] ∧
      [(⟨0, 0, 1, ((1 : ℕ) : ℝ)⟩ : ModelCoefficients)].length
        ≤ [(⟨0, 0, 1, ((1 : ℕ) : ℝ)⟩ : ModelCoefficients)].length := by
  have h1 : run_calls Samples.seg_first 2 [Samples.call_one 1] plane_coefficients_init
      = some [⟨0, 0, 1, ((1 : ℕ) : ℝ)⟩] := by
    simp only [run_calls, Samples.call_one, plane_coefficients_init, sample_call_fresh,
      Option.some_bind]
  have h2 : run_calls Samples.seg_first 2 ([Samples.call_one 1] ++ [Samples.call_one 2])
      plane_coefficients_init = some [⟨0, 0, 1, ((1 : ℕ) : ℝ)⟩] := by
    simp only [List.singleton_append, run_calls, Samples.call_one, plane_coefficients_init,
      sample_call_fresh, sample_call_full, Option.some_bind]
  exact ⟨h1, h2,
    (registry_carried_across_calls Samples.seg_first 2 (Samples.call_one 2)
      [Samples.call_one 1] []).2.2.2 _ _ h1 h2⟩

end Terrain

namespace PlaneProb

open PCL

/-- The outer loop succeeds only when the storage has an entry for every cluster it visits. -/
theorem extractPlanes_from_some {Pt : Type} (seg : List Pt → SegResult) (max_planes : Int) :
    ∀ (clusters : List (List Pt)) (i : Nat) (plane_storage st : List (ClusterPlanes Pt)),
      extractPlanes_from seg max_planes i clusters plane_storage = some st →
      clusters = [] ∨ i + clusters.length ≤ plane_storage.length
  | [], _, _, _, _ => Or.inl rfl
  | c :: rest, i, plane_storage, st, h => by
    right
    simp only [extractPlanes_from] at h
    split at h
    · rename_i hi
      have := extractPlanes_from_some seg max_planes rest (i + 1) _ st h
      rcases this with hr | hr
      · subst hr
        simp only [List.length_cons, List.length_nil]; omega
      · simp only [List.length_set] at hr
        simp only [List.length_cons]; omega
    · exact absurd h (by simp)

/-- A call of `extractPlanes` succeeds exactly when `plane_storage` has at least as many entries
as `clusters`; it then stores, for every cluster, the planes of that cluster at the index of the
cluster and leaves the entries beyond the clusters as they were. -/
theorem extractPlanes_spec {Pt : Type} (seg : Segmenter Pt) (clusters : List (List Pt))
    (plane_storage : List (ClusterPlanes Pt)) (max_planes max_iterations : Int)
    (distance_threshold : ℝ) :
    (clusters.length ≤ plane_storage.length ↔
        ∃ st, extractPlanes seg clusters plane_storage max_planes max_iterations
          distance_threshold = some st) ∧
      ∀ st, extractPlanes seg clusters plane_storage max_planes max_iterations
          distance_threshold = some st →
        st.length = plane_storage.length ∧
        (∀ (i : Nat) (c : List Pt), clusters[i]? = some c →
          st[i]? = some (ClusterPlanes.mk (extractPlanes_cluster
            (seg max_iterations distance_threshold) max_planes.toNat c []).1)) ∧
        (∀ j, clusters.length ≤ j → st[j]? = plane_storage[j]?) := by
  have key : clusters.length ≤ plane_storage.length →
      ∃ st, extractPlanes seg clusters plane_storage max_planes max_iterations
          distance_threshold = some st ∧
        st.length = plane_storage.length ∧
        (∀ (i : Nat) (c : List Pt), clusters[i]? = some c →
          st[i]? = some (ClusterPlanes.mk (extractPlanes_cluster
            (seg max_iterations distance_threshold) max_planes.toNat c []).1)) ∧
        (∀ j, clusters.length ≤ j → st[j]? = plane_storage[j]?) := by
    intro h
    obtain ⟨st, hst, hlen, hin, hout⟩ :=
      extractPlanes_from_spec (seg max_iterations distance_threshold) max_planes clusters 0
        plane_storage (by omega)
    refine ⟨st, hst, hlen, ?_, ?_⟩
    · intro i c hc
      simpa using hin i c hc
    · intro j hj
      exact hout j (Or.inr (by omega))
  have hlen : ∀ st, extractPlanes seg clusters plane_storage max_planes max_iterations
      distance_threshold = some st → clusters.length ≤ plane_storage.length := by
    intro st hst
    rcases extractPlanes_from_some _ _ _ _ _ _ hst with h | h
    · subst h; simp
    · omega
  refine ⟨⟨fun h => ?_, fun ⟨st, hst⟩ => hlen st hst⟩, ?_⟩
  · obtain ⟨st, hst, _⟩ := key h
    exact ⟨st, hst⟩
  · intro st hst
    obtain ⟨st', hst', h⟩ := key (hlen st hst)
    rw [hst] at hst'
    cases hst'
    exact h

/-- The sample run of `extractPlanes`: clusters of five, one and no points, budget two. -/
theorem sample_extractPlanes :
    extractPlanes Samples.seg_pair [[10, 11, 12, 13, 14], [5], []] [⟨[]⟩, ⟨[[7]]⟩, ⟨[]⟩, ⟨[[9]]⟩]
        2 1000 0.03
      = some [⟨[[10, 12]]⟩, ⟨[]⟩, ⟨[]⟩, ⟨[[9]]⟩] := rfl

/-- C7: partition invariant of `extractPlanes`.  For a segmenter that reports distinct in-range
inlier indices on every cloud the loop can pass to it (more than three points), and for every
cluster: running the loop on the cluster with each point
tagged by its position gives the planes and the residual of the plain run, point for point; the
tagged planes and residual together hold every position of the cluster exactly once; and the
sizes of the planes and of the residual add up to the size of the cluster. -/
theorem extractPlanes_partition {Pt : Type} (seg : Segmenter Pt)
    (max_planes max_iterations : Int) (distance_threshold : ℝ)
    (hseg : ∀ c, c.length > 3 → (seg max_iterations distance_threshold c).indices.Nodup ∧
      ∀ i ∈ (seg max_iterations distance_threshold c).indices, i < c.length)
    (cluster : List Pt) :
    (extractPlanes_cluster (fun c => seg max_iterations distance_threshold (c.map Prod.snd))
          max_planes.toNat cluster.enum []).1.map (List.map Prod.snd)
        = (extractPlanes_cluster (seg max_iterations distance_threshold)
            max_planes.toNat cluster []).1 ∧
      (extractPlanes_cluster (fun c => seg max_iterations distance_threshold (c.map Prod.snd))
          max_planes.toNat cluster.enum []).2.map Prod.snd
        = extractPlanes_residual seg cluster max_planes max_iterations distance_threshold ∧
      ((extractPlanes_cluster (fun c => seg max_iterations distance_threshold (c.map Prod.snd))
            max_planes.toNat cluster.enum []).1.flatten
          ++ (extractPlanes_cluster (fun c => seg max_iterations distance_threshold
            (c.map Prod.snd)) max_planes.toNat cluster.enum []).2).Perm cluster.enum ∧
      (((extractPlanes_cluster (fun c => seg max_iterations distance_threshold (c.map Prod.snd))
            max_planes.toNat cluster.enum []).1.flatten
          ++ (extractPlanes_cluster (fun c => seg max_iterations distance_threshold
            (c.map Prod.snd)) max_planes.toNat cluster.enum []).2).map Prod.fst).Perm
        (List.range cluster.length) ∧
      (extractPlanes_residual seg cluster max_planes max_iterations distance_threshold).length
          + ((extractPlanes_cluster (seg max_iterations distance_threshold)
              max_planes.toNat cluster []).1.map List.length).sum
        = cluster.length := by
  have hmap := extractPlanes_cluster_map (Prod.snd : ℕ × Pt → Pt)
    (seg max_iterations distance_threshold) max_planes.toNat cluster.enum []
  rw [List.enum_map_snd, List.map_nil] at hmap
  have hseg' : ∀ c : List (ℕ × Pt), c.length > 3 →
      (seg max_iterations distance_threshold (c.map Prod.snd)).indices.Nodup ∧
        ∀ i ∈ (seg max_iterations distance_threshold (c.map Prod.snd)).indices, i < c.length := by
    intro c hc
    have := hseg (c.map Prod.snd) (by rwa [List.length_map])
    rwa [List.length_map] at this
  have hperm := extractPlanes_cluster_perm
    (fun c : List (ℕ × Pt) => seg max_iterations distance_threshold (c.map Prod.snd)) hseg'
    max_planes.toNat cluster.enum []
  rw [List.flatten_nil, List.nil_append] at hperm
  have hplain := (extractPlanes_cluster_perm (seg max_iterations distance_threshold) hseg
    max_planes.toNat cluster []).length_eq
  rw [List.flatten_nil, List.nil_append, List.length_append, List.length_flatten] at hplain
  refine ⟨?_, ?_, hperm, ?_, ?_⟩
  · rw [hmap]
  · rw [extractPlanes_residual, hmap]
  · have := hperm.map Prod.fst
    rwa [List.enum_map_fst] at this
  · rw [extractPlanes_residual]; omega

/-- Witness of C7: the sample segmenter on a cluster of five points, two of them with the same
label. -/
theorem extractPlanes_partition_witness :
    (∀ c : List ℕ, c.length > 3 → (Samples.seg_pair 1000 0.03 c).indices.Nodup ∧
      ∀ i ∈ (Samples.seg_pair 1000 0.03 c).indices, i < c.length) ∧
    (extractPlanes_cluster (Samples.seg_pair 1000 0.03) (2 : Int).toNat [10, 11, 10, 13, 14] [])
      = ([[10, 10]], [11, 13, 14]) ∧
    (extractPlanes_residual Samples.seg_pair [10, 11, 10, 13, 14] 2 1000 0.03).length
        + ((extractPlanes_cluster (Samples.seg_pair 1000 0.03) (2 : Int).toNat
            [10, 11, 10, 13, 14] []).1.map List.length).sum
      = [10, 11, 10, 13, 14].length := by
  have hseg : ∀ c : List ℕ, c.length > 3 → (Samples.seg_pair 1000 0.03 c).indices.Nodup ∧
      ∀ i ∈ (Samples.seg_pair 1000 0.03 c).indices, i < c.length := by
    intro c hc
    have h : c.length > 2 := by omega
    unfold Samples.seg_pair
    simp only [h, if_true]
    refine ⟨by decide, ?_⟩
    intro i hi
    simp only [List.mem_cons, List.mem_singleton, List.not_mem_nil, or_false] at hi
    omega
  exact ⟨hseg, rfl,
    (extractPlanes_partition Samples.seg_pair 2 1000 0.03 hseg [10, 11, 10, 13, 14]).2.2.2.2⟩

/-- C8: per-cluster plane budget.  Whatever the segmenter, a call of `extractPlanes` stores for
each cluster at most `max_planes` planes, and none when `max_planes ≤ 0`. -/
theorem extractPlanes_plane_budget {Pt : Type} (seg : Segmenter Pt) (clusters : List (List Pt))
    (plane_storage st : List (ClusterPlanes Pt)) (max_planes max_iterations : Int)
    (distance_threshold : ℝ)
    (h : extractPlanes seg clusters plane_storage max_planes max_iterations distance_threshold
      = some st) (i : Nat) (hi : i < clusters.length) :
    ∃ record, st[i]? = some record ∧
      (record.planes.length : Int) ≤ max max_planes 0 ∧
      (max_planes ≤ 0 → record.planes = []) := by
  obtain ⟨_, hin, _⟩ := (extractPlanes_spec seg clusters plane_storage max_planes max_iterations
    distance_threshold).2 st h
  have hc : clusters[i]? = some clusters[i] := List.getElem?_eq_getElem hi
  refine ⟨_, hin i _ hc, ?_, ?_⟩
  · have := extractPlanes_cluster_length_le (seg max_iterations distance_threshold)
      max_planes.toNat clusters[i] []
    simp only [List.length_nil, Nat.zero_add] at this
    have h2 : ((max_planes.toNat : ℕ) : Int) = max max_planes 0 := Int.toNat_eq_max max_planes
    simp only
    omega
  · intro hmp
    have h0 : max_planes.toNat = 0 := Int.toNat_eq_zero.2 hmp
    simp only [h0, extractPlanes_cluster]

/-- Witness of C8: the sample run, at the cluster of index 0. -/
theorem extractPlanes_plane_budget_witness :
    extractPlanes Samples.seg_pair [[10, 11, 12, 13, 14], [5], []]
        [⟨[]⟩, ⟨[[7]]⟩, ⟨[]⟩, ⟨[[9]]⟩] 2 1000 0.03
      = some [⟨[[10, 12]]⟩, ⟨[]⟩, ⟨[]⟩, ⟨[[9]]⟩] ∧
    ∃ record, [(⟨[[10, 12]]⟩ : ClusterPlanes ℕ), ⟨[]⟩, ⟨[]⟩, ⟨[[9]]⟩][0]? = some record ∧
      (record.planes.length : Int) ≤ max 2 0 ∧ ((2 : Int) ≤ 0 → record.planes = []) :=
  ⟨sample_extractPlanes,
    extractPlanes_plane_budget Samples.seg_pair _ _ _ 2 1000 0.03 sample_extractPlanes 0
      (by decide)⟩

/-- C9: no cross-cluster leakage.  Two calls of `extractPlanes` with the same segmenter and
parameters whose cluster lists hold the same cluster at position `i` store the same record at
position `i`, whatever the other clusters and the previous contents of the storage are; the
record and the residual are those of the loop run on that cluster alone. -/
theorem extractPlanes_no_leakage {Pt : Type} (seg : Segmenter Pt)
    (clusters clusters' : List (List Pt)) (plane_storage plane_storage' : List (ClusterPlanes Pt))
    (st st' : List (ClusterPlanes Pt)) (max_planes max_iterations : Int)
    (distance_threshold : ℝ) (i : Nat) (cluster : List Pt)
    (hc : clusters[i]? = some cluster) (hc' : clusters'[i]? = some cluster)
    (h : extractPlanes seg clusters plane_storage max_planes max_iterations distance_threshold
      = some st)
    (h' : extractPlanes seg clusters' plane_storage' max_planes max_iterations distance_threshold
      = some st') :
    st[i]? = st'[i]? ∧
      st[i]? = some (ClusterPlanes.mk (extractPlanes_cluster
        (seg max_iterations distance_threshold) max_planes.toNat cluster []).1) := by
  obtain ⟨_, hin, _⟩ := (extractPlanes_spec seg clusters plane_storage max_planes max_iterations
    distance_threshold).2 st h
  obtain ⟨_, hin', _⟩ := (extractPlanes_spec seg clusters' plane_storage' max_planes
    max_iterations distance_threshold).2 st' h'
  rw [hin i cluster hc, hin' i cluster hc']
  exact ⟨rfl, rfl⟩

/-- Witness of C9: the sample run and a run on the first cluster alone, with another storage. -/
theorem extractPlanes_no_leakage_witness :
    [[10, 11, 12, 13, 14], [5], []][0]? = some [10, 11, 12, 13, 14] ∧
    [[10, 11, 12, 13, 14]][0]? = some [10, 11, 12, 13, 14] ∧
    extractPlanes Samples.seg_pair [[10, 11, 12, 13, 14], [5], []]
        [⟨[]⟩, ⟨[[7]]⟩, ⟨[]⟩, ⟨[[9]]⟩] 2 1000 0.03
      = some [⟨[[10, 12]]⟩, ⟨[]⟩, ⟨[]⟩, ⟨[[9]]⟩] ∧
    extractPlanes Samples.seg_pair [[10, 11, 12, 13, 14]] [⟨[[1], [2], [3]]⟩] 2 1000 0.03
      = some [⟨[[10, 12]]⟩] ∧
    [(⟨[[10, 12]]⟩ : ClusterPlanes ℕ), ⟨[]⟩, ⟨[]⟩, ⟨[[9]]⟩][0]?
      = [(⟨[[10, 12]]⟩ : ClusterPlanes ℕ)][0]? :=
  ⟨rfl, rfl, sample_extractPlanes, rfl,
    (extractPlanes_no_leakage Samples.seg_pair [[10, 11, 12, 13, 14], [5], []]
      [[10, 11, 12, 13, 14]] [⟨[]⟩, ⟨[[7]]⟩, ⟨[]⟩, ⟨[[9]]⟩] [⟨[[1], [2], [3]]⟩] _ _ 2 1000 0.03 0
      [10, 11, 12, 13, 14] rfl rfl sample_extractPlanes rfl).1⟩

/-- Counterexample to C10: in the sample run on the clusters `[]` and `[5]` the two stored
records are equal while the residuals differ (none, and the point `5`), so no reading of a record
gives the residual of its cluster. -/
theorem record_carries_residual_counterexample :
    extractPlanes Samples.seg_pair [[], [5]] [⟨[]⟩, ⟨[]⟩] 2 1000 0.03
      = some [⟨[]⟩, ⟨[]⟩] ∧
    extractPlanes_residual Samples.seg_pair [] 2 1000 0.03 = [] ∧
    extractPlanes_residual Samples.seg_pair [5] 2 1000 0.03 = [5] ∧
    ¬ ∃ residual_of : ClusterPlanes ℕ → List ℕ,
      ∀ st, extractPlanes Samples.seg_pair [[], [5]] [⟨[]⟩, ⟨[]⟩] 2 1000 0.03 = some st →
        ∀ (i : Nat) (c : List ℕ), [[], [5]][i]? = some c →
          st[i]?.map residual_of
            = some (extractPlanes_residual Samples.seg_pair c 2 1000 0.03) := by
  have hrun : extractPlanes Samples.seg_pair [[], [5]] [⟨[]⟩, ⟨[]⟩] 2 1000 0.03
      = some [⟨[]⟩, ⟨[]⟩] := rfl
  have hr0 : extractPlanes_residual Samples.seg_pair [] 2 1000 0.03 = [] := rfl
  have hr1 : extractPlanes_residual Samples.seg_pair [5] 2 1000 0.03 = [5] := rfl
  refine ⟨hrun, hr0, hr1, ?_⟩
  rintro ⟨f, hf⟩
  have h0 := hf _ hrun 0 [] rfl
  have h1 := hf _ hrun 1 [5] rfl
  rw [hr0] at h0
  rw [hr1] at h1
  simp only [List.getElem?_cons_zero, List.getElem?_cons_succ, Option.map_some',
    Option.some.injEq] at h0 h1
  rw [h0] at h1
  exact absurd h1 (by decide)

/-- C10, amended: cluster records are keyed by input position.  After a call of `extractPlanes`,
for every position `i` of `clusters` the record `plane_storage[i]` holds exactly the planes
extracted from `clusters[i]`, in extraction order: the first plane is the inlier set of the first
round, followed by the planes extracted from the points that round left.  The entries beyond the
clusters keep their contents.  A record has no other field. -/
theorem extractPlanes_records_by_position {Pt : Type} (seg : Segmenter Pt)
    (clusters : List (List Pt)) (plane_storage st : List (ClusterPlanes Pt))
    (max_planes max_iterations : Int) (distance_threshold : ℝ)
    (h : extractPlanes seg clusters plane_storage max_planes max_iterations distance_threshold
      = some st) :
    st.length = plane_storage.length ∧
      (∀ (i : Nat) (c : List Pt), clusters[i]? = some c →
        st[i]? = some (ClusterPlanes.mk (extractPlanes_cluster
          (seg max_iterations distance_threshold) max_planes.toNat c []).1)) ∧
      (∀ j, clusters.length ≤ j → st[j]? = plane_storage[j]?) ∧
      (∀ (budget : Nat) (c : List Pt),
        (extractPlanes_cluster (seg max_iterations distance_threshold) (budget + 1) c []).1
          = if c.length > 3 ∧ (seg max_iterations distance_threshold c).indices ≠ [] then
              ExtractIndices.filter c (seg max_iterations distance_threshold c).indices false ::
                (extractPlanes_cluster (seg max_iterations distance_threshold) budget
                  (ExtractIndices.filter c (seg max_iterations distance_threshold c).indices true)
                  []).1
            else []) ∧
      (∀ c : List Pt,
        (extractPlanes_cluster (seg max_iterations distance_threshold) 0 c []).1 = []) := by
  obtain ⟨hlen, hin, hout⟩ := (extractPlanes_spec seg clusters plane_storage max_planes
    max_iterations distance_threshold).2 st h
  refine ⟨hlen, hin, hout, ?_, ?_⟩
  · intro budget c
    simp only [extractPlanes_cluster]
    by_cases h3 : c.length > 3
    · by_cases hidx : (seg max_iterations distance_threshold c).indices = []
      · simp [h3, hidx]
      · have hl : ¬ (seg max_iterations distance_threshold c).indices.length = 0 := by
          simpa using hidx
        simp only [h3, hidx, hl, if_true, if_false, ne_eq, not_false_eq_true, and_self,
          List.nil_append]
        rw [(extractPlanes_cluster_acc _ budget _ _).1]
        rfl
    · simp [h3]
  · intro c
    rfl

/-- Witness of C10, amended: the sample run. -/
theorem extractPlanes_records_by_position_witness :
    extractPlanes Samples.seg_pair [[10, 11, 12, 13, 14], [5], []]
        [⟨[]⟩, ⟨[[7]]⟩, ⟨[]⟩, ⟨[[9]]⟩] 2 1000 0.03
      = some [⟨[[10, 12]]⟩, ⟨[]⟩, ⟨[]⟩, ⟨[[9]]⟩] ∧
    [(⟨[[10, 12]]⟩ : ClusterPlanes ℕ), ⟨[]⟩, ⟨[]⟩, ⟨[[9]]⟩].length
      = [(⟨[]⟩ : ClusterPlanes ℕ), ⟨[[7]]⟩, ⟨[]⟩, ⟨[[9]]⟩].length :=
  ⟨sample_extractPlanes,
    (extractPlanes_records_by_position Samples.seg_pair _ _ _ 2 1000 0.03
      sample_extractPlanes).1⟩

end PlaneProb

/-! ## Order dependence of the consolidation -/

namespace Terrain

open PCL

/-- C19: consolidation is order-dependent.  There are a two-entry registry, a candidate and
tolerances such that both entries are similar to the candidate, and the consolidation step keeps
the second entry of the registry while it drops that same plane when the two entries are
swapped: the two results hold different sets of planes. -/
theorem consolidate_order_dependent :
    ∃ (e1 e2 cand : ModelCoefficients) (angle_threshold distance_threshold : ℝ),
      is_similar_plane e1 cand angle_threshold (distance_threshold * 5) = true ∧
      is_similar_plane e2 cand angle_threshold (distance_threshold * 5) = true ∧
      consolidate [e1, e2] cand angle_threshold distance_threshold = [cand, e2] ∧
      consolidate [e2, e1] cand angle_threshold distance_threshold = [cand, e1] ∧
      e2 ∈ consolidate [e1, e2] cand angle_threshold distance_threshold ∧
      e2 ∉ consolidate [e2, e1] cand angle_threshold distance_threshold := by
  have hs1 : is_similar_plane ⟨0, 0, 1, 0⟩ ⟨0, 0, 1, 0.001⟩ 0.05 (0.01 * 5) = true := by
    rw [is_similar_plane_up, decide_eq_true_eq]
    constructor
    · norm_num
    · rw [abs_lt]; constructor <;> norm_num
  have hs2 : is_similar_plane ⟨0, 0, 1, 0.002⟩ ⟨0, 0, 1, 0.001⟩ 0.05 (0.01 * 5) = true := by
    rw [is_similar_plane_up, decide_eq_true_eq]
    constructor
    · norm_num
    · rw [abs_lt]; constructor <;> norm_num
  have hc1 : consolidate [⟨0, 0, 1, 0⟩, ⟨0, 0, 1, 0.002⟩] ⟨0, 0, 1, 0.001⟩ 0.05 0.01
      = [⟨0, 0, 1, 0.001⟩, ⟨0, 0, 1, 0.002⟩] := by
    simp only [consolidate, update_first_similar, hs1, if_true, Bool.not_true,
      Bool.false_eq_true, if_false]
  have hc2 : consolidate [⟨0, 0, 1, 0.002⟩, ⟨0, 0, 1, 0⟩] ⟨0, 0, 1, 0.001⟩ 0.05 0.01
      = [⟨0, 0, 1, 0.001⟩, ⟨0, 0, 1, 0⟩] := by
    simp only [consolidate, update_first_similar, hs2, if_true, Bool.not_true,
      Bool.false_eq_true, if_false]
  refine ⟨⟨0, 0, 1, 0⟩, ⟨0, 0, 1, 0.002⟩, ⟨0, 0, 1, 0.001⟩, 0.05, 0.01, hs1, hs2, hc1, hc2, ?_, ?_⟩
  · rw [hc1]; simp
  · rw [hc2]
    simp only [List.mem_cons, ModelCoefficients.mk.injEq, List.mem_singleton, List.not_mem_nil,
      or_false, true_and, not_or]
    constructor <;> norm_num

end Terrain

namespace Archive

open PCL

/-- Thirty degrees: `cos` of thirty degrees is `sqrt 3 / 2`, strictly between zero and one. -/
theorem cos_thirty_degrees :
    Real.cos (30 / 180 * Real.pi) = Real.sqrt 3 / 2 ∧
      0 < Real.cos (30 / 180 * Real.pi) ∧ Real.cos (30 / 180 * Real.pi) < 1 := by
  have h : (30 : ℝ) / 180 * Real.pi = Real.pi / 6 := by ring
  rw [h, Real.cos_pi_div_six]
  have h3 : Real.sqrt 3 < 2 := by
    rw [Real.sqrt_lt' (by norm_num)]; norm_num
  have h0 : 0 < Real.sqrt 3 := Real.sqrt_pos.2 (by norm_num)
  refine ⟨rfl, by linarith, by linarith⟩

end Archive

/-! ## The loop of `segmentPlanes` -/

namespace PCL

/-- With in-range indices the output of `ExtractIndices` has one point for each index. -/
theorem filter_false_length {Pt : Type} (input : List Pt) :
    ∀ indices : List Nat, (∀ i ∈ indices, i < input.length) →
      (ExtractIndices.filter input indices false).length = indices.length
  | [], _ => rfl
  | i :: rest, h => by
    have hi : i < input.length := h i (List.mem_cons_self _ _)
    have ih := filter_false_length input rest (fun x hx => h x (List.mem_cons_of_mem _ hx))
    unfold ExtractIndices.filter at ih ⊢
    simp only [Bool.false_eq_true, if_false] at ih ⊢
    rw [List.filterMap_cons, List.getElem?_eq_getElem hi]
    simp only [List.length_cons, ih]

/-- A non-negative `int` keeps its value when it is converted to `size_t`. -/
theorem size_t_of_int_of_nonneg (n : Int) (h0 : 0 ≤ n) (h1 : n < 2 ^ 31) :
    (size_t_of_int n : Int) = n := by
  unfold size_t_of_int
  have h2 : n % 2 ^ 64 = n := Int.emod_eq_of_lt h0 (by omega)
  rw [h2, Int.toNat_of_nonneg h0]

end PCL

namespace Archive

open PCL

/-- The loop of `segmentPlanes` only appends to `segmentedPlanes`, at most `budget` planes. -/
theorem segmentPlanes_loop_length_le {Pt : Type} (seg : List Pt → SegResult) (minPoints : Int) :
    ∀ (budget : Nat) (cur : List Pt) (planes : List (List Pt)),
      (segmentPlanes_loop seg minPoints budget cur planes).1.length ≤ planes.length + budget
  | 0, cur, planes => by simp [segmentPlanes_loop]
  | budget + 1, cur, planes => by
    simp only [segmentPlanes_loop]
    split
    · simp
    · have h := segmentPlanes_loop_length_le seg minPoints budget
        (ExtractIndices.filter cur (seg cur).indices true)
        (planes ++ [ExtractIndices.filter cur (seg cur).indices false])
      simp only [List.length_append, List.length_singleton] at h
      omega

/-- The loop of `segmentPlanes` calls the segmenter at most `budget` times. -/
theorem segmentPlanes_calls_length_le {Pt : Type} (seg : List Pt → SegResult) (minPoints : Int) :
    ∀ (budget : Nat) (cur : List Pt),
      (segmentPlanes_calls seg minPoints budget cur).length ≤ budget
  | 0, cur => by simp [segmentPlanes_calls]
  | budget + 1, cur => by
    simp only [segmentPlanes_calls]
    split
    · simp
    · have h := segmentPlanes_calls_length_le seg minPoints budget
        (ExtractIndices.filter cur (seg cur).indices true)
      simp only [List.length_cons]
      omega

/-- Every plane that the loop of `segmentPlanes` records comes from a call of the segmenter. -/
theorem segmentPlanes_loop_length_le_calls {Pt : Type} (seg : List Pt → SegResult)
    (minPoints : Int) :
    ∀ (budget : Nat) (cur : List Pt) (planes : List (List Pt)),
      (segmentPlanes_loop seg minPoints budget cur planes).1.length
        ≤ planes.length + (segmentPlanes_calls seg minPoints budget cur).length
  | 0, cur, planes => by simp [segmentPlanes_loop]
  | budget + 1, cur, planes => by
    simp only [segmentPlanes_loop, segmentPlanes_calls]
    split
    · simp
    · have h := segmentPlanes_loop_length_le_calls seg minPoints budget
        (ExtractIndices.filter cur (seg cur).indices true)
        (planes ++ [ExtractIndices.filter cur (seg cur).indices false])
      simp only [List.length_append, List.length_singleton] at h
      simp only [List.length_cons]
      omega

/-- Every plane that the loop of `segmentPlanes` adds has at least `minPoints` points, when the
segmenter reports in-range indices. -/
theorem segmentPlanes_loop_floor {Pt : Type} (seg : List Pt → SegResult) (minPoints : Int)
    (h0 : 0 ≤ minPoints) (h1 : minPoints < 2 ^ 31)
    (hseg : ∀ c, ∀ i ∈ (seg c).indices, i < c.length) :
    ∀ (budget : Nat) (cur : List Pt) (planes : List (List Pt)),
      (∀ p ∈ planes, minPoints ≤ (p.length : Int)) →
      ∀ p ∈ (segmentPlanes_loop seg minPoints budget cur planes).1, minPoints ≤ (p.length : Int)
  | 0, cur, planes, h => by simpa [segmentPlanes_loop] using h
  | budget + 1, cur, planes, h => by
    simp only [segmentPlanes_loop]
    split
    · exact h
    · rename_i hlt
      apply segmentPlanes_loop_floor seg minPoints h0 h1 hseg budget
      intro p hp
      rcases List.mem_append.1 hp with hp | hp
      · exact h p hp
      · rw [List.mem_singleton] at hp
        subst hp
        rw [filter_false_length cur _ (hseg cur)]
        have := size_t_of_int_of_nonneg minPoints h0 h1
        omega

/-- C11: bounded termination of `segmentPlanes`.  For every cloud, every `maxIterations`,
`minPoints` and `distanceThreshold` and any segmenter, the loop calls the segmenter at most
`max(maxIterations, 0)` times, every plane returned comes from one of these calls, and
`segmentPlanes` returns at most `max(maxIterations, 0)` planes. -/
theorem segmentPlanes_bounded {Pt : Type} (seg : Segmenter Pt) (cloud : List Pt)
    (maxIterations minPoints : Int) (distanceThreshold : ℝ) :
    ((segmentPlanes_calls (seg SACSegmentation_default_max_iterations distanceThreshold)
        minPoints maxIterations.toNat cloud).length : Int) ≤ max maxIterations 0 ∧
      (segmentPlanes seg cloud maxIterations minPoints distanceThreshold).length
        ≤ (segmentPlanes_calls (seg SACSegmentation_default_max_iterations distanceThreshold)
            minPoints maxIterations.toNat cloud).length ∧
      ((segmentPlanes seg cloud maxIterations minPoints distanceThreshold).length : Int)
        ≤ max maxIterations 0 := by
  have hc := segmentPlanes_calls_length_le
    (seg SACSegmentation_default_max_iterations distanceThreshold) minPoints
    maxIterations.toNat cloud
  have hl := segmentPlanes_loop_length_le_calls
    (seg SACSegmentation_default_max_iterations distanceThreshold) minPoints
    maxIterations.toNat cloud []
  simp only [List.length_nil, Nat.zero_add] at hl
  have hmax : ((maxIterations.toNat : ℕ) : Int) = max maxIterations 0 :=
    Int.toNat_eq_max maxIterations
  unfold segmentPlanes
  refine ⟨by omega, hl, by omega⟩

/-- C13: minimum-inlier floor in `segmentPlanes`.  For `minPoints ≥ 0` and a segmenter that
reports in-range indices: a round whose fit has fewer than `minPoints` inliers leaves the loop
with `segmentedPlanes` and `remainingCloud` as they were, and every plane that `segmentPlanes`
returns has at least `minPoints` points. -/
theorem segmentPlanes_floor {Pt : Type} (seg : Segmenter Pt) (cloud : List Pt)
    (maxIterations minPoints : Int) (distanceThreshold : ℝ)
    (h0 : 0 ≤ minPoints) (h1 : minPoints < 2 ^ 31)
    (hseg : ∀ c, ∀ i ∈ (seg SACSegmentation_default_max_iterations distanceThreshold c).indices,
      i < c.length) :
    (∀ (budget : Nat) (remainingCloud : List Pt) (segmentedPlanes : List (List Pt)),
      (((seg SACSegmentation_default_max_iterations distanceThreshold remainingCloud).indices.length
          : ℕ) : Int) < minPoints →
      segmentPlanes_loop (seg SACSegmentation_default_max_iterations distanceThreshold) minPoints
          (budget + 1) remainingCloud segmentedPlanes
        = (segmentedPlanes, remainingCloud)) ∧
    (∀ (budget : Nat) (remainingCloud : List Pt) (segmentedPlanes : List (List Pt)),
      minPoints ≤ (((seg SACSegmentation_default_max_iterations distanceThreshold
          remainingCloud).indices.length : ℕ) : Int) →
      segmentPlanes_loop (seg SACSegmentation_default_max_iterations distanceThreshold) minPoints
          (budget + 1) remainingCloud segmentedPlanes
        = segmentPlanes_loop (seg SACSegmentation_default_max_iterations distanceThreshold)
            minPoints budget
            (ExtractIndices.filter remainingCloud
              (seg SACSegmentation_default_max_iterations distanceThreshold
                remainingCloud).indices true)
            (segmentedPlanes ++ [ExtractIndices.filter remainingCloud
              (seg SACSegmentation_default_max_iterations distanceThreshold
                remainingCloud).indices false])) ∧
    (∀ plane ∈ segmentPlanes seg cloud maxIterations minPoints distanceThreshold,
      minPoints ≤ (plane.length : Int)) := by
  have hsz := size_t_of_int_of_nonneg minPoints h0 h1
  refine ⟨?_, ?_, ?_⟩
  · intro budget rc planes hlt
    have : (seg SACSegmentation_default_max_iterations distanceThreshold rc).indices.length
        < size_t_of_int minPoints := by omega
    simp only [segmentPlanes_loop, this, if_true]
  · intro budget rc planes hge
    have : ¬ (seg SACSegmentation_default_max_iterations distanceThreshold rc).indices.length
        < size_t_of_int minPoints := by omega
    simp only [segmentPlanes_loop, this, if_false]
  · unfold segmentPlanes
    exact segmentPlanes_loop_floor _ minPoints h0 h1 hseg maxIterations.toNat cloud []
      (by simp)

end Archive

/-! ## The calls of the segmenter in `extractPlanes` -/

namespace PlaneProb

open PCL

/-- On a cloud of at most three points the inner loop does nothing. -/
theorem extractPlanes_cluster_small {Pt : Type} (seg : List Pt → SegResult) (budget : Nat)
    (cur : List Pt) (planes : List (List Pt)) (h : cur.length ≤ 3) :
    extractPlanes_cluster seg budget cur planes = (planes, cur) ∧
      extractPlanes_cluster_calls seg budget cur planes = [] := by
  have h' : ¬ cur.length > 3 := by omega
  cases budget with
  | zero => exact ⟨rfl, rfl⟩
  | succ b => simp only [extractPlanes_cluster, extractPlanes_cluster_calls, h', if_false,
      and_self]

/-- The inner loop calls the segmenter at most `budget` times. -/
theorem extractPlanes_cluster_calls_length_le {Pt : Type} (seg : List Pt → SegResult) :
    ∀ (budget : Nat) (cur : List Pt) (planes : List (List Pt)),
      (extractPlanes_cluster_calls seg budget cur planes).length ≤ budget
  | 0, cur, planes => by simp [extractPlanes_cluster_calls]
  | budget + 1, cur, planes => by
    simp only [extractPlanes_cluster_calls]
    split
    · split
      · simp
      · have h := extractPlanes_cluster_calls_length_le seg budget
          (ExtractIndices.filter cur (seg cur).indices true)
          (planes ++ [ExtractIndices.filter cur (seg cur).indices false])
        simp only [List.length_cons]
        omega
    · simp

/-- The call number `k` of the inner loop is made with `k` more planes recorded than at the
start, with budget left, and on a cloud of more than three points. -/
theorem extractPlanes_cluster_calls_entry {Pt : Type} (seg : List Pt → SegResult) :
    ∀ (budget : Nat) (cur : List Pt) (planes : List (List Pt)) (k : Nat)
      (e : List (List Pt) × List Pt),
      (extractPlanes_cluster_calls seg budget cur planes)[k]? = some e →
      e.1.length = planes.length + k ∧ k < budget ∧ e.2.length > 3
  | 0, cur, planes, k, e, h => by simp [extractPlanes_cluster_calls] at h
  | budget + 1, cur, planes, k, e, h => by
    simp only [extractPlanes_cluster_calls] at h
    split at h
    · rename_i hlen
      cases k with
      | zero =>
        simp only [List.getElem?_cons_zero, Option.some.injEq] at h
        subst h
        exact ⟨rfl, Nat.succ_pos _, hlen⟩
      | succ k =>
        simp only [List.getElem?_cons_succ] at h
        split at h
        · simp at h
        · have ih := extractPlanes_cluster_calls_entry seg budget _ _ k e h
          simp only [List.length_append, List.length_singleton] at ih
          exact ⟨by omega, by omega, ih.2.2⟩
    · simp at h

/-- The loop test: the inner loop calls the segmenter first thing exactly when there is budget
left and the cloud has more than three points. -/
theorem extractPlanes_cluster_calls_ne_nil {Pt : Type} (seg : List Pt → SegResult)
    (budget : Nat) (cur : List Pt) (planes : List (List Pt)) :
    (extractPlanes_cluster_calls seg budget cur planes).head? = some (planes, cur) ↔
      (0 < budget ∧ cur.length > 3) := by
  cases budget with
  | zero => simp [extractPlanes_cluster_calls]
  | succ b =>
    simp only [extractPlanes_cluster_calls]
    split
    · rename_i h
      simp [h]
    · rename_i h
      simp [h]

/-- A call of the segmenter that reports no inlier is the last call of the inner loop, and the
loop returns the planes and the cloud as they stand at that call. -/
theorem extractPlanes_cluster_stop {Pt : Type} (seg : List Pt → SegResult) :
    ∀ (budget : Nat) (cur : List Pt) (planes : List (List Pt))
      (e : List (List Pt) × List Pt),
      e ∈ extractPlanes_cluster_calls seg budget cur planes → (seg e.2).indices = [] →
      extractPlanes_cluster seg budget cur planes = e ∧
        (extractPlanes_cluster_calls seg budget cur planes).getLast? = some e
  | 0, cur, planes, e, h, _ => by simp [extractPlanes_cluster_calls] at h
  | budget + 1, cur, planes, e, h, he => by
    simp only [extractPlanes_cluster_calls] at h
    simp only [extractPlanes_cluster, extractPlanes_cluster_calls]
    split at h
    · rename_i hlen
      simp only [hlen, if_true]
      by_cases hidx : (seg cur).indices.length = 0
      · simp only [hidx, if_true, List.mem_singleton] at h
        subst h
        simp [hidx]
      · simp only [hidx, if_false, List.mem_cons] at h
        simp only [hidx, if_false]
        rcases h with h | h
        · subst h
          exact absurd (by simp [he]) hidx
        · have ih := extractPlanes_cluster_stop seg budget _ _ e h he
          refine ⟨ih.1, ?_⟩
          generalize extractPlanes_cluster_calls seg budget
            (ExtractIndices.filter cur (seg cur).indices true)
            (planes ++ [ExtractIndices.filter cur (seg cur).indices false]) = l at h ih
          cases l with
          | nil => simp at h
          | cons a t => rw [List.getLast?_cons_cons]; exact ih.2
    · simp at h

/-- When the inner loop is left, either the last call of the segmenter reported no inlier, or
the loop test fails on the planes and the cloud that the loop returns. -/
theorem extractPlanes_cluster_final {Pt : Type} (seg : List Pt → SegResult) :
    ∀ (budget : Nat) (cur : List Pt) (planes : List (List Pt)),
      (∃ e ∈ extractPlanes_cluster_calls seg budget cur planes,
          (seg e.2).indices = [] ∧ extractPlanes_cluster seg budget cur planes = e) ∨
        ¬ ((extractPlanes_cluster seg budget cur planes).1.length < planes.length + budget ∧
            (extractPlanes_cluster seg budget cur planes).2.length > 3)
  | 0, cur, planes => by
    right
    simp [extractPlanes_cluster]
  | budget + 1, cur, planes => by
    simp only [extractPlanes_cluster, extractPlanes_cluster_calls]
    by_cases hlen : cur.length > 3
    · simp only [hlen, if_true]
      by_cases hidx : (seg cur).indices.length = 0
      · left
        refine ⟨(planes, cur), by simp, by simpa using hidx, by simp [hidx]⟩
      · simp only [hidx, if_false]
        rcases extractPlanes_cluster_final seg budget
          (ExtractIndices.filter cur (seg cur).indices true)
          (planes ++ [ExtractIndices.filter cur (seg cur).indices false]) with ih | ih
        · left
          obtain ⟨e, he, h1, h2⟩ := ih
          exact ⟨e, List.mem_cons_of_mem _ he, h1, h2⟩
        · right
          simp only [List.length_append, List.length_singleton] at ih
          intro h
          exact ih ⟨by omega, h.2⟩
    · right
      simp only [hlen, if_false]
      intro h
      exact h.2

end PlaneProb

namespace Archive

open PCL

/-- Witness of C13: the sample segmenter on a cloud of five points with `minPoints = 2`: two
planes of two points each are returned, and the round on the last point, whose fit has no
inlier, records nothing. -/
theorem segmentPlanes_floor_witness :
    ((0 : Int) ≤ 2 ∧ (2 : Int) < 2 ^ 31) ∧
    (∀ c : List ℕ, ∀ i ∈ (Samples.seg_pair SACSegmentation_default_max_iterations 0.03 c).indices,
      i < c.length) ∧
    segmentPlanes Samples.seg_pair [10, 11, 12, 13, 14] 5 2 0.03 = [[10, 12], [11, 14]] ∧
    (∀ plane ∈ segmentPlanes Samples.seg_pair [10, 11, 12, 13, 14] 5 2 0.03,
      (2 : Int) ≤ (plane.length : Int)) := by
  have hseg : ∀ c : List ℕ,
      ∀ i ∈ (Samples.seg_pair SACSegmentation_default_max_iterations 0.03 c).indices,
        i < c.length := by
    intro c i hi
    unfold Samples.seg_pair at hi
    by_cases h : c.length > 2
    · simp only [h, if_true, List.mem_cons, List.mem_singleton, List.not_mem_nil,
        or_false] at hi
      omega
    · simp [h] at hi
  exact ⟨⟨by decide, by decide⟩, hseg, rfl,
    (segmentPlanes_floor Samples.seg_pair [10, 11, 12, 13, 14] 5 2 0.03 (by decide) (by decide)
      hseg).2.2⟩

end Archive

namespace PlaneProb

open PCL

/-- Counterexample to C12: the sample segmenter on a cluster of eight points with
`max_planes = 2` and `max_iterations = 1`.  The segmenter is called twice; the second call is
made after one round, which is not below `max_iterations`, and the two rounds exceed
`max_iterations`. -/
theorem fitter_guard_counterexample :
    extractPlanes_cluster_calls (Samples.seg_pair 1 0.03) (2 : Int).toNat
        [1, 2, 3, 4, 5, 6, 7, 8] []
      = [([], [1, 2, 3, 4, 5, 6, 7, 8]), ([[1, 3]], [2, 4, 5, 6, 7, 8])] ∧
    ¬ ((1 : Int) < 1 ∧ [2, 4, 5, 6, 7, 8].length > 3 ∧ (([[1, 3]].length : ℕ) : Int) < 2) ∧
    ¬ (((extractPlanes_cluster_calls (Samples.seg_pair 1 0.03) (2 : Int).toNat
        [1, 2, 3, 4, 5, 6, 7, 8] []).length : Int) ≤ 1) := by
  have h : extractPlanes_cluster_calls (Samples.seg_pair 1 0.03) (2 : Int).toNat
      [1, 2, 3, 4, 5, 6, 7, 8] []
      = [([], [1, 2, 3, 4, 5, 6, 7, 8]), ([[1, 3]], [2, 4, 5, 6, 7, 8])] := rfl
  refine ⟨h, by decide, ?_⟩
  rw [h]
  decide

/-- C12, amended: transition guard of the per-cluster extractor.  In a round, `extractPlanes`
calls the segmenter exactly when fewer than `max_planes` rounds have been done (as many as
planes have been recorded) and the remaining cloud has more than three points: the call number
`k` is made with `k` planes recorded, `k < max_planes` and more than three points; the loop is
left only when a call reports no inlier or when this test fails; and there are at most
`max(max_planes, 0)` calls on one cluster.  `max_iterations` is handed to the segmenter and is
not part of the test. -/
theorem extractPlanes_transition_guard {Pt : Type} (seg : Segmenter Pt)
    (max_planes max_iterations : Int) (distance_threshold : ℝ) (cluster : List Pt) :
    (∀ (k : Nat) (e : List (List Pt) × List Pt),
      (extractPlanes_cluster_calls (seg max_iterations distance_threshold) max_planes.toNat
        cluster [])[k]? = some e →
      e.1.length = k ∧ (k : Int) < max_planes ∧ e.2.length > 3) ∧
    (∀ (j : Nat) (current_cluster : List Pt) (planes : List (List Pt)),
      (extractPlanes_cluster_calls (seg max_iterations distance_threshold)
          (max_planes - j).toNat current_cluster planes).head? = some (planes, current_cluster) ↔
        ((j : Int) < max_planes ∧ current_cluster.length > 3)) ∧
    ((∃ e ∈ extractPlanes_cluster_calls (seg max_iterations distance_threshold)
          max_planes.toNat cluster [],
        (seg max_iterations distance_threshold e.2).indices = [] ∧
          extractPlanes_cluster (seg max_iterations distance_threshold) max_planes.toNat
            cluster [] = e) ∨
      ¬ ((((extractPlanes_cluster (seg max_iterations distance_threshold) max_planes.toNat
              cluster []).1.length : ℕ) : Int) < max_planes ∧
          (extractPlanes_cluster (seg max_iterations distance_threshold) max_planes.toNat
            cluster []).2.length > 3)) ∧
    ((extractPlanes_cluster_calls (seg max_iterations distance_threshold) max_planes.toNat
        cluster []).length : Int) ≤ max max_planes 0 := by
  have hmax : ((max_planes.toNat : ℕ) : Int) = max max_planes 0 := Int.toNat_eq_max max_planes
  refine ⟨?_, ?_, ?_, ?_⟩
  · intro k e h
    have := extractPlanes_cluster_calls_entry _ _ _ _ k e h
    simp only [List.length_nil, Nat.zero_add] at this
    exact ⟨this.1, by omega, this.2.2⟩
  · intro j cur planes
    rw [extractPlanes_cluster_calls_ne_nil]
    constructor
    · rintro ⟨h1, h2⟩
      exact ⟨by omega, h2⟩
    · rintro ⟨h1, h2⟩
      exact ⟨by omega, h2⟩
  · rcases extractPlanes_cluster_final (seg max_iterations distance_threshold)
      max_planes.toNat cluster [] with h | h
    · exact Or.inl h
    · right
      intro hc
      apply h
      simp only [List.length_nil, Nat.zero_add]
      exact ⟨by omega, hc.2⟩
  · have := extractPlanes_cluster_calls_length_le (seg max_iterations distance_threshold)
      max_planes.toNat cluster []
    omega

/-- Witness of C12, amended: the two calls of the sample run on eight points. -/
theorem extractPlanes_transition_guard_witness :
    (extractPlanes_cluster_calls (Samples.seg_pair 1 0.03) (2 : Int).toNat
        [1, 2, 3, 4, 5, 6, 7, 8] [])[1]? = some ([[1, 3]], [2, 4, 5, 6, 7, 8]) ∧
    ([[1, 3]].length = 1 ∧ ((1 : ℕ) : Int) < 2 ∧ [2, 4, 5, 6, 7, 8].length > 3) :=
  ⟨rfl, (extractPlanes_transition_guard Samples.seg_pair 2 1 0.03
    [1, 2, 3, 4, 5, 6, 7, 8]).1 1 ([[1, 3]], [2, 4, 5, 6, 7, 8]) rfl⟩

/-- C14: insufficient points are absorbed as "no plane".  For a cluster of at most three
points, `extractPlanes` never calls the segmenter on it, records no plane for it, leaves all its
points as residual, and still stores for every cluster of the list the planes of that
cluster. -/
theorem extractPlanes_insufficient_points {Pt : Type} (seg : Segmenter Pt)
    (max_planes max_iterations : Int) (distance_threshold : ℝ) (cluster : List Pt)
    (h : cluster.length ≤ 3) :
    extractPlanes_cluster_calls (seg max_iterations distance_threshold) max_planes.toNat
        cluster [] = [] ∧
    extractPlanes_cluster (seg max_iterations distance_threshold) max_planes.toNat cluster []
      = ([], cluster) ∧
    extractPlanes_residual seg cluster max_planes max_iterations distance_threshold = cluster ∧
    (∀ (clusters : List (List Pt)) (plane_storage st : List (ClusterPlanes Pt)),
      extractPlanes seg clusters plane_storage max_planes max_iterations distance_threshold
        = some st →
      (∀ i : Nat, clusters[i]? = some cluster → st[i]? = some (ClusterPlanes.mk [])) ∧
      (∀ (k : Nat) (c : List Pt), clusters[k]? = some c →
        st[k]? = some (ClusterPlanes.mk (extractPlanes_cluster
          (seg max_iterations distance_threshold) max_planes.toNat c []).1))) := by
  obtain ⟨h1, h2⟩ := extractPlanes_cluster_small (seg max_iterations distance_threshold)
    max_planes.toNat cluster [] h
  refine ⟨h2, h1, by rw [extractPlanes_residual, h1], ?_⟩
  intro clusters plane_storage st hst
  obtain ⟨_, hin, _⟩ := (extractPlanes_spec seg clusters plane_storage max_planes max_iterations
    distance_threshold).2 st hst
  refine ⟨?_, hin⟩
  intro i hi
  rw [hin i cluster hi, h1]

/-- Witness of C14: the sample run of three clusters; the clusters of index 1 and 2 have one
and no point. -/
theorem extractPlanes_insufficient_points_witness :
    [5].length ≤ 3 ∧
    extractPlanes Samples.seg_pair [[10, 11, 12, 13, 14], [5], []]
        [⟨[]⟩, ⟨[[7]]⟩, ⟨[]⟩, ⟨[[9]]⟩] 2 1000 0.03
      = some [⟨[[10, 12]]⟩, ⟨[]⟩, ⟨[]⟩, ⟨[[9]]⟩] ∧
    extractPlanes_cluster_calls (Samples.seg_pair 1000 0.03) (2 : Int).toNat [5] [] = [] ∧
    extractPlanes_residual Samples.seg_pair [5] 2 1000 0.03 = [5] ∧
    [(⟨[[10, 12]]⟩ : ClusterPlanes ℕ), ⟨[]⟩, ⟨[]⟩, ⟨[[9]]⟩][1]? = some (ClusterPlanes.mk []) :=
  have h := extractPlanes_insufficient_points Samples.seg_pair 2 1000 0.03 [5] (by decide)
  ⟨by decide, sample_extractPlanes, h.1, h.2.2.1,
    (h.2.2.2 _ _ _ sample_extractPlanes).1 1 rfl⟩

/-- C15: a fit without inliers is absorbed locally.  When, for a cluster, a call of the
segmenter reports no inlier, that call is the last one on the cluster; the planes recorded up
to that call are what is stored for the cluster, the cloud passed to that call is the residual,
unchanged; and every cluster of the list, the later ones included, still gets its record. -/
theorem extractPlanes_no_model_absorbed {Pt : Type} (seg : Segmenter Pt)
    (max_planes max_iterations : Int) (distance_threshold : ℝ) (cluster : List Pt)
    (e : List (List Pt) × List Pt)
    (he : e ∈ extractPlanes_cluster_calls (seg max_iterations distance_threshold)
      max_planes.toNat cluster [])
    (hempty : (seg max_iterations distance_threshold e.2).indices = []) :
    (extractPlanes_cluster_calls (seg max_iterations distance_threshold) max_planes.toNat
        cluster []).getLast? = some e ∧
    extractPlanes_cluster (seg max_iterations distance_threshold) max_planes.toNat cluster []
      = (e.1, e.2) ∧
    extractPlanes_residual seg cluster max_planes max_iterations distance_threshold = e.2 ∧
    (∀ (clusters : List (List Pt)) (plane_storage st : List (ClusterPlanes Pt)),
      extractPlanes seg clusters plane_storage max_planes max_iterations distance_threshold
        = some st →
      (∀ i : Nat, clusters[i]? = some cluster → st[i]? = some (ClusterPlanes.mk e.1)) ∧
      (∀ (k : Nat) (c : List Pt), clusters[k]? = some c →
        st[k]? = some (ClusterPlanes.mk (extractPlanes_cluster
          (seg max_iterations distance_threshold) max_planes.toNat c []).1))) := by
  obtain ⟨h1, h2⟩ := extractPlanes_cluster_stop (seg max_iterations distance_threshold)
    max_planes.toNat cluster [] e he hempty
  refine ⟨h2, h1, by rw [extractPlanes_residual, h1], ?_⟩
  intro clusters plane_storage st hst
  obtain ⟨_, hin, _⟩ := (extractPlanes_spec seg clusters plane_storage max_planes max_iterations
    distance_threshold).2 st hst
  refine ⟨?_, hin⟩
  intro i hi
  rw [hin i cluster hi, h1]

/-- Witness of C15: the sample segmenter that needs six points, on a cluster of eight points
followed by a cluster of six: the third call on the first cluster, on four points, reports no
inlier; the two planes found before it are stored, and the second cluster gets its plane. -/
theorem extractPlanes_no_model_absorbed_witness :
    (([[1, 3], [2, 5]], [4, 6, 7, 8]) : List (List ℕ) × List ℕ)
      ∈ extractPlanes_cluster_calls (Samples.seg_six 1000 0.03) (5 : Int).toNat
          [1, 2, 3, 4, 5, 6, 7, 8] [] ∧
    (Samples.seg_six 1000 0.03 [4, 6, 7, 8]).indices = [] ∧
    extractPlanes Samples.seg_six [[1, 2, 3, 4, 5, 6, 7, 8], [21, 22, 23, 24, 25, 26]]
        [⟨[]⟩, ⟨[]⟩] 5 1000 0.03
      = some [⟨[[1, 3], [2, 5]]⟩, ⟨[[21, 23]]⟩] ∧
    extractPlanes_residual Samples.seg_six [1, 2, 3, 4, 5, 6, 7, 8] 5 1000 0.03
      = [4, 6, 7, 8] ∧
    [(⟨[[1, 3], [2, 5]]⟩ : ClusterPlanes ℕ), ⟨[[21, 23]]⟩][0]?
      = some (ClusterPlanes.mk [[1, 3], [2, 5]]) := by
  have hmem : (([[1, 3], [2, 5]], [4, 6, 7, 8]) : List (List ℕ) × List ℕ)
      ∈ extractPlanes_cluster_calls (Samples.seg_six 1000 0.03) (5 : Int).toNat
          [1, 2, 3, 4, 5, 6, 7, 8] [] := by
    have hc : extractPlanes_cluster_calls (Samples.seg_six 1000 0.03) (5 : Int).toNat
        [1, 2, 3, 4, 5, 6, 7, 8] []
        = [([], [1, 2, 3, 4, 5, 6, 7, 8]), ([[1, 3]], [2, 4, 5, 6, 7, 8]),
            ([[1, 3], [2, 5]], [4, 6, 7, 8])] := rfl
    rw [hc]
    simp
  have hrun : extractPlanes Samples.seg_six
      [[1, 2, 3, 4, 5, 6, 7, 8], [21, 22, 23, 24, 25, 26]] [⟨[]⟩, ⟨[]⟩] 5 1000 0.03
      = some [⟨[[1, 3], [2, 5]]⟩, ⟨[[21, 23]]⟩] := rfl
  have h := extractPlanes_no_model_absorbed Samples.seg_six 5 1000 0.03
    [1, 2, 3, 4, 5, 6, 7, 8] ([[1, 3], [2, 5]], [4, 6, 7, 8]) hmem rfl
  exact ⟨hmem, rfl, hrun, h.2.2.1, (h.2.2.2 _ _ _ hrun).1 0 rfl⟩

end PlaneProb

/-! ## Clustering -/

namespace PlaneProb

open PCL

/-- With in-range indices the cloud of a cluster is built, one point for each index, in the order
of the indices. -/
theorem cloud_cluster_of_some {Pt : Type} (cloud : List Pt) :
    ∀ indices : List Nat, (∀ i ∈ indices, i < cloud.length) →
      ∃ points, cloud_cluster_of cloud indices = some points ∧
        points.length = indices.length ∧
        points = indices.filterMap (fun i => cloud[i]?)
  | [], _ => ⟨[], rfl, rfl, rfl⟩
  | idx :: rest, h => by
    have hi : idx < cloud.length := h idx (List.mem_cons_self _ _)
    obtain ⟨points, hp, hlen, heq⟩ :=
      cloud_cluster_of_some cloud rest (fun x hx => h x (List.mem_cons_of_mem _ hx))
    refine ⟨cloud[idx] :: points, ?_, ?_, ?_⟩
    · simp only [cloud_cluster_of, List.getElem?_eq_getElem hi, hp]
    · simp [hlen]
    · rw [List.filterMap_cons, List.getElem?_eq_getElem hi, heq]

/-- With in-range indices every slot is assigned: slot `k` of the original clusters holds the
cloud of the cluster of index `k`, and both vectors have one slot for each cluster. -/
theorem cluster_slots_some {Pt : Type} (downsampleCluster : List Pt → ℝ → ℝ → ℝ → List Pt)
    (cloud : List Pt) (lx ly lz : ℝ) :
    ∀ cluster_indices : List (List Nat),
      (∀ c ∈ cluster_indices, ∀ i ∈ c, i < cloud.length) →
      ∃ slots, cluster_slots downsampleCluster cloud lx ly lz cluster_indices = some slots ∧
        slots.1.length = cluster_indices.length ∧ slots.2.length = cluster_indices.length ∧
        (∀ (k : Nat) (c : List Pt), slots.1[k]? = some c →
          ∃ indices, cluster_indices[k]? = some indices ∧
            cloud_cluster_of cloud indices = some c ∧ c.length = indices.length)
  | [], _ => ⟨([], []), rfl, rfl, rfl, by simp⟩
  | indices :: rest, h => by
    obtain ⟨points, hp, hlen, _⟩ :=
      cloud_cluster_of_some cloud indices (h indices (List.mem_cons_self _ _))
    obtain ⟨slots, hs, h1, h2, h3⟩ := cluster_slots_some downsampleCluster cloud lx ly lz rest
      (fun c hc => h c (List.mem_cons_of_mem _ hc))
    refine ⟨(points :: slots.1, downsampleCluster points lx ly lz :: slots.2), ?_, ?_, ?_, ?_⟩
    · simp only [cluster_slots, hp, hs]
    · simp [h1]
    · simp [h2]
    · intro k c hk
      cases k with
      | zero =>
        simp only [List.getElem?_cons_zero, Option.some.injEq] at hk
        subst hk
        exact ⟨indices, by simp, hp, hlen⟩
      | succ k =>
        simp only [List.getElem?_cons_succ] at hk
        obtain ⟨idxs, hi1, hi2, hi3⟩ := h3 k c hk
        exact ⟨idxs, by simpa using hi1, hi2, hi3⟩

/-- C17: cluster size bounds.  `EuclideanClusteringAndDownsampleClusters` hands the clusterer
`floor(n/10)` and `floor(n/2)` as its size bounds, `n` the size of the input cloud.  With a
clusterer that keeps its contract, the call succeeds, stores one original and one downsampled
cluster for each cluster found, every stored original cluster has between `floor(n/10)` and
`floor(n/2)` points, and the stored original clusters are the clouds of pairwise disjoint sets
of distinct indices of the input. -/
theorem cluster_size_bounds {Pt : Type} (ec : ClusterExtraction Pt) (hec : ec.Contract)
    (downsampleCluster : List Pt → ℝ → ℝ → ℝ → List Pt) (cloud : List Pt)
    (cluster_tolerance dw_leaf_size_x dw_leaf_size_y dw_leaf_size_z : ℝ) :
    ∃ g, EuclideanClusteringAndDownsampleClusters ec downsampleCluster cloud cluster_tolerance
        dw_leaf_size_x dw_leaf_size_y dw_leaf_size_z = some g ∧
      g.global_original_clusters.length
        = (ec cluster_tolerance (cloud.length / 10) (cloud.length / 2) cloud).length ∧
      g.global_downsampled_clusters.length
        = (ec cluster_tolerance (cloud.length / 10) (cloud.length / 2) cloud).length ∧
      (∀ (k : Nat) (c : List Pt), g.global_original_clusters[k]? = some c →
        cloud.length / 10 ≤ c.length ∧ c.length ≤ cloud.length / 2 ∧
        ∃ indices,
          (ec cluster_tolerance (cloud.length / 10) (cloud.length / 2) cloud)[k]? = some indices ∧
          cloud_cluster_of cloud indices = some c ∧ c.length = indices.length ∧
          indices.Nodup ∧ ∀ i ∈ indices, i < cloud.length) ∧
      (ec cluster_tolerance (cloud.length / 10) (cloud.length / 2) cloud).Pairwise
        List.Disjoint := by
  obtain ⟨hc, hdis⟩ := hec cluster_tolerance (cloud.length / 10) (cloud.length / 2) cloud
  obtain ⟨slots, hs, h1, h2, h3⟩ := cluster_slots_some downsampleCluster cloud dw_leaf_size_x
    dw_leaf_size_y dw_leaf_size_z
    (ec cluster_tolerance (cloud.length / 10) (cloud.length / 2) cloud)
    (fun c hcm => (hc c hcm).2.2.2)
  refine ⟨{ global_original_clusters := slots.1, global_downsampled_clusters := slots.2 },
    ?_, h1, h2, ?_, hdis⟩
  · simp only [EuclideanClusteringAndDownsampleClusters, hs, Option.map_some']
  · intro k c hk
    obtain ⟨indices, hi1, hi2, hi3⟩ := h3 k c hk
    have hmem : indices ∈ ec cluster_tolerance (cloud.length / 10) (cloud.length / 2) cloud :=
      List.getElem?_mem hi1
    obtain ⟨hmin, hmax, hnd, hrange⟩ := hc indices hmem
    exact ⟨by omega, by omega, indices, hi1, hi2, hi3, hnd, hrange⟩

/-- Witness of C17: the sample clusterer keeps the contract; on a cloud of ten points the bounds
are `1` and `5`, and the clusters of three and four points are stored. -/
theorem cluster_size_bounds_witness :
    Samples.ec_two.Contract ∧
    EuclideanClusteringAndDownsampleClusters Samples.ec_two Samples.downsample_head
        [20, 21, 22, 23, 24, 25, 26, 27, 28, 29] 0.09 0.16 0.40 0.16
      = some { global_original_clusters := [[20, 21, 22], [23, 24, 25, 26]]
               global_downsampled_clusters := [[20], [23]] } ∧
    ∃ g, EuclideanClusteringAndDownsampleClusters Samples.ec_two Samples.downsample_head
        [20, 21, 22, 23, 24, 25, 26, 27, 28, 29] 0.09 0.16 0.40 0.16 = some g ∧
      g.global_original_clusters.length
        = (Samples.ec_two 0.09 ([20, 21, 22, 23, 24, 25, 26, 27, 28, 29].length / 10)
            ([20, 21, 22, 23, 24, 25, 26, 27, 28, 29].length / 2)
            [20, 21, 22, 23, 24, 25, 26, 27, 28, 29]).length := by
  have hec : Samples.ec_two.Contract := by
    intro tolerance min max cloud
    unfold Samples.ec_two
    by_cases h : cloud.length = 10 ∧ min ≤ 3 ∧ 4 ≤ max
    · simp only [h, and_self, if_true]
      refine ⟨?_, by simp [List.Disjoint]⟩
      intro c hc
      simp only [List.mem_cons, List.mem_singleton, List.not_mem_nil, or_false] at hc
      rcases hc with rfl | rfl
      · refine ⟨by simp; omega, by simp; omega, by decide, ?_⟩
        intro i hi
        simp only [List.mem_cons, List.mem_singleton, List.not_mem_nil, or_false] at hi
        omega
      · refine ⟨by simp; omega, by simp; omega, by decide, ?_⟩
        intro i hi
        simp only [List.mem_cons, List.mem_singleton, List.not_mem_nil, or_false] at hi
        omega
    · simp [h]
  obtain ⟨g, hg, hlen, _⟩ := cluster_size_bounds Samples.ec_two hec Samples.downsample_head
    [20, 21, 22, 23, 24, 25, 26, 27, 28, 29] 0.09 0.16 0.40 0.16
  exact ⟨hec, rfl, g, hg, hlen⟩

end PlaneProb

/-! ## Frame properties on the store -/

namespace PCL

/-- Reading the address that was just written gives the written cloud. -/
theorem Store.read_write_same {Pt : Type} (store : Store Pt) (p : Nat) (cloud : List Pt)
    (h : p < store.length) : (store.write p cloud).read p = cloud := by
  simp [Store.read, Store.write, List.getElem?_set, h]

/-- A write leaves the clouds at the other addresses alone. -/
theorem Store.read_write_ne {Pt : Type} (store : Store Pt) (p q : Nat) (cloud : List Pt)
    (h : q ≠ p) : (store.write q cloud).read p = store.read p := by
  simp [Store.read, Store.write, List.getElem?_set_ne h]

/-- A write does not change the number of addresses in use. -/
theorem Store.length_write {Pt : Type} (store : Store Pt) (p : Nat) (cloud : List Pt) :
    (store.write p cloud).length = store.length := by
  simp [Store.write]

/-- An allocation takes the next address and leaves the clouds in place. -/
theorem Store.alloc_spec {Pt : Type} (store : Store Pt) :
    store.alloc.1 = store.length ∧ store.alloc.2.length = store.length + 1 ∧
      ∀ p, p < store.length → store.alloc.2.read p = store.read p := by
  refine ⟨rfl, by simp [Store.alloc], ?_⟩
  intro p hp
  simp [Store.read, Store.alloc, List.getElem?_append_left hp]

/-- Allocating a cloud and writing it: the addresses in use grow by one, the new address holds
the written cloud, and the clouds at the old addresses are as before. -/
theorem Store.alloc_write_spec {Pt : Type} (store : Store Pt) (cloud : List Pt) :
    (store.alloc.2.write store.alloc.1 cloud).length = store.length + 1 ∧
      (store.alloc.2.write store.alloc.1 cloud).read store.length = cloud ∧
      ∀ p, p < store.length → (store.alloc.2.write store.alloc.1 cloud).read p = store.read p := by
  obtain ⟨h1, h2, h3⟩ := Store.alloc_spec store
  refine ⟨by rw [Store.length_write, h2], ?_, ?_⟩
  · rw [h1]
    exact Store.read_write_same _ _ _ (by omega)
  · intro p hp
    rw [Store.read_write_ne _ _ _ _ (by omega), h3 p hp]

end PCL

namespace PlaneProb

open PCL

/-- The inner loop on pointers only adds clouds to the store, and what it returns is, cloud for
cloud, what the inner loop on values returns. -/
theorem extractPlanes_cluster_ptr_spec {Pt : Type} (seg : List Pt → SegResult) :
    ∀ (budget cur : Nat) (planes : List Nat) (store : Store Pt),
      cur < store.length → (∀ p ∈ planes, p < store.length) →
      store.length ≤ (extractPlanes_cluster_ptr seg budget cur planes store).2.2.length ∧
      (∀ p, p < store.length →
        (extractPlanes_cluster_ptr seg budget cur planes store).2.2.read p = store.read p) ∧
      (extractPlanes_cluster_ptr seg budget cur planes store).1.map
          (extractPlanes_cluster_ptr seg budget cur planes store).2.2.read
        = (extractPlanes_cluster seg budget (store.read cur) (planes.map store.read)).1 ∧
      (extractPlanes_cluster_ptr seg budget cur planes store).2.2.read
          (extractPlanes_cluster_ptr seg budget cur planes store).2.1
        = (extractPlanes_cluster seg budget (store.read cur) (planes.map store.read)).2 ∧
      (∀ p ∈ (extractPlanes_cluster_ptr seg budget cur planes store).1,
        p < (extractPlanes_cluster_ptr seg budget cur planes store).2.2.length)
  | 0, cur, planes, store, _, hp => by
    simp only [extractPlanes_cluster_ptr, extractPlanes_cluster]
    exact ⟨le_refl _, by simp, by simp, by simp, hp⟩
  | budget + 1, cur, planes, store, hcur, hp => by
    simp only [extractPlanes_cluster_ptr, extractPlanes_cluster]
    by_cases hlen : (store.read cur).length > 3
    · simp only [hlen, if_true]
      by_cases hidx : (seg (store.read cur)).indices.length = 0
      · simp only [hidx, if_true]
        exact ⟨le_refl _, by simp, by simp, by simp, hp⟩
      · simp only [hidx, if_false]
        obtain ⟨a1, a2, a3⟩ := Store.alloc_spec store
        rw [a3 cur hcur]
        obtain ⟨l1, r1, f1⟩ := Store.alloc_write_spec store
          (ExtractIndices.filter (store.read cur) (seg (store.read cur)).indices false)
        generalize hs2 : store.alloc.2.write store.alloc.1
          (ExtractIndices.filter (store.read cur) (seg (store.read cur)).indices false)
          = store2 at l1 r1 f1 ⊢
        obtain ⟨b1, b2, b3⟩ := Store.alloc_spec store2
        rw [b3 cur (by omega), f1 cur hcur]
        obtain ⟨l2, r2, f2⟩ := Store.alloc_write_spec store2
          (ExtractIndices.filter (store.read cur) (seg (store.read cur)).indices true)
        generalize hs4 : store2.alloc.2.write store2.alloc.1
          (ExtractIndices.filter (store.read cur) (seg (store.read cur)).indices true)
          = store4 at l2 r2 f2 ⊢
        rw [a1, b1, l1]
        have hold : ∀ p, p < store.length → store4.read p = store.read p := by
          intro p hp'
          rw [f2 p (by omega), f1 p hp']
        have hplanes : ∀ p ∈ planes ++ [store.length], p < store4.length := by
          intro p hp'
          rcases List.mem_append.1 hp' with h | h
          · have := hp p h; omega
          · rw [List.mem_singleton] at h; omega
        obtain ⟨i1, i2, i3, i4, i5⟩ := extractPlanes_cluster_ptr_spec seg budget
          (store.length + 1) (planes ++ [store.length]) store4 (by omega) hplanes
        have hmap : (planes ++ [store.length]).map store4.read
            = planes.map store.read
              ++ [ExtractIndices.filter (store.read cur) (seg (store.read cur)).indices false]
            := by
          rw [List.map_append, List.map_singleton, f2 store.length (by omega), r1]
          congr 1
          apply List.map_congr_left
          intro p hp'
          exact hold p (hp p hp')
        have hcur4 : store4.read (store.length + 1)
            = ExtractIndices.filter (store.read cur) (seg (store.read cur)).indices true := by
          rw [← l1]; exact r2
        rw [hmap, hcur4] at i3 i4
        refine ⟨by omega, ?_, i3, i4, i5⟩
        intro p hp'
        rw [i2 p (by omega), hold p hp']
    · simp only [hlen, if_false]
      exact ⟨le_refl _, by simp, by simp, by simp, hp⟩

/-- The outer loop on pointers only adds clouds to the store. -/
theorem extractPlanes_from_ptr_frame {Pt : Type} (seg : List Pt → SegResult)
    (max_planes : Int) :
    ∀ (clusters : List Nat) (i : Nat) (plane_storage : List (List Nat)) (store : Store Pt)
      (result : List (List Nat) × Store Pt),
      (∀ p ∈ clusters, p < store.length) →
      extractPlanes_from_ptr seg max_planes i clusters plane_storage store = some result →
      store.length ≤ result.2.length ∧
        ∀ p, p < store.length → result.2.read p = store.read p
  | [], i, plane_storage, store, result, _, h => by
    simp only [extractPlanes_from_ptr, Option.some.injEq] at h
    subst h
    exact ⟨le_refl _, fun _ _ => rfl⟩
  | c :: rest, i, plane_storage, store, result, hv, h => by
    simp only [extractPlanes_from_ptr] at h
    split at h
    · obtain ⟨s1, s2, _⟩ := extractPlanes_cluster_ptr_spec seg max_planes.toNat c [] store
        (hv c (List.mem_cons_self _ _)) (by simp)
      obtain ⟨t1, t2⟩ := extractPlanes_from_ptr_frame seg max_planes rest (i + 1) _ _ result
        (fun p hp => lt_of_lt_of_le (hv p (List.mem_cons_of_mem _ hp)) s1) h
      refine ⟨le_trans s1 t1, ?_⟩
      intro p hp
      rw [t2 p (by omega), s2 p hp]
    · exact absurd h (by simp)

end PlaneProb

namespace PlaneProb

open PCL

/-- The function `extractPlanes` on pointers stores, cloud for cloud, what the function on
values stores, when the pointers it is given are addresses in use. -/
theorem extractPlanes_from_ptr_refines {Pt : Type} (seg : List Pt → SegResult)
    (max_planes : Int) :
    ∀ (clusters : List Nat) (i : Nat) (plane_storage : List (List Nat)) (store : Store Pt)
      (result : List (List Nat) × Store Pt),
      (∀ p ∈ clusters, p < store.length) →
      (∀ r ∈ plane_storage, ∀ p ∈ r, p < store.length) →
      extractPlanes_from_ptr seg max_planes i clusters plane_storage store = some result →
      extractPlanes_from seg max_planes i (clusters.map store.read)
          (plane_storage.map (fun r => ClusterPlanes.mk (r.map store.read)))
        = some (result.1.map (fun r => ClusterPlanes.mk (r.map result.2.read)))
  | [], i, plane_storage, store, result, _, _, h => by
    simp only [extractPlanes_from_ptr, Option.some.injEq] at h
    subst h
    rfl
  | c :: rest, i, plane_storage, store, result, hv, hs, h => by
    simp only [extractPlanes_from_ptr] at h
    split at h
    · rename_i hi
      obtain ⟨s1, s2, s3, _, s5⟩ := extractPlanes_cluster_ptr_spec seg max_planes.toNat c []
        store (hv c (List.mem_cons_self _ _)) (by simp)
      generalize hr : extractPlanes_cluster_ptr seg max_planes.toNat c [] store = r
        at h s1 s2 s3 s5
      have hv' : ∀ p ∈ rest, p < r.2.2.length :=
        fun p hp => lt_of_lt_of_le (hv p (List.mem_cons_of_mem _ hp)) s1
      have hs' : ∀ q ∈ plane_storage.set i r.1, ∀ p ∈ q, p < r.2.2.length := by
        intro q hq p hp
        rcases List.mem_or_eq_of_mem_set hq with hq | hq
        · exact lt_of_lt_of_le (hs q hq p hp) s1
        · subst hq; exact s5 p hp
      have ih := extractPlanes_from_ptr_refines seg max_planes rest (i + 1) _ _ result hv' hs' h
      have h1 : rest.map r.2.2.read = rest.map store.read :=
        List.map_congr_left (fun p hp => s2 p (hv p (List.mem_cons_of_mem _ hp)))
      have h2 : (plane_storage.set i r.1).map (fun q => ClusterPlanes.mk (q.map r.2.2.read))
          = (plane_storage.map (fun q => ClusterPlanes.mk (q.map store.read))).set i
              (ClusterPlanes.mk (extractPlanes_cluster seg max_planes.toNat (store.read c)
                []).1) := by
        rw [List.map_set, s3, List.map_nil]
        congr 1
        apply List.map_congr_left
        intro q hq
        congr 1
        exact List.map_congr_left (fun p hp => s2 p (hs q hq p hp))
      rw [h1, h2] at ih
      simp only [List.map_cons, extractPlanes_from, List.length_map, hi, if_true]
      exact ih
    · exact absurd h (by simp)

end PlaneProb

namespace Terrain

open PCL

/-- One round on pointers is one round on values: it overwrites `*cloud_filtered` only, with the
cloud that the round on values leaves. -/
theorem extract_planes_round_ptr_spec {Pt : Type} (seg : Segmenter Pt) (cloud cf : Nat)
    (rp : ℝ) (mp mi : Int) (dt at_ : ℝ) (s : PtrLoopState Pt) (hcf : cf < s.store.length) :
    (extract_planes_round_ptr seg cloud cf rp mp mi dt at_ s).map
        (fun s' => LoopState.mk (s'.store.read cf) s'.plane_coefficients)
      = extract_planes_round seg (s.store.read cloud) rp mp mi dt at_
          (LoopState.mk (s.store.read cf) s.plane_coefficients) ∧
    ∀ s', extract_planes_round_ptr seg cloud cf rp mp mi dt at_ s = some s' →
      s'.store.length = s.store.length ∧ ∀ p, p ≠ cf → s'.store.read p = s.store.read p := by
  unfold extract_planes_round_ptr extract_planes_round
  simp only
  split
  · split
    · exact ⟨rfl, by simp⟩
    · refine ⟨?_, ?_⟩
      · simp only [Option.map_some', Store.read_write_same _ _ _ hcf]
      · intro s' hs'
        simp only [Option.some.injEq] at hs'
        subst hs'
        refine ⟨Store.length_write _ _ _, ?_⟩
        intro p hp
        exact Store.read_write_ne _ _ _ _ (Ne.symm hp)
  · exact ⟨rfl, by simp⟩

/-- The loop on pointers is the loop on values, and it changes no cloud but
`*cloud_filtered`. -/
theorem extract_planes_loop_ptr_spec {Pt : Type} (seg : Segmenter Pt) (cloud cf : Nat)
    (rp : ℝ) (mp mi : Int) (dt at_ : ℝ) (hne : cloud ≠ cf) :
    ∀ (fuel : Nat) (s : PtrLoopState Pt), cf < s.store.length →
      (extract_planes_loop_ptr seg cloud cf rp mp mi dt at_ fuel s).map
          (fun s' => LoopState.mk (s'.store.read cf) s'.plane_coefficients)
        = extract_planes_loop seg (s.store.read cloud) rp mp mi dt at_ fuel
            (LoopState.mk (s.store.read cf) s.plane_coefficients) ∧
      ∀ final, extract_planes_loop_ptr seg cloud cf rp mp mi dt at_ fuel s = some final →
        final.store.length = s.store.length ∧
          ∀ p, p ≠ cf → final.store.read p = s.store.read p
  | 0, s, _ => by simp [extract_planes_loop_ptr, extract_planes_loop]
  | fuel + 1, s, hcf => by
    obtain ⟨h1, h2⟩ := extract_planes_round_ptr_spec seg cloud cf rp mp mi dt at_ s hcf
    simp only [extract_planes_loop_ptr, extract_planes_loop]
    cases hr : extract_planes_round_ptr seg cloud cf rp mp mi dt at_ s with
    | none =>
      rw [hr] at h1
      simp only [Option.map_none'] at h1
      rw [← h1]
      exact ⟨rfl, by simp⟩
    | some s' =>
      rw [hr] at h1
      simp only [Option.map_some'] at h1
      rw [← h1]
      obtain ⟨hl, hf⟩ := h2 s' hr
      obtain ⟨i1, i2⟩ := extract_planes_loop_ptr_spec seg cloud cf rp mp mi dt at_ hne fuel s'
        (by omega)
      rw [hf cloud hne] at i1
      refine ⟨i1, ?_⟩
      intro final hfinal
      obtain ⟨j1, j2⟩ := i2 final hfinal
      refine ⟨by omega, ?_⟩
      intro p hp
      rw [j2 p hp, hf p hp]

/-- The function `extract_planes` on pointers returns the registry that the function on values
returns for the cloud `*cloud`, and leaves every cloud that exists before the call as it is. -/
theorem extract_planes_ptr_spec {Pt : Type} (seg : Segmenter Pt)
    (reg : List ModelCoefficients) (store : Store Pt) (cloud : Nat) (rp : ℝ) (mp mi : Int)
    (dt at_ : ℝ) (fuel : Nat) (hcloud : cloud < store.length) :
    (extract_planes_ptr seg reg store cloud rp mp mi dt at_ fuel).map Prod.fst
      = extract_planes seg reg (store.read cloud) rp mp mi dt at_ fuel ∧
    ∀ result, extract_planes_ptr seg reg store cloud rp mp mi dt at_ fuel = some result →
      ∀ p, p < store.length → result.2.read p = store.read p := by
  obtain ⟨l1, r1, f1⟩ := Store.alloc_write_spec store (store.read cloud)
  obtain ⟨a1, _, a3⟩ := Store.alloc_spec store
  unfold extract_planes_ptr extract_planes
  simp only
  rw [a3 cloud hcloud]
  generalize store.alloc.2.write store.alloc.1 (store.read cloud) = store2 at l1 r1 f1 ⊢
  rw [a1]
  obtain ⟨h1, h2⟩ := extract_planes_loop_ptr_spec seg cloud store.length rp mp mi dt at_
    (by omega) fuel { store := store2, plane_coefficients := reg } (by simp only; omega)
  simp only [r1, f1 cloud hcloud] at h1
  rw [← h1]
  refine ⟨?_, ?_⟩
  · cases extract_planes_loop_ptr seg cloud store.length rp mp mi dt at_ fuel
      { store := store2, plane_coefficients := reg } <;> rfl
  · intro result hres p hp
    rw [Option.map_eq_some'] at hres
    obtain ⟨final, hfinal, hfr⟩ := hres
    obtain ⟨_, j2⟩ := h2 final hfinal
    rw [← hfr]
    simp only
    rw [j2 p (by omega), f1 p hp]

end Terrain

namespace Terrain

open PCL

/-- C16: inputs are never mutated in place.  In the pointer-level run of `extractPlanes`, every
cloud that exists before the call, the clouds of `clusters` among them, holds the same points in
the same order after the call: the loop writes only into the clouds it allocates.  In the
pointer-level run of `extract_planes`, every cloud that exists before the call, the input cloud
among them, is unchanged: the loop deflates only its private copy `cloud_filtered`. -/
theorem inputs_not_mutated {Pt : Type} (seg : Segmenter Pt) :
    (∀ (clusters : List Nat) (plane_storage : List (List Nat)) (store : Store Pt)
      (max_planes max_iterations : Int) (distance_threshold : ℝ)
      (result : List (List Nat) × Store Pt),
      (∀ p ∈ clusters, p < store.length) →
      PlaneProb.extractPlanes_ptr seg clusters plane_storage store max_planes max_iterations
        distance_threshold = some result →
      (∀ p, p < store.length → result.2.read p = store.read p) ∧
        clusters.map result.2.read = clusters.map store.read) ∧
    (∀ (plane_coefficients : List ModelCoefficients) (store : Store Pt) (cloud : Nat)
      (remaining_percentage : ℝ) (max_planes max_iterations : Int)
      (distance_threshold angle_threshold : ℝ) (fuel : Nat)
      (result : List ModelCoefficients × Store Pt),
      cloud < store.length →
      extract_planes_ptr seg plane_coefficients store cloud remaining_percentage max_planes
        max_iterations distance_threshold angle_threshold fuel = some result →
      (∀ p, p < store.length → result.2.read p = store.read p) ∧
        result.2.read cloud = store.read cloud) := by
  constructor
  · intro clusters plane_storage store max_planes max_iterations distance_threshold result hv h
    obtain ⟨_, hf⟩ := PlaneProb.extractPlanes_from_ptr_frame
      (seg max_iterations distance_threshold) max_planes clusters 0 plane_storage store result
      hv h
    exact ⟨hf, List.map_congr_left (fun p hp => hf p (hv p hp))⟩
  · intro reg store cloud rp mp mi dt at_ fuel result hcloud h
    have hf := (extract_planes_ptr_spec seg reg store cloud rp mp mi dt at_ fuel hcloud).2
      result h
    exact ⟨hf, hf cloud hcloud⟩

/-- Witness of C16: the sample cluster of five points at address 0, decomposed by
`extractPlanes`, where the planes and the residual are new clouds at the addresses 1 and 2; and
the sample call of `extract_planes` on the cloud `[7, 7, 7]` at address 0. -/
theorem inputs_not_mutated_witness :
    ((∀ p ∈ [0], p < [[10, 11, 12, 13, 14]].length) ∧
      PlaneProb.extractPlanes_ptr Samples.seg_pair [0] [[]] [[10, 11, 12, 13, 14]] 2 1000 0.03
        = some ([[1]], [[10, 11, 12, 13, 14], [10, 12], [11, 13, 14]]) ∧
      [0].map (Store.read [[10, 11, 12, 13, 14], [10, 12], [11, 13, 14]])
        = [0].map (Store.read [[10, 11, 12, 13, 14]])) ∧
    (0 < [[7, 7, 7]].length ∧
      ∃ result, extract_planes_ptr Samples.seg_first [] [[7, 7, 7]] 0 0 1 100 0.01 0.1 2
          = some result ∧
        result.2.read 0 = Store.read [[7, 7, 7]] 0) := by
  refine ⟨⟨by decide, rfl,
    ((inputs_not_mutated Samples.seg_pair).1 [0] [[]] [[10, 11, 12, 13, 14]] 2 1000 0.03
      ([[1]], [[10, 11, 12, 13, 14], [10, 12], [11, 13, 14]]) (by decide) rfl).2⟩,
    by decide, ?_⟩
  have hspec := (extract_planes_ptr_spec Samples.seg_first [] [[7, 7, 7]] 0 0 1 100 0.01 0.1 2
    (by decide)).1
  have hread : Store.read [[7, 7, 7]] 0 = [7, 7, 7] := rfl
  rw [hread, sample_call_fresh 7, Option.map_eq_some'] at hspec
  obtain ⟨result, hres, _⟩ := hspec
  exact ⟨result, hres,
    ((inputs_not_mutated Samples.seg_first).2 [] [[7, 7, 7]] 0 0 1 100 0.01 0.1 2 result
      (by decide) hres).2⟩

end Terrain

/-! ## Symmetry and classification -/

namespace Terrain

open PCL

/-- The product `dot` is symmetric. -/
theorem dot_comm (u v : Vector3f) : u.dot v = v.dot u := by
  unfold Vector3f.dot; ring

/-- The answer of `is_similar_plane` does not depend on the order of the two planes. -/
theorem is_similar_plane_comm (p1 p2 : ModelCoefficients) (a d : ℝ) :
    is_similar_plane p1 p2 a d = is_similar_plane p2 p1 a d := by
  unfold is_similar_plane
  simp only
  rw [dot_comm ⟨p1.A, p1.B, p1.C⟩ ⟨p2.A, p2.B, p2.C⟩,
    mul_comm (Vector3f.mk p1.A p1.B p1.C).norm (Vector3f.mk p2.A p2.B p2.C).norm,
    abs_sub_comm (p1.D / (Vector3f.mk p1.A p1.B p1.C).norm)
      (p2.D / (Vector3f.mk p2.A p2.B p2.C).norm)]

/-- C27: `is_similar_plane` is symmetric in its two planes, for all planes and all
tolerances. -/
theorem is_similar_plane_symmetric (p1 p2 : ModelCoefficients)
    (angle_threshold distance_threshold : ℝ) :
    is_similar_plane p1 p2 angle_threshold distance_threshold
      = is_similar_plane p2 p1 angle_threshold distance_threshold :=
  is_similar_plane_comm p1 p2 angle_threshold distance_threshold

end Terrain

namespace Archive

open PCL

/-- The dot product with the up vector `(0, 0, 1)` is the third coordinate. -/
theorem dot_up (a b c : ℝ) : (Vector3f.mk a b c).dot ⟨0, 0, 1⟩ = c := by
  unfold Vector3f.dot; simp

/-- On `[-1, 1]`, `arccos` is below thirty degrees exactly above `cos` of thirty degrees. -/
theorem arccos_lt_pi_div_six (c : ℝ) (h1 : -1 ≤ c) (h2 : c ≤ 1) :
    Real.arccos c < Real.pi / 6 ↔ Real.cos (30 / 180 * Real.pi) < c := by
  have h : (30 : ℝ) / 180 * Real.pi = Real.pi / 6 := by ring
  rw [h]
  have hpi := Real.pi_pos
  have hcos : Real.arccos (Real.cos (Real.pi / 6)) = Real.pi / 6 :=
    Real.arccos_cos (by linarith) (by linarith)
  have hmem : Real.cos (Real.pi / 6) ∈ Set.Icc (-1 : ℝ) 1 :=
    ⟨Real.neg_one_le_cos _, Real.cos_le_one _⟩
  have := Real.strictAntiOn_arccos.lt_iff_lt (a := c) (b := Real.cos (Real.pi / 6))
    ⟨h1, h2⟩ hmem
  rw [hcos] at this
  exact this

/-- The label of a plane is `step` exactly when `acos` of the third coordinate of the normal is
defined and below thirty degrees. -/
theorem classifyPlane_step_iff (coeff : ModelCoefficients) :
    classifyPlane coeff = PlaneLabel.step ↔
      (-1 ≤ coeff.C ∧ coeff.C ≤ 1 ∧ Real.arccos coeff.C < Real.pi / 6) := by
  unfold classifyPlane
  simp only [dot_up, acos]
  by_cases h : -1 ≤ coeff.C ∧ coeff.C ≤ 1
  · simp only [h, and_self, if_true, true_and, abs_of_nonneg (Real.arccos_nonneg coeff.C)]
    split <;> simp_all
  · simp only [h, if_false]
    constructor
    · intro hc; cases hc
    · intro hc; exact absurd ⟨hc.1, hc.2.1⟩ h

/-- C23: `classifyPlanes` labels a plane `step` exactly when `acos` of the dot product of its
normal with the up vector `(0,0,1)` is below `pi/6`, and `riser` otherwise; for a unit normal
the label is `step` exactly when `C` exceeds `cos` of thirty degrees; and the plane with the
unit normal `(0,0,-1)` is a riser. -/
theorem classifyPlanes_labels (coefficients : List ModelCoefficients)
    (coeff : ModelCoefficients) (D : ℝ) :
    classifyPlanes coefficients = coefficients.map classifyPlane ∧
    (classifyPlane coeff = PlaneLabel.step ↔
      ∃ angle, acos ((Vector3f.mk coeff.A coeff.B coeff.C).dot ⟨0, 0, 1⟩) = some angle ∧
        angle < Real.pi / 6) ∧
    (classifyPlane coeff ≠ PlaneLabel.step → classifyPlane coeff = PlaneLabel.riser) ∧
    (coeff.A ^ 2 + coeff.B ^ 2 + coeff.C ^ 2 = 1 →
      (classifyPlane coeff = PlaneLabel.step ↔ coeff.C > Real.cos (30 / 180 * Real.pi))) ∧
    classifyPlane ⟨0, 0, -1, D⟩ = PlaneLabel.riser := by
  refine ⟨rfl, ?_, ?_, ?_, ?_⟩
  · rw [classifyPlane_step_iff, dot_up]
    unfold acos
    constructor
    · rintro ⟨h1, h2, h3⟩
      exact ⟨Real.arccos coeff.C, by simp [h1, h2], h3⟩
    · rintro ⟨angle, h1, h2⟩
      by_cases h : -1 ≤ coeff.C ∧ coeff.C ≤ 1
      · simp only [h, and_self, if_true, Option.some.injEq] at h1
        rw [h1]
        exact ⟨h.1, h.2, h2⟩
      · simp [h] at h1
  · intro h
    cases hc : classifyPlane coeff with
    | step => exact absurd hc h
    | riser => rfl
  · intro hunit
    have h1 : -1 ≤ coeff.C := by nlinarith [sq_nonneg coeff.A, sq_nonneg coeff.B]
    have h2 : coeff.C ≤ 1 := by nlinarith [sq_nonneg coeff.A, sq_nonneg coeff.B]
    rw [classifyPlane_step_iff, arccos_lt_pi_div_six coeff.C h1 h2]
    constructor
    · rintro ⟨_, _, h⟩; exact h
    · intro h; exact ⟨h1, h2, h⟩
  · have h : ¬ classifyPlane ⟨0, 0, -1, D⟩ = PlaneLabel.step := by
      rw [classifyPlane_step_iff]
      simp only [Real.arccos_neg_one]
      intro hc
      have := Real.pi_pos
      linarith [hc.2.2]
    cases hc : classifyPlane ⟨0, 0, -1, D⟩ with
    | step => exact absurd hc h
    | riser => rfl

/-- Witness of C23: the horizontal plane with the unit normal `(0,0,1)` is a step. -/
theorem classifyPlanes_labels_witness :
    ((0 : ℝ) ^ 2 + 0 ^ 2 + 1 ^ 2 = 1) ∧ (1 : ℝ) > Real.cos (30 / 180 * Real.pi) ∧
      classifyPlane ⟨0, 0, 1, 0⟩ = PlaneLabel.step :=
  ⟨by norm_num, cos_thirty_degrees.2.2,
    ((classifyPlanes_labels [] ⟨0, 0, 1, 0⟩ 0).2.2.2.1 (by norm_num)).2
      cos_thirty_degrees.2.2⟩

end Archive

/-! ## The loop of `extract_planes`: bound, termination, sorting, full registry -/

namespace PCL

/-- With a non-empty list of in-range indices, the output of `ExtractIndices` with
`setNegative(true)` is shorter than the input. -/
theorem filter_true_length_lt {Pt : Type} (input : List Pt) (indices : List Nat)
    (hne : indices ≠ []) (hin : ∀ i ∈ indices, i < input.length) :
    (ExtractIndices.filter input indices true).length < input.length := by
  unfold ExtractIndices.filter
  simp only [if_true]
  obtain ⟨i, hi⟩ := List.exists_mem_of_ne_nil indices hne
  have h1 : ((List.range input.length).filter (fun i => !indices.contains i)).length
      < (List.range input.length).length := by
    rw [List.length_filter_lt_length_iff_exists]
    exact ⟨i, List.mem_range.2 (hin i hi), by simp [hi]⟩
  have h2 := List.length_filterMap_le (fun i => input[i]?)
    ((List.range input.length).filter (fun i => !indices.contains i))
  rw [List.length_range] at h1
  omega

end PCL

namespace Terrain

open PCL

/-- What a round that continues the loop has done: the loop condition held, the segmenter
reported inliers, the registry was consolidated and the inliers were removed. -/
theorem extract_planes_round_some {Pt : Type} (seg : Segmenter Pt) (cloud : List Pt)
    (rp : ℝ) (mp mi : Int) (dt at_ : ℝ) (s s' : LoopState Pt)
    (h : extract_planes_round seg cloud rp mp mi dt at_ s = some s') :
    ((s.cloud_filtered.length : ℝ) > rp * (cloud.length : ℝ)
        ∧ s.plane_coefficients.length < size_t_of_int mp) ∧
      (seg mi dt s.cloud_filtered).indices ≠ [] ∧
      s'.cloud_filtered
        = ExtractIndices.filter s.cloud_filtered (seg mi dt s.cloud_filtered).indices true ∧
      s'.plane_coefficients
        = consolidate s.plane_coefficients (seg mi dt s.cloud_filtered).coefficients at_ dt := by
  unfold extract_planes_round at h
  split at h
  · rename_i hg
    simp only at h
    split at h
    · exact absurd h (by simp)
    · rename_i hidx
      simp only [Option.some.injEq] at h
      subst h
      exact ⟨hg, by simpa using hidx, rfl, rfl⟩
  · exact absurd h (by simp)

/-- When the loop condition fails the round leaves the loop. -/
theorem extract_planes_round_of_not_guard {Pt : Type} (seg : Segmenter Pt) (cloud : List Pt)
    (rp : ℝ) (mp mi : Int) (dt at_ : ℝ) (s : LoopState Pt)
    (h : ¬ ((s.cloud_filtered.length : ℝ) > rp * (cloud.length : ℝ)
        ∧ s.plane_coefficients.length < size_t_of_int mp)) :
    extract_planes_round seg cloud rp mp mi dt at_ s = none := by
  unfold extract_planes_round
  simp only [h, if_false]

/-- The loop keeps the registry within the bound that its condition tests. -/
theorem extract_planes_loop_bound {Pt : Type} (seg : Segmenter Pt) (cloud : List Pt)
    (rp : ℝ) (mp mi : Int) (dt at_ : ℝ) :
    ∀ (fuel : Nat) (s final : LoopState Pt),
      s.plane_coefficients.length ≤ size_t_of_int mp →
      extract_planes_loop seg cloud rp mp mi dt at_ fuel s = some final →
      final.plane_coefficients.length ≤ size_t_of_int mp
  | 0, s, final, _, h => by simp [extract_planes_loop] at h
  | fuel + 1, s, final, hb, h => by
    simp only [extract_planes_loop] at h
    split at h
    · simp only [Option.some.injEq] at h
      subst h
      exact hb
    · rename_i s' hs'
      have h1 := extract_planes_round_length seg cloud rp mp mi dt at_ s s' hs'
      have h2 := (extract_planes_round_some seg cloud rp mp mi dt at_ s s' hs').1.2
      exact extract_planes_loop_bound seg cloud rp mp mi dt at_ fuel s' final (by omega) h

/-- More fuel does not change the outcome of a loop that has been left. -/
theorem extract_planes_loop_mono {Pt : Type} (seg : Segmenter Pt) (cloud : List Pt)
    (rp : ℝ) (mp mi : Int) (dt at_ : ℝ) :
    ∀ (fuel : Nat) (s final : LoopState Pt) (k : Nat),
      extract_planes_loop seg cloud rp mp mi dt at_ fuel s = some final →
      extract_planes_loop seg cloud rp mp mi dt at_ (fuel + k) s = some final
  | 0, s, final, k, h => by simp [extract_planes_loop] at h
  | fuel + 1, s, final, k, h => by
    rw [show fuel + 1 + k = (fuel + k) + 1 by omega]
    simp only [extract_planes_loop] at h ⊢
    cases hr : extract_planes_round seg cloud rp mp mi dt at_ s with
    | none => rw [hr] at h; exact h
    | some s' =>
      rw [hr] at h
      exact extract_planes_loop_mono seg cloud rp mp mi dt at_ fuel s' final k h

/-- More fuel does not add calls of the segmenter to a loop that has been left. -/
theorem extract_planes_calls_mono {Pt : Type} (seg : Segmenter Pt) (cloud : List Pt)
    (rp : ℝ) (mp mi : Int) (dt at_ : ℝ) :
    ∀ (fuel : Nat) (s final : LoopState Pt) (k : Nat),
      extract_planes_loop seg cloud rp mp mi dt at_ fuel s = some final →
      extract_planes_calls seg cloud rp mp mi dt at_ (fuel + k) s
        = extract_planes_calls seg cloud rp mp mi dt at_ fuel s
  | 0, s, final, k, h => by simp [extract_planes_loop] at h
  | fuel + 1, s, final, k, h => by
    rw [show fuel + 1 + k = (fuel + k) + 1 by omega]
    simp only [extract_planes_loop] at h
    simp only [extract_planes_calls]
    cases hr : extract_planes_round seg cloud rp mp mi dt at_ s with
    | none => rfl
    | some s' =>
      rw [hr] at h
      simp only
      rw [extract_planes_calls_mono seg cloud rp mp mi dt at_ fuel s' final k h]

/-- With a segmenter that reports in-range indices, the loop is left within one test more than
the working cloud has points, after at most that many calls of the segmenter. -/
theorem extract_planes_loop_terminates {Pt : Type} (seg : Segmenter Pt) (cloud : List Pt)
    (rp : ℝ) (mp mi : Int) (dt at_ : ℝ)
    (hseg : ∀ c, ∀ i ∈ (seg mi dt c).indices, i < c.length) :
    ∀ (fuel : Nat) (s : LoopState Pt), s.cloud_filtered.length < fuel →
      ∃ final, extract_planes_loop seg cloud rp mp mi dt at_ fuel s = some final ∧
        (extract_planes_calls seg cloud rp mp mi dt at_ fuel s).length
          ≤ s.cloud_filtered.length + 1
  | 0, s, h => by omega
  | fuel + 1, s, h => by
    simp only [extract_planes_loop, extract_planes_calls]
    cases hr : extract_planes_round seg cloud rp mp mi dt at_ s with
    | none =>
      refine ⟨s, rfl, ?_⟩
      split
      · simp
      · simp
    | some s' =>
      obtain ⟨hg, hne, hcf, _⟩ := extract_planes_round_some seg cloud rp mp mi dt at_ s s' hr
      have hlt : s'.cloud_filtered.length < s.cloud_filtered.length := by
        rw [hcf]
        exact filter_true_length_lt _ _ hne (hseg s.cloud_filtered)
      obtain ⟨final, hf, hc⟩ := extract_planes_loop_terminates seg cloud rp mp mi dt at_ hseg
        fuel s' (by omega)
      refine ⟨final, hf, ?_⟩
      simp only [hg, and_self, if_true, List.length_cons]
      omega

end Terrain

namespace Terrain

open PCL

/-- C21: max-plane-count bound in `extract_planes`.  For `max_planes ≥ 0`, if the registry
holds at most `max_planes` entries when `extract_planes` is called, it holds at most
`max_planes` entries when the call returns. -/
theorem registry_within_max_planes {Pt : Type} (seg : Segmenter Pt)
    (plane_coefficients : List ModelCoefficients) (cloud : List Pt)
    (remaining_percentage : ℝ) (max_planes max_iterations : Int)
    (distance_threshold angle_threshold : ℝ) (fuel : Nat) (result : List ModelCoefficients)
    (h0 : 0 ≤ max_planes) (h1 : max_planes < 2 ^ 31)
    (hreg : (plane_coefficients.length : Int) ≤ max_planes)
    (h : extract_planes seg plane_coefficients cloud remaining_percentage max_planes
      max_iterations distance_threshold angle_threshold fuel = some result) :
    (result.length : Int) ≤ max_planes := by
  have hsz := size_t_of_int_of_nonneg max_planes h0 h1
  unfold extract_planes at h
  rw [Option.map_eq_some'] at h
  obtain ⟨final, hfinal, hres⟩ := h
  have := extract_planes_loop_bound seg cloud remaining_percentage max_planes max_iterations
    distance_threshold angle_threshold fuel _ final (by simp only; omega) hfinal
  rw [← hres, sort_by_D, List.length_insertionSort]
  omega

/-- Witness of C21: the sample call with `max_planes = 1` from an empty registry. -/
theorem registry_within_max_planes_witness :
    ((0 : Int) ≤ 1 ∧ (1 : Int) < 2 ^ 31 ∧ ((([] : List ModelCoefficients).length : ℕ) : Int) ≤ 1) ∧
    extract_planes Samples.seg_first [] [7, 7, 7] 0 1 100 0.01 0.1 2
      = some [⟨0, 0, 1, ((7 : ℕ) : ℝ)⟩] ∧
    ((([(⟨0, 0, 1, ((7 : ℕ) : ℝ)⟩ : ModelCoefficients)].length : ℕ) : Int) ≤ 1) :=
  ⟨⟨by decide, by decide, by decide⟩, sample_call_fresh 7,
    registry_within_max_planes Samples.seg_first [] [7, 7, 7] 0 1 100 0.01 0.1 2 _
      (by decide) (by decide) (by decide) (sample_call_fresh 7)⟩

/-- C24: `extract_planes` terminates without an iteration cap.  With a segmenter that reports
in-range inlier indices, every round that continues the loop removes at least one point from
the working cloud; for a cloud of `n` points the call returns once `n + 1` tests of the loop
condition are allowed, with the same registry however many more are allowed, and the loop calls
the segmenter at most `n + 1` times, whatever `remaining_percentage`, `max_planes` and the
registry are. -/
theorem extract_planes_terminates {Pt : Type} (seg : Segmenter Pt)
    (plane_coefficients : List ModelCoefficients) (cloud : List Pt)
    (remaining_percentage : ℝ) (max_planes max_iterations : Int)
    (distance_threshold angle_threshold : ℝ)
    (hseg : ∀ c, ∀ i ∈ (seg max_iterations distance_threshold c).indices, i < c.length) :
    (∀ s s', extract_planes_round seg cloud remaining_percentage max_planes max_iterations
        distance_threshold angle_threshold s = some s' →
      s'.cloud_filtered.length < s.cloud_filtered.length) ∧
    ∃ result, ∀ fuel, cloud.length + 1 ≤ fuel →
      extract_planes seg plane_coefficients cloud remaining_percentage max_planes
          max_iterations distance_threshold angle_threshold fuel = some result ∧
        (extract_planes_calls seg cloud remaining_percentage max_planes max_iterations
          distance_threshold angle_threshold fuel
          { cloud_filtered := cloud, plane_coefficients := plane_coefficients }).length
          ≤ cloud.length + 1 := by
  constructor
  · intro s s' hr
    obtain ⟨_, hne, hcf, _⟩ := extract_planes_round_some seg cloud _ _ _ _ _ s s' hr
    rw [hcf]
    exact filter_true_length_lt _ _ hne (hseg s.cloud_filtered)
  · obtain ⟨final, hf, hc⟩ := extract_planes_loop_terminates seg cloud remaining_percentage
      max_planes max_iterations distance_threshold angle_threshold hseg (cloud.length + 1)
      { cloud_filtered := cloud, plane_coefficients := plane_coefficients } (by simp)
    refine ⟨sort_by_D final.plane_coefficients, ?_⟩
    intro fuel hfuel
    obtain ⟨k, rfl⟩ := Nat.exists_eq_add_of_le hfuel
    constructor
    · unfold extract_planes
      rw [extract_planes_loop_mono seg cloud _ _ _ _ _ _ _ final k hf]
      rfl
    · rw [extract_planes_calls_mono seg cloud _ _ _ _ _ _ _ final k hf]
      exact hc

/-- Witness of C24: the sample segmenter reports in-range indices; on the cloud `[7, 7, 7]`
with a negative `remaining_percentage` and `max_planes = 5` the call returns within four
tests. -/
theorem extract_planes_terminates_witness :
    (∀ c : List ℕ, ∀ i ∈ (Samples.seg_first 100 0.01 c).indices, i < c.length) ∧
    ∃ result, ∀ fuel, [7, 7, 7].length + 1 ≤ fuel →
      extract_planes Samples.seg_first [] [7, 7, 7] (-1) 5 100 0.01 0.1 fuel = some result ∧
        (extract_planes_calls Samples.seg_first [7, 7, 7] (-1) 5 100 0.01 0.1 fuel
          { cloud_filtered := [7, 7, 7], plane_coefficients := [] }).length
          ≤ [7, 7, 7].length + 1 := by
  have hseg : ∀ c : List ℕ, ∀ i ∈ (Samples.seg_first 100 0.01 c).indices, i < c.length := by
    intro c i hi
    unfold Samples.seg_first at hi
    by_cases h : c.length < 3
    · simp [h] at hi
    · simp only [h, if_false, List.mem_cons, List.mem_singleton, List.not_mem_nil,
        or_false] at hi
      omega
  exact ⟨hseg,
    (extract_planes_terminates Samples.seg_first [] [7, 7, 7] (-1) 5 100 0.01 0.1 hseg).2⟩

/-- C25: on return from `extract_planes` the registry is the registry as it stood when the loop
ended, reordered: it is sorted in non-decreasing order of the raw coefficient `D` and is a
permutation of the registry at the end of the loop.  The key is `D` itself, not `D` divided by
the length of the normal: `(0,0,2,1)` comes after `(0,0,1,0.8)`. -/
theorem registry_sorted_on_return {Pt : Type} (seg : Segmenter Pt)
    (plane_coefficients : List ModelCoefficients) (cloud : List Pt)
    (remaining_percentage : ℝ) (max_planes max_iterations : Int)
    (distance_threshold angle_threshold : ℝ) (fuel : Nat) (result : List ModelCoefficients)
    (h : extract_planes seg plane_coefficients cloud remaining_percentage max_planes
      max_iterations distance_threshold angle_threshold fuel = some result) :
    (∃ final, extract_planes_loop seg cloud remaining_percentage max_planes max_iterations
        distance_threshold angle_threshold fuel
        { cloud_filtered := cloud, plane_coefficients := plane_coefficients } = some final ∧
      result = sort_by_D final.plane_coefficients ∧
      result.Perm final.plane_coefficients) ∧
    result.Sorted (fun a b => a.D ≤ b.D) ∧
    sort_by_D [⟨0, 0, 2, 1⟩, ⟨0, 0, 1, 0.8⟩] = [⟨0, 0, 1, 0.8⟩, ⟨0, 0, 2, 1⟩] := by
  haveI : IsTotal ModelCoefficients (fun a b => a.D ≤ b.D) := ⟨fun a b => le_total a.D b.D⟩
  haveI : IsTrans ModelCoefficients (fun a b => a.D ≤ b.D) :=
    ⟨fun a b c hab hbc => le_trans hab hbc⟩
  unfold extract_planes at h
  rw [Option.map_eq_some'] at h
  obtain ⟨final, hfinal, hres⟩ := h
  refine ⟨⟨final, hfinal, hres.symm, ?_⟩, ?_, ?_⟩
  · rw [← hres]
    exact List.perm_insertionSort _ _
  · rw [← hres]
    exact List.sorted_insertionSort _ _
  · simp only [sort_by_D, List.insertionSort, List.orderedInsert]
    norm_num

/-- Witness of C25: the sample call from an empty registry. -/
theorem registry_sorted_on_return_witness :
    extract_planes Samples.seg_first [] [7, 7, 7] 0 1 100 0.01 0.1 2
      = some [⟨0, 0, 1, ((7 : ℕ) : ℝ)⟩] ∧
    List.Sorted (fun a b : ModelCoefficients => a.D ≤ b.D) [⟨0, 0, 1, ((7 : ℕ) : ℝ)⟩] :=
  ⟨sample_call_fresh 7,
    (registry_sorted_on_return Samples.seg_first [] [7, 7, 7] 0 1 100 0.01 0.1 2 _
      (sample_call_fresh 7)).2.1⟩

/-- C28: a full registry freezes.  When the registry already holds at least `max_planes ≥ 0`
entries at the call, `extract_planes` makes no call of the segmenter, leaves the working cloud
with all the points of the input, and returns the registry with the same entries, sorted by
`D`, whatever the cloud. -/
theorem full_registry_freezes {Pt : Type} (seg : Segmenter Pt)
    (plane_coefficients : List ModelCoefficients) (cloud : List Pt)
    (remaining_percentage : ℝ) (max_planes max_iterations : Int)
    (distance_threshold angle_threshold : ℝ) (fuel : Nat)
    (h0 : 0 ≤ max_planes) (h1 : max_planes < 2 ^ 31)
    (hfull : max_planes ≤ (plane_coefficients.length : Int)) :
    extract_planes_calls seg cloud remaining_percentage max_planes max_iterations
        distance_threshold angle_threshold (fuel + 1)
        { cloud_filtered := cloud, plane_coefficients := plane_coefficients } = [] ∧
    extract_planes_loop seg cloud remaining_percentage max_planes max_iterations
        distance_threshold angle_threshold (fuel + 1)
        { cloud_filtered := cloud, plane_coefficients := plane_coefficients }
      = some { cloud_filtered := cloud, plane_coefficients := plane_coefficients } ∧
    extract_planes seg plane_coefficients cloud remaining_percentage max_planes
        max_iterations distance_threshold angle_threshold (fuel + 1)
      = some (sort_by_D plane_coefficients) ∧
    (sort_by_D plane_coefficients).Perm plane_coefficients := by
  have hsz := size_t_of_int_of_nonneg max_planes h0 h1
  have hg : ¬ (((cloud.length : ℕ) : ℝ) > remaining_percentage * (cloud.length : ℝ)
      ∧ plane_coefficients.length < size_t_of_int max_planes) := by
    intro hc
    have := hc.2
    omega
  have hr := extract_planes_round_of_not_guard seg cloud remaining_percentage max_planes
    max_iterations distance_threshold angle_threshold
    { cloud_filtered := cloud, plane_coefficients := plane_coefficients } hg
  refine ⟨?_, ?_, ?_, List.perm_insertionSort _ _⟩
  · simp only [extract_planes_calls, hg, if_false]
  · simp only [extract_planes_loop, hr]
  · simp only [extract_planes, extract_planes_loop, hr, Option.map_some']

/-- Witness of C28: the sample call with `max_planes = 1` on a registry that holds the plane
`(0,0,1,4)`. -/
theorem full_registry_freezes_witness :
    ((0 : Int) ≤ 1 ∧ (1 : Int) < 2 ^ 31 ∧
      (1 : Int) ≤ ((([⟨0, 0, 1, 4⟩] : List ModelCoefficients).length : ℕ) : Int)) ∧
    extract_planes_calls Samples.seg_first [7, 7, 7] 0 1 100 0.01 0.1 (1 + 1)
        { cloud_filtered := [7, 7, 7], plane_coefficients := [⟨0, 0, 1, 4⟩] } = [] ∧
    extract_planes Samples.seg_first [⟨0, 0, 1, 4⟩] [7, 7, 7] 0 1 100 0.01 0.1 (1 + 1)
      = some (sort_by_D [⟨0, 0, 1, 4⟩]) :=
  have h := full_registry_freezes Samples.seg_first [⟨0, 0, 1, 4⟩] [7, 7, 7] 0 1 100 0.01 0.1 1
    (by decide) (by decide) (by decide)
  ⟨⟨by decide, by decide, by decide⟩, h.1, h.2.2.1⟩

end Terrain

/-! ## Order of the residual, storage bounds, degenerate `minPoints` -/

namespace PlaneProb

open PCL

/-- The slots built by `cluster_slots`: one original and one downsampled cluster for each
cluster found. -/
theorem cluster_slots_length {Pt : Type} (downsampleCluster : List Pt → ℝ → ℝ → ℝ → List Pt)
    (cloud : List Pt) (lx ly lz : ℝ) :
    ∀ (cluster_indices : List (List Nat)) (slots : List (List Pt) × List (List Pt)),
      cluster_slots downsampleCluster cloud lx ly lz cluster_indices = some slots →
      slots.1.length = cluster_indices.length ∧ slots.2.length = cluster_indices.length
  | [], slots, h => by
    simp only [cluster_slots, Option.some.injEq] at h
    subst h
    exact ⟨rfl, rfl⟩
  | indices :: rest, slots, h => by
    simp only [cluster_slots] at h
    split at h
    · rename_i cc sl _ hsl
      simp only [Option.some.injEq] at h
      subst h
      obtain ⟨h1, h2⟩ := cluster_slots_length downsampleCluster cloud lx ly lz rest sl hsl
      simp [h1, h2]
    · exact absurd h (by simp)

/-- The length of a resized vector is the requested length. -/
theorem length_resize {α : Type} (v : List α) (n : Nat) (value : α) :
    (resize v n value).length = n := by
  unfold resize
  simp only [List.length_append, List.length_take, List.length_replicate]
  omega

end PlaneProb

namespace Archive

open PCL

/-- With `minPoints = 0` the loop of `segmentPlanes` records one plane in each of its `budget`
rounds. -/
theorem segmentPlanes_loop_zero_length {Pt : Type} (seg : List Pt → SegResult) :
    ∀ (budget : Nat) (cur : List Pt) (planes : List (List Pt)),
      (segmentPlanes_loop seg 0 budget cur planes).1.length = planes.length + budget
  | 0, cur, planes => by simp [segmentPlanes_loop]
  | budget + 1, cur, planes => by
    have h0 : size_t_of_int 0 = 0 := by simp [size_t_of_int]
    simp only [segmentPlanes_loop, h0, Nat.not_lt_zero, if_false]
    rw [segmentPlanes_loop_zero_length seg budget]
    simp only [List.length_append, List.length_singleton]
    omega

end Archive

namespace PlaneProb

open PCL

/-- C29: storage indexing is in bounds.  `extractPlanes` succeeds, writing `plane_storage[i]`
for every `i` below the number of clusters, exactly when `plane_storage` has at least as many
entries as `clusters`.  `EuclideanClusteringAndDownsampleClusters` leaves
`global_downsampled_clusters` with one entry for each cluster found, and the callback resizes
`downsampled_cluster_planes` to that length before it calls `extractPlanes`, so that call
succeeds and the storage has one record for each cluster. -/
theorem storage_indexing_in_bounds {Pt : Type} (ec : ClusterExtraction Pt)
    (downsampleCluster : List Pt → ℝ → ℝ → ℝ → List Pt) (seg : Segmenter Pt)
    (cloud : List Pt) (downsampled_cluster_planes : List (ClusterPlanes Pt))
    (g : ClusterGlobals Pt)
    (hg : EuclideanClusteringAndDownsampleClusters ec downsampleCluster cloud 0.09 0.16 0.40
      0.16 = some g) :
    (∀ (clusters : List (List Pt)) (plane_storage : List (ClusterPlanes Pt))
      (max_planes max_iterations : Int) (distance_threshold : ℝ),
      (clusters.length ≤ plane_storage.length ↔
        ∃ st, extractPlanes seg clusters plane_storage max_planes max_iterations
          distance_threshold = some st)) ∧
    g.global_downsampled_clusters.length
      = (ec 0.09 (cloud.length / 10) (cloud.length / 2) cloud).length ∧
    (resize downsampled_cluster_planes g.global_downsampled_clusters.length
      (ClusterPlanes.mk [])).length = g.global_downsampled_clusters.length ∧
    ∃ st, pointcloud_callback_planes ec downsampleCluster seg cloud downsampled_cluster_planes
        = some (g, st) ∧
      st.length = g.global_downsampled_clusters.length ∧
      ∀ (i : Nat) (c : List Pt), g.global_downsampled_clusters[i]? = some c →
        st[i]? = some (ClusterPlanes.mk (extractPlanes_cluster (seg 1000 0.03)
          (2 : Int).toNat c []).1) := by
  have hlen : g.global_downsampled_clusters.length
      = (ec 0.09 (cloud.length / 10) (cloud.length / 2) cloud).length := by
    unfold EuclideanClusteringAndDownsampleClusters at hg
    simp only [Option.map_eq_some'] at hg
    obtain ⟨slots, hs, hgs⟩ := hg
    rw [← hgs]
    exact (cluster_slots_length downsampleCluster cloud _ _ _ _ slots hs).2
  have hres := length_resize downsampled_cluster_planes g.global_downsampled_clusters.length
    (ClusterPlanes.mk [])
  refine ⟨?_, hlen, hres, ?_⟩
  · intro clusters plane_storage max_planes max_iterations distance_threshold
    exact (extractPlanes_spec seg clusters plane_storage max_planes max_iterations
      distance_threshold).1
  · obtain ⟨hiff, hall⟩ := extractPlanes_spec seg g.global_downsampled_clusters
      (resize downsampled_cluster_planes g.global_downsampled_clusters.length
        (ClusterPlanes.mk [])) 2 1000 0.03
    obtain ⟨st, hst⟩ := hiff.1 (le_of_eq hres.symm)
    obtain ⟨h1, h2, _⟩ := hall st hst
    refine ⟨st, ?_, by rw [h1, hres], h2⟩
    simp only [pointcloud_callback_planes, hg, hst, Option.map_some']

/-- Witness of C29: the sample clusterer on a cloud of ten points finds two clusters; the
storage, which held three records, is resized to two and `extractPlanes` fills them. -/
theorem storage_indexing_in_bounds_witness :
    EuclideanClusteringAndDownsampleClusters Samples.ec_two Samples.downsample_head
        [20, 21, 22, 23, 24, 25, 26, 27, 28, 29] 0.09 0.16 0.40 0.16
      = some { global_original_clusters := [[20, 21, 22], [23, 24, 25, 26]]
               global_downsampled_clusters := [[20], [23]] } ∧
    ∃ st, pointcloud_callback_planes Samples.ec_two Samples.downsample_head Samples.seg_pair
        [20, 21, 22, 23, 24, 25, 26, 27, 28, 29] [⟨[[1]]⟩, ⟨[[2]]⟩, ⟨[[3]]⟩]
        = some ({ global_original_clusters := [[20, 21, 22], [23, 24, 25, 26]]
                  global_downsampled_clusters := [[20], [23]] }, st) ∧
      st.length = [[20], [23]].length := by
  have hg : EuclideanClusteringAndDownsampleClusters Samples.ec_two Samples.downsample_head
      [20, 21, 22, 23, 24, 25, 26, 27, 28, 29] 0.09 0.16 0.40 0.16
      = some { global_original_clusters := [[20, 21, 22], [23, 24, 25, 26]]
               global_downsampled_clusters := [[20], [23]] } := rfl
  obtain ⟨st, h1, h2, _⟩ := (storage_indexing_in_bounds Samples.ec_two Samples.downsample_head
    Samples.seg_pair [20, 21, 22, 23, 24, 25, 26, 27, 28, 29] [⟨[[1]]⟩, ⟨[[2]]⟩, ⟨[[3]]⟩] _
    hg).2.2.2
  exact ⟨hg, st, h1, h2⟩

end PlaneProb

namespace Archive

open PCL

/-- C30: degenerate `minPoints` in `segmentPlanes`.  The inlier count is compared with
`minPoints` converted to `size_t`.  For a negative `minPoints` the converted value is above any
number of inliers that a vector of indices can hold, so `segmentPlanes` returns no plane, for
any cloud.  For `minPoints = 0` the test never holds: `segmentPlanes` returns exactly
`max(maxIterations, 0)` planes, and a round in which the segmenter reports no inlier records an
empty plane and keeps the cloud. -/
theorem segmentPlanes_degenerate_minPoints {Pt : Type} (seg : Segmenter Pt) (cloud : List Pt)
    (maxIterations : Int) (distanceThreshold : ℝ) :
    (∀ minPoints : Int, minPoints < 0 → -(2 ^ 31) ≤ minPoints →
      (∀ c, (seg SACSegmentation_default_max_iterations distanceThreshold c).indices.length
        < 2 ^ 63) →
      (2 : Int) ^ 64 - 2 ^ 31 ≤ (size_t_of_int minPoints : Int) ∧
        segmentPlanes seg cloud maxIterations minPoints distanceThreshold = []) ∧
    (((segmentPlanes seg cloud maxIterations 0 distanceThreshold).length : ℕ) : Int)
      = max maxIterations 0 ∧
    (∀ (budget : Nat) (remainingCloud : List Pt) (segmentedPlanes : List (List Pt)),
      (seg SACSegmentation_default_max_iterations distanceThreshold remainingCloud).indices = [] →
      segmentPlanes_loop (seg SACSegmentation_default_max_iterations distanceThreshold) 0
          (budget + 1) remainingCloud segmentedPlanes
        = segmentPlanes_loop (seg SACSegmentation_default_max_iterations distanceThreshold) 0
            budget remainingCloud (segmentedPlanes ++ [[]])) := by
  refine ⟨?_, ?_, ?_⟩
  · intro minPoints hneg hlo hsize
    have hmod : minPoints % 2 ^ 64 = minPoints + 2 ^ 64 := by
      rw [← Int.add_emod_self]
      exact Int.emod_eq_of_lt (by omega) (by omega)
    have hsz : (size_t_of_int minPoints : Int) = minPoints + 2 ^ 64 := by
      unfold size_t_of_int
      rw [hmod, Int.toNat_of_nonneg (by omega)]
    refine ⟨by omega, ?_⟩
    unfold segmentPlanes
    cases hb : maxIterations.toNat with
    | zero => rfl
    | succ b =>
      have := hsize cloud
      have hlt : (seg SACSegmentation_default_max_iterations distanceThreshold
          cloud).indices.length < size_t_of_int minPoints := by omega
      simp only [segmentPlanes_loop, hlt, if_true]
  · unfold segmentPlanes
    rw [segmentPlanes_loop_zero_length]
    simp only [List.length_nil, Nat.zero_add]
    exact Int.toNat_eq_max maxIterations
  · intro budget rc planes hidx
    have h0 : size_t_of_int 0 = 0 := by simp [size_t_of_int]
    have hpos : ExtractIndices.filter rc [] false = [] := by
      simp [ExtractIndices.filter]
    have hneg : ExtractIndices.filter rc [] true = rc := by
      unfold ExtractIndices.filter
      simp only [if_true, List.contains_nil, Bool.not_false, List.filter_true]
      exact filterMap_range_getElem? rc
    simp only [segmentPlanes_loop, h0, Nat.not_lt_zero, if_false, hidx, hpos, hneg]

/-- Witness of C30: the sample segmenter on a cloud of five points with `minPoints = -1`, and
with `minPoints = 0` and three iterations, where the third plane is empty. -/
theorem segmentPlanes_degenerate_minPoints_witness :
    ((-1 : Int) < 0 ∧ -(2 ^ 31) ≤ (-1 : Int)) ∧
    (∀ c : List ℕ, (Samples.seg_pair SACSegmentation_default_max_iterations 0.03 c).indices.length
      < 2 ^ 63) ∧
    segmentPlanes Samples.seg_pair [10, 11, 12, 13, 14] 5 (-1) 0.03 = [] ∧
    segmentPlanes Samples.seg_pair [10, 11, 12, 13, 14] 3 0 0.03 = [[10, 12], [11, 14], []] := by
  have hsize : ∀ c : List ℕ,
      (Samples.seg_pair SACSegmentation_default_max_iterations 0.03 c).indices.length
        < 2 ^ 63 := by
    intro c
    unfold Samples.seg_pair
    by_cases h : c.length > 2
    · simp [h]
    · simp [h]
  exact ⟨⟨by decide, by decide⟩, hsize,
    ((segmentPlanes_degenerate_minPoints Samples.seg_pair [10, 11, 12, 13, 14] 5 0.03).1 (-1)
      (by decide) (by decide) hsize).2, rfl⟩

end Archive

/-! ## Lemmas on the rounding -/

namespace IEEE

/-- A number at a distance below one half from an integer rounds to that integer. -/
theorem roundEven_eq_of_abs_sub_lt (x : ℝ) (m : ℤ) (h : |x - m| < 1 / 2) :
    roundEven x = m := by
  rw [abs_lt] at h
  obtain ⟨h1, h2⟩ := h
  unfold roundEven
  by_cases hx : (m : ℝ) ≤ x
  · have hf : ⌊x⌋ = m := Int.floor_eq_iff.mpr ⟨hx, by linarith⟩
    rw [hf, if_pos (by linarith)]
  · push_neg at hx
    have hf : ⌊x⌋ = m - 1 :=
      Int.floor_eq_iff.mpr ⟨by push_cast; linarith, by push_cast; linarith⟩
    rw [hf]
    have h3 : ¬ (x - ((m - 1 : ℤ) : ℝ) < 1 / 2) := by push_cast; linarith
    rw [if_neg h3, if_pos (by push_cast; linarith)]
    ring

/-- An integer rounds to itself. -/
theorem roundEven_intCast (m : ℤ) : roundEven (m : ℝ) = m :=
  roundEven_eq_of_abs_sub_lt _ m (by simp)

/-- Rounding to the nearest integer does not go below the floor. -/
theorem floor_le_roundEven (x : ℝ) : ⌊x⌋ ≤ roundEven x := by
  unfold roundEven
  split_ifs <;> omega

/-- Rounding to the nearest integer does not go above the floor plus one. -/
theorem roundEven_le_floor_add_one (x : ℝ) : roundEven x ≤ ⌊x⌋ + 1 := by
  unfold roundEven
  split_ifs <;> omega

/-- Rounding to the nearest integer moves a number by at most one half. -/
theorem abs_roundEven_sub_le (x : ℝ) : |(roundEven x : ℝ) - x| ≤ 1 / 2 := by
  have h1 := Int.floor_le x
  have h2 := Int.lt_floor_add_one x
  unfold roundEven
  split_ifs with ha hb hc <;> push_cast <;> rw [abs_le] <;> constructor <;> linarith

/-- An integer below `x` is below the rounding of `x`. -/
theorem le_roundEven {x : ℝ} {n : ℤ} (h : (n : ℝ) ≤ x) : n ≤ roundEven x :=
  le_trans (Int.le_floor.mpr h) (floor_le_roundEven x)

/-- An integer above `x` is above the rounding of `x`. -/
theorem roundEven_le {x : ℝ} {n : ℤ} (h : x ≤ (n : ℝ)) : roundEven x ≤ n := by
  rcases eq_or_lt_of_le h with h | h
  · rw [h, roundEven_intCast]
  · have := Int.floor_lt.mpr h
    have := roundEven_le_floor_add_one x
    omega

/-- The binade of a positive number: `Int.log 2 x = k` when `2^k ≤ x < 2^(k+1)`. -/
theorem log_eq_of_bounds {x : ℝ} {k : ℤ} (hx : 0 < x) (h1 : (2 : ℝ) ^ k ≤ x)
    (h2 : x < (2 : ℝ) ^ (k + 1)) : Int.log 2 x = k := by
  have hb : 1 < (2 : ℕ) := by norm_num
  have a := (Int.zpow_le_iff_le_log hb hx (x := k)).mp (by simpa using h1)
  have b := (Int.lt_zpow_iff_log_lt hb hx (x := k + 1)).mp (by simpa using h2)
  omega

/-- A positive number is at least the power of two of its binade. -/
theorem zpow_log_le {x : ℝ} (hx : 0 < x) : (2 : ℝ) ^ Int.log 2 x ≤ x := by
  simpa using Int.zpow_log_le_self (b := 2) (by norm_num) hx

/-- A number is below the next power of two above its binade. -/
theorem lt_zpow_log_succ (x : ℝ) : x < (2 : ℝ) ^ (Int.log 2 x + 1) := by
  simpa using Int.lt_zpow_succ_log_self (b := 2) (by norm_num) x

/-- The exponent of the last place of `x` is `e` when `2^(e+p-1) ≤ x < 2^(e+p)`. -/
theorem expo_eq_of_bounds (p : ℕ) {x : ℝ} {e : ℤ} (hx : 0 < x)
    (hlo : (2 : ℝ) ^ (e + ((p : ℤ) - 1)) ≤ x) (hhi : x < (2 : ℝ) ^ (e + (p : ℤ))) :
    expo p x = e := by
  have h := log_eq_of_bounds (k := e + ((p : ℤ) - 1)) hx hlo
    (by rw [show e + ((p : ℤ) - 1) + 1 = e + (p : ℤ) by ring]; exact hhi)
  unfold expo
  omega

/-- A positive `x` of the binade of exponent `e` rounds to `m * 2^e` when it is closer to it than
half the spacing `2^e`. -/
theorem roundPos_eq_of_near (p : ℕ) {x : ℝ} (e m : ℤ) (hx : 0 < x)
    (hlo : (2 : ℝ) ^ (e + ((p : ℤ) - 1)) ≤ x) (hhi : x < (2 : ℝ) ^ (e + (p : ℤ)))
    (hnear : |x - m * (2 : ℝ) ^ e| < (2 : ℝ) ^ e / 2) :
    roundPos p x = m * (2 : ℝ) ^ e := by
  have he := expo_eq_of_bounds p hx hlo hhi
  have h2 : (0 : ℝ) < (2 : ℝ) ^ e := by positivity
  unfold roundPos
  rw [he, roundEven_eq_of_abs_sub_lt _ m]
  have : x / (2 : ℝ) ^ e - m = (x - m * (2 : ℝ) ^ e) / (2 : ℝ) ^ e := by
    rw [sub_div, mul_div_cancel_right₀ _ (ne_of_gt h2)]
  rw [this, abs_div, abs_of_pos h2, div_lt_iff₀ h2]
  linarith

/-- On a positive number `rnd` is `roundPos`. -/
theorem rnd_of_pos (p : ℕ) {x : ℝ} (hx : 0 < x) : rnd p x = roundPos p x := by
  unfold rnd; rw [if_pos hx]

/-- Zero rounds to zero. -/
theorem rnd_zero (p : ℕ) : rnd p 0 = 0 := by
  unfold rnd; simp

/-- Rounding commutes with the change of sign. -/
theorem rnd_neg (p : ℕ) (x : ℝ) : rnd p (-x) = -rnd p x := by
  unfold rnd
  rcases lt_trichotomy x 0 with h | h | h
  · have h1 : 0 < -x := by linarith
    have h2 : ¬ 0 < x := by linarith
    rw [if_pos h1, if_neg h2, if_pos h]; ring
  · subst h; simp
  · have h1 : ¬ 0 < -x := by linarith
    have h2 : -x < 0 := by linarith
    rw [if_neg h1, if_pos h2, if_pos h]; simp

/-- The relative error of rounding a positive number to `p` bits is at most `2^-p`. -/
theorem abs_roundPos_sub_le (p : ℕ) {x : ℝ} (hx : 0 < x) :
    |roundPos p x - x| ≤ (2 : ℝ) ^ (-(p : ℤ)) * x := by
  have h2 : (0 : ℝ) < (2 : ℝ) ^ expo p x := by positivity
  have hlog := zpow_log_le hx
  have hr := abs_roundEven_sub_le (x / (2 : ℝ) ^ expo p x)
  have e1 : roundPos p x - x
      = ((roundEven (x / (2 : ℝ) ^ expo p x) : ℝ) - x / (2 : ℝ) ^ expo p x)
        * (2 : ℝ) ^ expo p x := by
    unfold roundPos; field_simp
  have e2 : (2 : ℝ) ^ expo p x = 2 * ((2 : ℝ) ^ (-(p : ℤ)) * (2 : ℝ) ^ Int.log 2 x) := by
    unfold expo
    rw [show Int.log 2 x - ((p : ℤ) - 1) = 1 + (-(p : ℤ) + Int.log 2 x) by ring]
    rw [zpow_add₀ (by norm_num), zpow_add₀ (by norm_num)]
    simp
  have h3 : (0 : ℝ) < (2 : ℝ) ^ (-(p : ℤ)) := by positivity
  rw [e1, abs_mul, abs_of_pos h2]
  calc |(roundEven (x / (2 : ℝ) ^ expo p x) : ℝ) - x / (2 : ℝ) ^ expo p x|
        * (2 : ℝ) ^ expo p x
      ≤ 1 / 2 * (2 : ℝ) ^ expo p x := by gcongr
    _ = (2 : ℝ) ^ (-(p : ℤ)) * (2 : ℝ) ^ Int.log 2 x := by rw [e2]; ring
    _ ≤ (2 : ℝ) ^ (-(p : ℤ)) * x := by gcongr

/-- The relative error of rounding to `p` bits is at most `2^-p`. -/
theorem abs_rnd_sub_le (p : ℕ) (x : ℝ) : |rnd p x - x| ≤ (2 : ℝ) ^ (-(p : ℤ)) * |x| := by
  rcases lt_trichotomy x 0 with h | h | h
  · have h1 : 0 < -x := by linarith
    have := abs_roundPos_sub_le p h1
    have e : rnd p x = -rnd p (-x) := by rw [rnd_neg]; ring
    rw [e, rnd_of_pos p h1, abs_of_neg h]
    rw [show -roundPos p (-x) - x = -(roundPos p (-x) - -x) by ring, abs_neg]
    exact this
  · subst h; simp [rnd_zero]
  · rw [rnd_of_pos p h, abs_of_pos h]
    exact abs_roundPos_sub_le p h

/-- Multiplying by `2^k` shifts the binade by `k`. -/
theorem log_two_zpow_mul {x : ℝ} (hx : 0 < x) (k : ℤ) :
    Int.log 2 ((2 : ℝ) ^ k * x) = k + Int.log 2 x := by
  have hk : (0 : ℝ) < (2 : ℝ) ^ k := by positivity
  apply log_eq_of_bounds (by positivity)
  · rw [zpow_add₀ (by norm_num)]
    exact mul_le_mul_of_nonneg_left (zpow_log_le hx) (le_of_lt hk)
  · rw [show k + Int.log 2 x + 1 = k + (Int.log 2 x + 1) by ring, zpow_add₀ (by norm_num)]
    exact mul_lt_mul_of_pos_left (lt_zpow_log_succ x) hk

/-- Rounding of a positive number commutes with the multiplication by a power of two. -/
theorem roundPos_two_zpow_mul (p : ℕ) {x : ℝ} (hx : 0 < x) (k : ℤ) :
    roundPos p ((2 : ℝ) ^ k * x) = (2 : ℝ) ^ k * roundPos p x := by
  have he : expo p ((2 : ℝ) ^ k * x) = k + expo p x := by
    unfold expo; rw [log_two_zpow_mul hx]; ring
  have hk : (2 : ℝ) ^ k ≠ 0 := by positivity
  unfold roundPos
  rw [he, zpow_add₀ (by norm_num), mul_div_mul_left _ _ hk]
  ring

/-- Rounding commutes with the multiplication by a power of two. -/
theorem rnd_two_zpow_mul (p : ℕ) (k : ℤ) (x : ℝ) :
    rnd p ((2 : ℝ) ^ k * x) = (2 : ℝ) ^ k * rnd p x := by
  have hk : (0 : ℝ) < (2 : ℝ) ^ k := by positivity
  rcases lt_trichotomy x 0 with h | h | h
  · have h1 : 0 < -x := by linarith
    have e1 : (2 : ℝ) ^ k * x = -((2 : ℝ) ^ k * -x) := by ring
    have e2 : rnd p x = -rnd p (-x) := by rw [rnd_neg]; ring
    rw [e1, rnd_neg, rnd_of_pos p (mul_pos hk h1), roundPos_two_zpow_mul p h1, e2,
      rnd_of_pos p h1]
    ring
  · subst h; simp [rnd_zero]
  · rw [rnd_of_pos p (mul_pos hk h), rnd_of_pos p h, roundPos_two_zpow_mul p h]

/-- The rounding of a non-negative number is non-negative. -/
theorem rnd_nonneg (p : ℕ) {x : ℝ} (hx : 0 ≤ x) : 0 ≤ rnd p x := by
  rcases eq_or_lt_of_le hx with h | h
  · rw [← h, rnd_zero]
  · rw [rnd_of_pos p h]
    unfold roundPos
    have h2 : (0 : ℝ) < (2 : ℝ) ^ expo p x := by positivity
    have h3 : (0 : ℤ) ≤ roundEven (x / (2 : ℝ) ^ expo p x) :=
      le_roundEven (by simpa using le_of_lt (div_pos h h2))
    have h4 : (0 : ℝ) ≤ (roundEven (x / (2 : ℝ) ^ expo p x) : ℝ) := by exact_mod_cast h3
    positivity

/-- For a precision of at least one bit, `2^-p` is below one. -/
theorem two_zpow_neg_lt_one {p : ℕ} (hp : 1 ≤ p) : (2 : ℝ) ^ (-(p : ℤ)) < 1 := by
  apply zpow_lt_one_of_neg₀ (by norm_num)
  have : (1 : ℤ) ≤ (p : ℤ) := by exact_mod_cast hp
  omega

/-- The rounding of a positive number is positive. -/
theorem rnd_pos (p : ℕ) (hp : 1 ≤ p) {x : ℝ} (hx : 0 < x) : 0 < rnd p x := by
  have h := abs_rnd_sub_le p x
  rw [abs_of_pos hx] at h
  have h1 := (abs_le.mp h).1
  have h2 := two_zpow_neg_lt_one hp
  nlinarith

/-- A positive number `m * 2^e` with an integer `m` below `2^p` is a number of precision `p`: it
rounds to itself. -/
theorem rnd_eq_self_of_pos (p : ℕ) (m e : ℤ) (hm0 : 0 < m)
    (hm : (m : ℝ) < (2 : ℝ) ^ (p : ℤ)) :
    rnd p ((m : ℝ) * (2 : ℝ) ^ e) = (m : ℝ) * (2 : ℝ) ^ e := by
  have h2e : (0 : ℝ) < (2 : ℝ) ^ e := by positivity
  have hm0r : (0 : ℝ) < (m : ℝ) := by exact_mod_cast hm0
  have hx : (0 : ℝ) < (m : ℝ) * (2 : ℝ) ^ e := mul_pos hm0r h2e
  have hlt : (m : ℝ) * (2 : ℝ) ^ e < (2 : ℝ) ^ ((p : ℤ) + e) := by
    rw [zpow_add₀ (by norm_num)]
    exact mul_lt_mul_of_pos_right hm h2e
  have hlog : Int.log 2 ((m : ℝ) * (2 : ℝ) ^ e) < (p : ℤ) + e :=
    (Int.lt_zpow_iff_log_lt (b := 2) (by norm_num) hx).mp (by simpa using hlt)
  have hE : expo p ((m : ℝ) * (2 : ℝ) ^ e) ≤ e := by unfold expo; omega
  obtain ⟨n, hn⟩ := Int.eq_ofNat_of_zero_le (sub_nonneg.mpr hE)
  have hsplit : (2 : ℝ) ^ e
      = (2 : ℝ) ^ (n : ℤ) * (2 : ℝ) ^ expo p ((m : ℝ) * (2 : ℝ) ^ e) := by
    rw [← zpow_add₀ (by norm_num), ← hn]; congr 1; ring
  have hE0 : (2 : ℝ) ^ expo p ((m : ℝ) * (2 : ℝ) ^ e) ≠ 0 := by positivity
  have hq : (m : ℝ) * (2 : ℝ) ^ e / (2 : ℝ) ^ expo p ((m : ℝ) * (2 : ℝ) ^ e)
      = ((m * 2 ^ n : ℤ) : ℝ) := by
    nth_rewrite 1 [hsplit]
    rw [← mul_assoc, mul_div_assoc, div_self hE0, mul_one]
    push_cast
    rfl
  rw [rnd_of_pos p hx]
  unfold roundPos
  rw [hq, roundEven_intCast]
  generalize expo p ((m : ℝ) * (2 : ℝ) ^ e) = E at *
  rw [hsplit]
  push_cast
  rw [zpow_natCast]
  ring

/-- A number `m * 2^e` with an integer `m` of magnitude below `2^p` rounds to itself. -/
theorem rnd_eq_self (p : ℕ) (m e : ℤ) (hm : |(m : ℝ)| < (2 : ℝ) ^ (p : ℤ)) :
    rnd p ((m : ℝ) * (2 : ℝ) ^ e) = (m : ℝ) * (2 : ℝ) ^ e := by
  rcases lt_trichotomy m 0 with h | h | h
  · have h1 : 0 < -m := by omega
    have h2 : ((-m : ℤ) : ℝ) < (2 : ℝ) ^ (p : ℤ) := by
      push_cast; exact lt_of_le_of_lt (neg_le_abs _) hm
    have := rnd_eq_self_of_pos p (-m) e h1 h2
    push_cast at this
    rw [neg_mul, rnd_neg] at this
    linarith
  · subst h; simp [rnd_zero]
  · exact rnd_eq_self_of_pos p m e h (lt_of_le_of_lt (le_abs_self _) hm)

/-- Rounding is idempotent: the result of an operation is a number of the format. -/
theorem rnd_rnd (p : ℕ) (hp : 1 ≤ p) (x : ℝ) : rnd p (rnd p x) = rnd p x := by
  have key : ∀ y : ℝ, 0 < y → rnd p (rnd p y) = rnd p y := by
    intro y hy
    have h2 : (0 : ℝ) < (2 : ℝ) ^ expo p y := by positivity
    have hup : y / (2 : ℝ) ^ expo p y ≤ (((2 : ℤ) ^ p : ℤ) : ℝ) := by
      rw [div_le_iff₀ h2]
      push_cast
      have := lt_zpow_log_succ y
      have e : (2 : ℝ) ^ p * (2 : ℝ) ^ expo p y = (2 : ℝ) ^ (Int.log 2 y + 1) := by
        rw [← zpow_natCast, ← zpow_add₀ (by norm_num)]; unfold expo; congr 1; ring
      rw [e]; exact le_of_lt this
    have hM := roundEven_le hup
    have hM0 : (0 : ℤ) ≤ roundEven (y / (2 : ℝ) ^ expo p y) :=
      le_roundEven (by simpa using le_of_lt (div_pos hy h2))
    rw [rnd_of_pos p hy]
    unfold roundPos
    rcases eq_or_lt_of_le hM with h | h
    · rw [h]
      obtain ⟨q, hq⟩ : ∃ q, p = q + 1 := ⟨p - 1, by omega⟩
      have e : (((2 : ℤ) ^ p : ℤ) : ℝ) * (2 : ℝ) ^ expo p y
          = ((1 : ℤ) : ℝ) * (2 : ℝ) ^ ((p : ℤ) + expo p y) := by
        push_cast
        rw [zpow_add₀ (by norm_num), zpow_natCast]; ring
      rw [e]
      apply rnd_eq_self
      rw [hq]
      have : (1 : ℝ) < (2 : ℝ) ^ ((q + 1 : ℕ) : ℤ) := by
        rw [zpow_natCast]
        exact one_lt_pow₀ (by norm_num) (by omega)
      simpa using this
    · apply rnd_eq_self
      rw [abs_of_nonneg (by exact_mod_cast hM0)]
      have : ((roundEven (y / (2 : ℝ) ^ expo p y) : ℤ) : ℝ)
          < (((2 : ℤ) ^ p : ℤ) : ℝ) := by
        exact_mod_cast h
      rw [zpow_natCast]
      simpa using this
  rcases lt_trichotomy x 0 with h | h | h
  · have h1 : 0 < -x := by linarith
    have := key (-x) h1
    rw [rnd_neg, rnd_neg] at this
    linarith
  · subst h; simp [rnd_zero]
  · exact key x h

/-- Evaluation of a binary32 operation: an exact result `x` of the binade of exponent `e` gives
`m * 2^e` when `x` is closer to it than half the spacing `2^e`. -/
theorem f32_eq_of_near {x : ℝ} (e m : ℤ) (hx : 0 < x) (hlo : (2 : ℝ) ^ (e + 23) ≤ x)
    (hhi : x < (2 : ℝ) ^ (e + 24)) (hnear : |x - m * (2 : ℝ) ^ e| < (2 : ℝ) ^ e / 2) :
    f32 x = m * (2 : ℝ) ^ e := by
  unfold f32
  rw [rnd_of_pos 24 hx]
  exact roundPos_eq_of_near 24 e m hx (by simpa using hlo) (by simpa using hhi) hnear

/-- Evaluation of a binary64 operation: an exact result `x` of the binade of exponent `e` gives
`m * 2^e` when `x` is closer to it than half the spacing `2^e`. -/
theorem f64_eq_of_near {x : ℝ} (e m : ℤ) (hx : 0 < x) (hlo : (2 : ℝ) ^ (e + 52) ≤ x)
    (hhi : x < (2 : ℝ) ^ (e + 53)) (hnear : |x - m * (2 : ℝ) ^ e| < (2 : ℝ) ^ e / 2) :
    f64 x = m * (2 : ℝ) ^ e := by
  unfold f64
  rw [rnd_of_pos 53 hx]
  exact roundPos_eq_of_near 53 e m hx (by simpa using hlo) (by simpa using hhi) hnear

/-- Zero is a binary32 number. -/
theorem f32_zero : f32 0 = 0 := rnd_zero 24

/-- Zero is a binary64 number. -/
theorem f64_zero : f64 0 = 0 := rnd_zero 53

/-- A binary32 operation commutes with the change of sign. -/
theorem f32_neg (x : ℝ) : f32 (-x) = -f32 x := rnd_neg 24 x

/-- A binary32 result is non-negative when the exact result is. -/
theorem f32_nonneg {x : ℝ} (hx : 0 ≤ x) : 0 ≤ f32 x := rnd_nonneg 24 hx

/-- A binary32 result is positive when the exact result is. -/
theorem f32_pos {x : ℝ} (hx : 0 < x) : 0 < f32 x := rnd_pos 24 (by norm_num) hx

/-- The result of a binary32 operation is a binary32 number. -/
theorem f32_f32 (x : ℝ) : f32 (f32 x) = f32 x := rnd_rnd 24 (by norm_num) x

/-- A binary32 operation commutes with the multiplication by a power of two. -/
theorem f32_two_zpow_mul (k : ℤ) (x : ℝ) : f32 ((2 : ℝ) ^ k * x) = (2 : ℝ) ^ k * f32 x :=
  rnd_two_zpow_mul 24 k x

/-- The relative error of one binary32 operation is at most `2^-24`. -/
theorem abs_f32_sub_le (x : ℝ) : |f32 x - x| ≤ |x| / 16777216 := by
  have h := abs_rnd_sub_le 24 x
  have e : (2 : ℝ) ^ (-((24 : ℕ) : ℤ)) = 1 / 16777216 := by norm_num
  rw [e] at h
  unfold f32
  linarith

/-- An integer of magnitude below `2^24` is a binary32 number. -/
theorem f32_intCast (n : ℤ) (h : |n| < 2 ^ 24) : f32 (n : ℝ) = n := by
  have h1 : |(n : ℝ)| < (2 : ℝ) ^ ((24 : ℕ) : ℤ) := by
    rw [zpow_natCast, ← Int.cast_abs]
    exact_mod_cast h
  have := rnd_eq_self 24 n 0 h1
  simpa [f32] using this

/-- One is a binary32 number. -/
theorem f32_one : f32 1 = 1 := by
  simpa using f32_intCast 1 (by norm_num)

/-- Evaluation of the binary32 square root: `sqrt S` gives `m * 2^e` when `S` lies strictly
between the squares of the two midpoints next to `m * 2^e`. -/
theorem f32_sqrt_eq_of_near {S : ℝ} (e m : ℤ)
    (hm : (0 : ℝ) < m * (2 : ℝ) ^ e - (2 : ℝ) ^ e / 2)
    (hlo : ((2 : ℝ) ^ (e + 23)) ^ 2 ≤ S) (hhi : S < ((2 : ℝ) ^ (e + 24)) ^ 2)
    (h1 : (m * (2 : ℝ) ^ e - (2 : ℝ) ^ e / 2) ^ 2 < S)
    (h2 : S < (m * (2 : ℝ) ^ e + (2 : ℝ) ^ e / 2) ^ 2) :
    f32 (Real.sqrt S) = m * (2 : ℝ) ^ e := by
  have h2e : (0 : ℝ) < (2 : ℝ) ^ e := by positivity
  have hS : 0 < S := lt_of_le_of_lt (sq_nonneg _) h1
  have hs : 0 < Real.sqrt S := Real.sqrt_pos.mpr hS
  apply f32_eq_of_near e m hs
  · exact Real.le_sqrt' (by positivity) |>.mpr hlo
  · exact (Real.sqrt_lt' (by positivity)).mpr hhi
  · rw [abs_lt]
    have a1 : m * (2 : ℝ) ^ e - (2 : ℝ) ^ e / 2 < Real.sqrt S :=
      (Real.lt_sqrt (le_of_lt hm)).mpr h1
    have a2 : Real.sqrt S < m * (2 : ℝ) ^ e + (2 : ℝ) ^ e / 2 :=
      (Real.sqrt_lt' (by linarith)).mpr h2
    constructor <;> linarith

end IEEE

/-! ## Lemmas on the binary32 dot product and norm -/

namespace Eigen

open PCL IEEE

/-- The binary32 dot product is symmetric. -/
theorem dot_symm (u v : Vector3f) : dot u v = dot v u := by
  unfold dot
  rw [mul_comm u.x, mul_comm u.y, mul_comm u.z]

/-- The binary32 dot product with the opposite vector. -/
theorem dot_neg_right (a b c a' b' c' : ℝ) :
    dot ⟨a, b, c⟩ ⟨-a', -b', -c'⟩ = -dot ⟨a, b, c⟩ ⟨a', b', c'⟩ := by
  simp only [dot, mul_neg, f32_neg, ← neg_add]

/-- The opposite vector has the same binary32 squared length. -/
theorem dot_neg_neg (a b c : ℝ) :
    dot ⟨-a, -b, -c⟩ ⟨-a, -b, -c⟩ = dot ⟨a, b, c⟩ ⟨a, b, c⟩ := by
  simp only [dot, neg_mul_neg]

/-- The binary32 squared length is non-negative. -/
theorem dot_self_nonneg (u : Vector3f) : 0 ≤ dot u u := by
  unfold dot
  have h0 := f32_nonneg (mul_self_nonneg u.x)
  have h1 := f32_nonneg (mul_self_nonneg u.y)
  have h2 := f32_nonneg (mul_self_nonneg u.z)
  exact f32_nonneg (add_nonneg h0 (f32_nonneg (add_nonneg h1 h2)))

/-- The result of the binary32 dot product is a binary32 number. -/
theorem f32_dot (u v : Vector3f) : f32 (dot u v) = dot u v := by
  unfold dot; rw [f32_f32]

/-- Scaling the two vectors by powers of two scales the binary32 dot product by their
product. -/
theorem dot_two_zpow (i j : ℤ) (a b c a' b' c' : ℝ) :
    dot ⟨(2 : ℝ) ^ i * a, (2 : ℝ) ^ i * b, (2 : ℝ) ^ i * c⟩
        ⟨(2 : ℝ) ^ j * a', (2 : ℝ) ^ j * b', (2 : ℝ) ^ j * c'⟩
      = (2 : ℝ) ^ (i + j) * dot ⟨a, b, c⟩ ⟨a', b', c'⟩ := by
  have e : ∀ x y : ℝ, (2 : ℝ) ^ i * x * ((2 : ℝ) ^ j * y) = (2 : ℝ) ^ (i + j) * (x * y) := by
    intro x y
    rw [zpow_add₀ (by norm_num)]; ring
  simp only [dot, e, f32_two_zpow_mul, ← mul_add]

/-- Scaling a vector by a power of two scales its binary32 norm by the same factor. -/
theorem norm_two_zpow (i : ℤ) (a b c : ℝ) :
    norm ⟨(2 : ℝ) ^ i * a, (2 : ℝ) ^ i * b, (2 : ℝ) ^ i * c⟩
      = (2 : ℝ) ^ i * norm ⟨a, b, c⟩ := by
  have hi : (0 : ℝ) ≤ (2 : ℝ) ^ i := by positivity
  unfold norm
  rw [dot_two_zpow, zpow_add₀ (by norm_num), mul_assoc,
    Real.sqrt_mul hi, Real.sqrt_mul hi, ← mul_assoc, Real.mul_self_sqrt hi, f32_two_zpow_mul]

/-- The dot product of two vectors in the `x`-`y` plane whose coordinates are integers, the
products and their sum below `2^24`: every operation is exact. -/
theorem dot_int (a b a' b' : ℤ) (h1 : |a * a'| < 2 ^ 24) (h2 : |b * b'| < 2 ^ 24)
    (h3 : |a * a' + b * b'| < 2 ^ 24) :
    dot ⟨a, b, 0⟩ ⟨a', b', 0⟩ = ((a * a' + b * b' : ℤ) : ℝ) := by
  unfold dot
  have e1 : (a : ℝ) * (a' : ℝ) = ((a * a' : ℤ) : ℝ) := by push_cast; ring
  have e2 : (b : ℝ) * (b' : ℝ) = ((b * b' : ℤ) : ℝ) := by push_cast; ring
  have e3 : ((a * a' : ℤ) : ℝ) + ((b * b' : ℤ) : ℝ) = ((a * a' + b * b' : ℤ) : ℝ) := by
    push_cast; ring
  simp only [e1, e2, mul_zero, f32_zero, add_zero, f32_intCast _ h1, f32_intCast _ h2, e3,
    f32_intCast _ h3]

/-- The dot product of two vectors on the `z` axis is one binary32 product. -/
theorem dot_axis_z (c c' : ℝ) : dot ⟨0, 0, c⟩ ⟨0, 0, c'⟩ = f32 (c * c') := by
  unfold dot
  simp only [mul_zero, f32_zero, zero_add, f32_f32]

/-- The dot product of `(0, 0, 1)` with itself. -/
theorem dot_axis_z_one : dot ⟨0, 0, 1⟩ ⟨0, 0, 1⟩ = 1 := by
  rw [dot_axis_z, mul_one, f32_one]

/-- The norm of `(0, 0, 1)`. -/
theorem norm_axis_z : norm ⟨0, 0, 1⟩ = 1 := by
  unfold norm
  rw [dot_axis_z_one, Real.sqrt_one, f32_one]

/-- Rounding analysis of the quotient that `is_similar_plane` forms for a normal and its
opposite: with `S` the computed squared length, `N = f32 (sqrt S)` the computed length and
`P = f32 (N * N)` the computed product of the norms, the computed quotient `f32 (-S / P)` is at
most `-(1 - 2^-22)`. -/
theorem quotient_opposite_le (S : ℝ) (hS : 0 < S) :
    f32 (-S / f32 (f32 (Real.sqrt S) * f32 (Real.sqrt S))) ≤ -(1 - 1 / 4194304) := by
  have hs : 0 < Real.sqrt S := Real.sqrt_pos.mpr hS
  have hss : Real.sqrt S * Real.sqrt S = S := Real.mul_self_sqrt (le_of_lt hS)
  set s := Real.sqrt S with hsdef
  have hN := abs_f32_sub_le s
  rw [abs_of_pos hs] at hN
  have hNpos := f32_pos hs
  set N := f32 s with hNdef
  obtain ⟨hN1, hN2⟩ := abs_le.mp hN
  have hNN : 0 < N * N := mul_pos hNpos hNpos
  have hP := abs_f32_sub_le (N * N)
  rw [abs_of_pos hNN] at hP
  have hPpos := f32_pos hNN
  set P := f32 (N * N) with hPdef
  obtain ⟨hP1, hP2⟩ := abs_le.mp hP
  have hr : 0 < S / P := div_pos hS hPpos
  have hQ := abs_f32_sub_le (S / P)
  rw [abs_of_pos hr] at hQ
  obtain ⟨hQ1, hQ2⟩ := abs_le.mp hQ
  rw [neg_div, f32_neg]
  have hNle : N ≤ (1 + 1 / 16777216) * s := by linarith
  have hNNle : N * N ≤ ((1 + 1 / 16777216) * s) * ((1 + 1 / 16777216) * s) :=
    mul_le_mul hNle hNle (le_of_lt hNpos) (by positivity)
  have hPle : P ≤ (1 + 1 / 16777216) ^ 3 * S := by
    have : P ≤ (1 + 1 / 16777216) * (N * N) := by linarith
    calc P ≤ (1 + 1 / 16777216) * (N * N) := this
      _ ≤ (1 + 1 / 16777216) * (((1 + 1 / 16777216) * s) * ((1 + 1 / 16777216) * s)) := by
          gcongr
      _ = (1 + 1 / 16777216) ^ 3 * (s * s) := by ring
      _ = (1 + 1 / 16777216) ^ 3 * S := by rw [hss]
  have hrge : 1 / (1 + 1 / 16777216) ^ 3 ≤ S / P := by
    rw [div_le_div_iff₀ (by positivity) hPpos]
    linarith
  have hfge : (1 - 1 / 16777216) * (S / P) ≤ f32 (S / P) := by linarith
  have hnum : (1 : ℝ) - 1 / 4194304 ≤ (1 - 1 / 16777216) * (1 / (1 + 1 / 16777216) ^ 3) := by
    norm_num
  have : (1 - 1 / 16777216) * (1 / (1 + 1 / 16777216) ^ 3) ≤ (1 - 1 / 16777216) * (S / P) :=
    mul_le_mul_of_nonneg_left hrge (by norm_num)
  linarith

end Eigen

/-! ## Lemmas on `acos` -/

namespace PCL

/-- The exact `acos` of the embedding meets the specification of the library function. -/
theorem acosSpec_acos : AcosSpec acos := by
  constructor
  · intro x hx
    unfold acos
    rw [if_neg]
    rintro ⟨h1, h2⟩
    rcases hx with hx | hx <;> linarith
  · intro x h1 h2
    refine ⟨Real.arccos x, ?_, ?_⟩
    · unfold acos; rw [if_pos ⟨h1, h2⟩]
    · rw [sub_self, abs_zero]; positivity

/-- The angle of the cosine one is zero. -/
theorem acos_one : acos 1 = some 0 := by
  unfold acos
  rw [if_pos (by norm_num), Real.arccos_one]

/-- On `[-1, 1]` the exact `acos` is `arccos`. -/
theorem acos_of_mem {x : ℝ} (h1 : -1 ≤ x) (h2 : x ≤ 1) : acos x = some (Real.arccos x) := by
  unfold acos
  rw [if_pos ⟨h1, h2⟩]

/-- The angle of a cosine of at most `-(1 - 2^-22)` is at least `3.1401`. -/
theorem arccos_ge_of_le {x : ℝ} (h1 : -1 ≤ x) (h2 : x ≤ -(1 - 1 / 4194304)) :
    3.1401 ≤ Real.arccos x := by
  have hpi1 := Real.pi_gt_d6
  have hpi2 := Real.pi_lt_d6
  have hc : x ≤ Real.cos 3.1401 := by
    have e : Real.cos 3.1401 = -Real.cos (Real.pi - 3.1401) := by
      rw [Real.cos_pi_sub]; ring
    have hb := Real.cos_bound (x := Real.pi - 3.1401) (by rw [abs_le]; constructor <;> linarith)
    have hd1 : 0.00149 ≤ Real.pi - 3.1401 := by linarith
    have hd2 : Real.pi - 3.1401 ≤ 0.0015 := by linarith
    have hd0 : 0 ≤ Real.pi - 3.1401 := by linarith
    rw [abs_of_nonneg hd0] at hb
    have hb2 := (abs_le.mp hb).2
    have hsq : 0.00149 ^ 2 ≤ (Real.pi - 3.1401) ^ 2 := by
      apply pow_le_pow_left₀ (by norm_num) hd1
    have h4 : (Real.pi - 3.1401) ^ 4 ≤ 0.0015 ^ 4 := by
      apply pow_le_pow_left₀ hd0 hd2
    rw [e]
    have : Real.cos (Real.pi - 3.1401) ≤ 1 - 1 / 4194304 := by
      have : Real.cos (Real.pi - 3.1401)
          ≤ 1 - (Real.pi - 3.1401) ^ 2 / 2 + (Real.pi - 3.1401) ^ 4 * (5 / 96) := by linarith
      have : (Real.pi - 3.1401) ^ 4 * (5 / 96) ≤ 0.0015 ^ 4 * (5 / 96) := by linarith
      norm_num at *
      linarith
    linarith
  have hcos1 : Real.cos 3.1401 ≤ 1 := Real.cos_le_one _
  have hcosm : -1 ≤ Real.cos 3.1401 := Real.neg_one_le_cos _
  have hx1 : x ≤ 1 := le_trans hc hcos1
  have h := Real.strictAntiOn_arccos.antitoneOn ⟨h1, hx1⟩ ⟨hcosm, hcos1⟩ hc
  rw [Real.arccos_cos (by norm_num) (by linarith)] at h
  exact h

/-- A library `acos` that meets its specification returns more than `3.14` on a cosine of at
most `-(1 - 2^-22)`, when it returns a number. -/
theorem AcosSpec.gt_of_le {acos : ℝ → Option ℝ} (hacos : AcosSpec acos) {x y : ℝ}
    (hx : x ≤ -(1 - 1 / 4194304)) (h : acos x = some y) : 3.14 < y := by
  by_cases h1 : x < -1
  · rw [hacos.1 x (Or.inl h1)] at h
    exact absurd h (by simp)
  · push_neg at h1
    obtain ⟨y', hy', hb⟩ := hacos.2 x h1 (by linarith)
    rw [hy'] at h
    injection h with h
    subst h
    have := arccos_ge_of_le h1 hx
    have hb1 := (abs_le.mp hb).1
    norm_num at hb1 this ⊢
    linarith

end PCL

/-! ## Lemmas on `is_similar_plane` in binary32 -/

namespace Terrain.Binary32

open PCL IEEE

/-- The steps of `is_similar_plane` when the computed norms, their product and the quotient are
known and the product is not zero. -/
theorem is_similar_plane_eval (acos : ℝ → Option ℝ) (p1 p2 : ModelCoefficients) (a d : ℝ)
    (N1 N2 den q : ℝ) (hN1 : Eigen.norm ⟨p1.A, p1.B, p1.C⟩ = N1)
    (hN2 : Eigen.norm ⟨p2.A, p2.B, p2.C⟩ = N2) (hden : f32 (N1 * N2) = den) (hden0 : den ≠ 0)
    (hq : f32 (Eigen.dot ⟨p1.A, p1.B, p1.C⟩ ⟨p2.A, p2.B, p2.C⟩ / den) = q) :
    is_similar_plane acos p1 p2 a d =
      match acos q with
      | none => false
      | some angle =>
        decide (angle < a ∧ |f64 (f32 (p1.D / N1) - f32 (p2.D / N2))| < d) := by
  unfold is_similar_plane
  simp only [hN1, hN2, hden, hq, if_neg hden0]

/-- In binary32 too the answer of `is_similar_plane` does not depend on the order of the two
planes. -/
theorem is_similar_plane_symm (acos : ℝ → Option ℝ) (p1 p2 : ModelCoefficients) (a d : ℝ) :
    is_similar_plane acos p1 p2 a d = is_similar_plane acos p2 p1 a d := by
  have hf : ∀ x y : ℝ, |f64 (x - y)| = |f64 (y - x)| := by
    intro x y
    rw [← neg_sub y x]
    unfold f64
    rw [rnd_neg, abs_neg]
  unfold is_similar_plane
  simp only [Eigen.dot_symm ⟨p1.A, p1.B, p1.C⟩ ⟨p2.A, p2.B, p2.C⟩,
    mul_comm (Eigen.norm ⟨p1.A, p1.B, p1.C⟩) (Eigen.norm ⟨p2.A, p2.B, p2.C⟩),
    hf (f32 (p1.D / Eigen.norm ⟨p1.A, p1.B, p1.C⟩)) (f32 (p2.D / Eigen.norm ⟨p2.A, p2.B, p2.C⟩))]

/-- Scaling the two planes by powers of two does not change `is_similar_plane`: every binary32
result is scaled by a power of two, and the quotient and the distances are unchanged. -/
theorem is_similar_plane_two_zpow (acos : ℝ → Option ℝ) (p1 p2 : ModelCoefficients) (a d : ℝ)
    (i j : ℤ) :
    is_similar_plane acos
        ⟨(2 : ℝ) ^ i * p1.A, (2 : ℝ) ^ i * p1.B, (2 : ℝ) ^ i * p1.C, (2 : ℝ) ^ i * p1.D⟩
        ⟨(2 : ℝ) ^ j * p2.A, (2 : ℝ) ^ j * p2.B, (2 : ℝ) ^ j * p2.C, (2 : ℝ) ^ j * p2.D⟩ a d
      = is_similar_plane acos p1 p2 a d := by
  have hi : (2 : ℝ) ^ i ≠ 0 := by positivity
  have hj : (2 : ℝ) ^ j ≠ 0 := by positivity
  have hij : (2 : ℝ) ^ (i + j) ≠ 0 := by positivity
  have e1 : ∀ x y : ℝ, (2 : ℝ) ^ i * x * ((2 : ℝ) ^ j * y) = (2 : ℝ) ^ (i + j) * (x * y) := by
    intro x y
    rw [zpow_add₀ (by norm_num)]; ring
  unfold is_similar_plane
  simp only [Eigen.norm_two_zpow, Eigen.dot_two_zpow, e1, f32_two_zpow_mul,
    mul_div_mul_left _ _ hi, mul_div_mul_left _ _ hj, mul_div_mul_left _ _ hij,
    mul_eq_zero, hij, false_or]

/-- A plane and the plane with its four coefficients negated: the computed quotient is at most
`-(1 - 2^-22)`, so an `acos` that meets its specification gives NaN or more than `3.14`. -/
theorem is_similar_plane_opposite (acos : ℝ → Option ℝ) (hacos : AcosSpec acos)
    (p : ModelCoefficients) (a d : ℝ) (ha : a ≤ 3.14) :
    is_similar_plane acos p ⟨-p.A, -p.B, -p.C, -p.D⟩ a d = false := by
  unfold is_similar_plane
  simp only [Eigen.norm, Eigen.dot_neg_neg]
  simp only [Eigen.dot_neg_right]
  have hS0 := Eigen.dot_self_nonneg ⟨p.A, p.B, p.C⟩
  generalize Eigen.dot ⟨p.A, p.B, p.C⟩ ⟨p.A, p.B, p.C⟩ = S at hS0
  split_ifs with hden
  · rfl
  · rcases eq_or_lt_of_le hS0 with h0 | hpos
    · exfalso
      apply hden
      rw [← h0]
      simp [f32_zero]
    · have hq := Eigen.quotient_opposite_le S hpos
      generalize hQ : f32 (-S / f32 (f32 (Real.sqrt S) * f32 (Real.sqrt S))) = q at hq
      cases hac : acos q with
      | none => rfl
      | some angle =>
        have := hacos.gt_of_le hq hac
        simp only [decide_eq_false_iff_not, not_and]
        intro hlt
        linarith

end Terrain.Binary32

/-! ## Evaluations in binary32 -/

namespace Samples

open PCL IEEE Terrain.Binary32

/-- The squared length of `(1, 1, 0)`. -/
theorem dot_1_1 : Eigen.dot ⟨1, 1, 0⟩ ⟨1, 1, 0⟩ = 2 := by
  have := Eigen.dot_int 1 1 1 1 (by norm_num) (by norm_num) (by norm_num)
  norm_num at this
  exact this

/-- The binary32 norm of `(1, 1, 0)`: `1.41421354`. -/
theorem norm_1_1 : Eigen.norm ⟨1, 1, 0⟩ = 11863283 * (2 : ℝ) ^ (-23 : ℤ) := by
  unfold Eigen.norm
  rw [dot_1_1]
  exact_mod_cast f32_sqrt_eq_of_near (S := 2) (-23) 11863283 (by norm_num) (by norm_num)
    (by norm_num) (by norm_num) (by norm_num)

/-- The binary32 square of the norm of `(1, 1, 0)`: `1.99999988`. -/
theorem den_1_1 :
    f32 (11863283 * (2 : ℝ) ^ (-23 : ℤ) * (11863283 * (2 : ℝ) ^ (-23 : ℤ)))
      = 16777215 * (2 : ℝ) ^ (-23 : ℤ) := by
  have h := f32_eq_of_near
    (x := 11863283 * (2 : ℝ) ^ (-23 : ℤ) * (11863283 * (2 : ℝ) ^ (-23 : ℤ))) (-23) 16777215
    (by norm_num) (by norm_num) (by norm_num) (by rw [abs_lt]; constructor <;> norm_num)
  exact_mod_cast h

/-- The binary32 quotient for `(1, 1, 0)` and itself: `1.00000012`. -/
theorem quot_1_1 :
    f32 (2 / (16777215 * (2 : ℝ) ^ (-23 : ℤ))) = 8388609 * (2 : ℝ) ^ (-23 : ℤ) := by
  have h := f32_eq_of_near (x := 2 / (16777215 * (2 : ℝ) ^ (-23 : ℤ))) (-23) 8388609
    (by norm_num) (by norm_num) (by norm_num) (by rw [abs_lt]; constructor <;> norm_num)
  exact_mod_cast h

/-- In binary32 the plane `(1, 1, 0, 0)` is not similar to itself: the quotient rounds to
`1 + 2^-23` and `acos` of it is NaN. -/
theorem not_similar_1_1 (a d : ℝ) :
    is_similar_plane acos ⟨1, 1, 0, 0⟩ ⟨1, 1, 0, 0⟩ a d = false := by
  rw [is_similar_plane_eval acos ⟨1, 1, 0, 0⟩ ⟨1, 1, 0, 0⟩ a d _ _ _
    (8388609 * (2 : ℝ) ^ (-23 : ℤ)) norm_1_1 norm_1_1
    den_1_1 (by norm_num) (by rw [dot_1_1]; exact quot_1_1)]
  have : acos (8388609 * (2 : ℝ) ^ (-23 : ℤ)) = none := by
    unfold acos
    rw [if_neg]
    rintro ⟨_, h⟩
    norm_num at h
  rw [this]

/-- The squared length of `(5, 5, 0)`. -/
theorem dot_5_5 : Eigen.dot ⟨5, 5, 0⟩ ⟨5, 5, 0⟩ = 50 := by
  have := Eigen.dot_int 5 5 5 5 (by norm_num) (by norm_num) (by norm_num)
  norm_num at this
  exact this

/-- The binary32 norm of `(5, 5, 0)`: `7.07106781`. -/
theorem norm_5_5 : Eigen.norm ⟨5, 5, 0⟩ = 14829104 * (2 : ℝ) ^ (-21 : ℤ) := by
  unfold Eigen.norm
  rw [dot_5_5]
  exact_mod_cast f32_sqrt_eq_of_near (S := 50) (-21) 14829104 (by norm_num) (by norm_num)
    (by norm_num) (by norm_num) (by norm_num)

/-- The binary32 square of the norm of `(5, 5, 0)` is `50`. -/
theorem den_5_5 :
    f32 (14829104 * (2 : ℝ) ^ (-21 : ℤ) * (14829104 * (2 : ℝ) ^ (-21 : ℤ))) = 50 := by
  have h := f32_eq_of_near
    (x := 14829104 * (2 : ℝ) ^ (-21 : ℤ) * (14829104 * (2 : ℝ) ^ (-21 : ℤ))) (-18) 13107200
    (by norm_num) (by norm_num) (by norm_num) (by rw [abs_lt]; constructor <;> norm_num)
  rw [h]
  norm_num

/-- In binary32 the plane `(5, 5, 0, 0)` is similar to itself: the product of the norms rounds
to `50` and the quotient is `1`. -/
theorem similar_5_5 (a d : ℝ) (ha : 0 < a) (hd : 0 < d) :
    is_similar_plane acos ⟨5, 5, 0, 0⟩ ⟨5, 5, 0, 0⟩ a d = true := by
  rw [is_similar_plane_eval acos ⟨5, 5, 0, 0⟩ ⟨5, 5, 0, 0⟩ a d _ _ 50 1 norm_5_5 norm_5_5
    den_5_5 (by norm_num) (by rw [dot_5_5, div_self (by norm_num), f32_one])]
  rw [acos_one]
  simp only [zero_div, f32_zero, sub_zero, f64_zero, abs_zero, decide_eq_true_eq]
  exact ⟨ha, hd⟩

/-- The squared length of `(1, 6, 0)`. -/
theorem dot_1_6 : Eigen.dot ⟨1, 6, 0⟩ ⟨1, 6, 0⟩ = 37 := by
  have := Eigen.dot_int 1 6 1 6 (by norm_num) (by norm_num) (by norm_num)
  norm_num at this
  exact this

/-- The dot product of `(1, 6, 0)` and its opposite. -/
theorem dot_1_6_neg : Eigen.dot ⟨1, 6, 0⟩ ⟨-1, -6, 0⟩ = -37 := by
  have := Eigen.dot_int 1 6 (-1) (-6) (by norm_num) (by norm_num) (by norm_num)
  norm_num at this
  exact this

/-- The squared length of `(-1, -6, 0)`. -/
theorem dot_neg_1_6 : Eigen.dot ⟨-1, -6, 0⟩ ⟨-1, -6, 0⟩ = 37 := by
  have := Eigen.dot_int (-1) (-6) (-1) (-6) (by norm_num) (by norm_num) (by norm_num)
  norm_num at this
  exact this

/-- The binary32 square root of `37`: `6.08276272`. -/
theorem sqrt_37 : f32 (Real.sqrt 37) = 12756478 * (2 : ℝ) ^ (-21 : ℤ) := by
  exact_mod_cast f32_sqrt_eq_of_near (S := 37) (-21) 12756478 (by norm_num) (by norm_num)
    (by norm_num) (by norm_num) (by norm_num)

/-- The binary32 norm of `(1, 6, 0)`. -/
theorem norm_1_6 : Eigen.norm ⟨1, 6, 0⟩ = 12756478 * (2 : ℝ) ^ (-21 : ℤ) := by
  unfold Eigen.norm
  rw [dot_1_6, sqrt_37]

/-- The binary32 norm of `(-1, -6, 0)`. -/
theorem norm_neg_1_6 : Eigen.norm ⟨-1, -6, 0⟩ = 12756478 * (2 : ℝ) ^ (-21 : ℤ) := by
  unfold Eigen.norm
  rw [dot_neg_1_6, sqrt_37]

/-- The binary32 square of the norm of `(1, 6, 0)`: `37.0000038`. -/
theorem den_1_6 :
    f32 (12756478 * (2 : ℝ) ^ (-21 : ℤ) * (12756478 * (2 : ℝ) ^ (-21 : ℤ)))
      = 9699329 * (2 : ℝ) ^ (-18 : ℤ) := by
  have h := f32_eq_of_near
    (x := 12756478 * (2 : ℝ) ^ (-21 : ℤ) * (12756478 * (2 : ℝ) ^ (-21 : ℤ))) (-18) 9699329
    (by norm_num) (by norm_num) (by norm_num) (by rw [abs_lt]; constructor <;> norm_num)
  exact_mod_cast h

/-- The binary32 quotient for `(1, 6, 0)` and itself: `0.99999988`. -/
theorem quot_1_6 :
    f32 (37 / (9699329 * (2 : ℝ) ^ (-18 : ℤ))) = 16777214 * (2 : ℝ) ^ (-24 : ℤ) := by
  have h := f32_eq_of_near (x := 37 / (9699329 * (2 : ℝ) ^ (-18 : ℤ))) (-24) 16777214
    (by norm_num) (by norm_num) (by norm_num) (by rw [abs_lt]; constructor <;> norm_num)
  exact_mod_cast h

/-- The squared length of `(3, 18, 0)`. -/
theorem dot_3_18 : Eigen.dot ⟨3, 18, 0⟩ ⟨3, 18, 0⟩ = 333 := by
  have := Eigen.dot_int 3 18 3 18 (by norm_num) (by norm_num) (by norm_num)
  norm_num at this
  exact this

/-- The binary32 norm of `(3, 18, 0)`: `18.2482872`. -/
theorem norm_3_18 : Eigen.norm ⟨3, 18, 0⟩ = 9567358 * (2 : ℝ) ^ (-19 : ℤ) := by
  unfold Eigen.norm
  rw [dot_3_18]
  exact_mod_cast f32_sqrt_eq_of_near (S := 333) (-19) 9567358 (by norm_num) (by norm_num)
    (by norm_num) (by norm_num) (by norm_num)

/-- The binary32 square of the norm of `(3, 18, 0)` is `333`. -/
theorem den_3_18 :
    f32 (9567358 * (2 : ℝ) ^ (-19 : ℤ) * (9567358 * (2 : ℝ) ^ (-19 : ℤ))) = 333 := by
  have h := f32_eq_of_near
    (x := 9567358 * (2 : ℝ) ^ (-19 : ℤ) * (9567358 * (2 : ℝ) ^ (-19 : ℤ))) (-15) 10911744
    (by norm_num) (by norm_num) (by norm_num) (by rw [abs_lt]; constructor <;> norm_num)
  rw [h]
  norm_num

/-- The angle of the quotient `1 - 2^-23` is at least `2^-12`. -/
theorem arccos_quot_1_6 :
    (2 : ℝ) ^ (-12 : ℤ) ≤ Real.arccos (16777214 * (2 : ℝ) ^ (-24 : ℤ)) := by
  have hpi := Real.pi_gt_d6
  have hc : 16777214 * (2 : ℝ) ^ (-24 : ℤ) ≤ Real.cos ((2 : ℝ) ^ (-12 : ℤ)) := by
    have := Real.one_sub_sq_div_two_le_cos (x := (2 : ℝ) ^ (-12 : ℤ))
    norm_num at this ⊢
    linarith
  have h := Real.strictAntiOn_arccos.antitoneOn
    (a := 16777214 * (2 : ℝ) ^ (-24 : ℤ)) (b := Real.cos ((2 : ℝ) ^ (-12 : ℤ)))
    ⟨by norm_num, by norm_num⟩ ⟨Real.neg_one_le_cos _, Real.cos_le_one _⟩ hc
  rw [Real.arccos_cos (by positivity) (by norm_num; linarith)] at h
  exact h

/-- The angle of the quotient `-(1 - 2^-23)` is below `3.1415`. -/
theorem arccos_quot_1_6_neg : Real.arccos (-(16777214 * (2 : ℝ) ^ (-24 : ℤ))) < 3.1415 := by
  have hpi1 := Real.pi_gt_d6
  have hpi2 := Real.pi_lt_d6
  have hc : Real.cos 3.1415 < -(16777214 * (2 : ℝ) ^ (-24 : ℤ)) := by
    have e : Real.cos 3.1415 = -Real.cos (Real.pi - 3.1415) := by
      rw [Real.cos_pi_sub]; ring
    have h1 := Real.one_sub_sq_div_two_le_cos (x := Real.pi - 3.1415)
    have hd0 : 0 ≤ Real.pi - 3.1415 := by linarith
    have hd1 : Real.pi - 3.1415 ≤ 0.0001 := by linarith
    have hsq : (Real.pi - 3.1415) ^ 2 ≤ 0.0001 ^ 2 := pow_le_pow_left₀ hd0 hd1 2
    rw [e]
    norm_num at hsq ⊢
    linarith
  have h := Real.strictAntiOn_arccos
    (a := Real.cos 3.1415) (b := -(16777214 * (2 : ℝ) ^ (-24 : ℤ)))
    ⟨Real.neg_one_le_cos _, Real.cos_le_one _⟩ ⟨by norm_num, by norm_num⟩ hc
  rw [Real.arccos_cos (by norm_num) (by linarith)] at h
  exact h

/-- In binary32 the plane `(1, 6, 0, 0)` is at an angle of at least `2^-12` from itself. -/
theorem not_similar_1_6 (d : ℝ) :
    is_similar_plane acos ⟨1, 6, 0, 0⟩ ⟨1, 6, 0, 0⟩ ((2 : ℝ) ^ (-12 : ℤ)) d = false := by
  rw [is_similar_plane_eval acos ⟨1, 6, 0, 0⟩ ⟨1, 6, 0, 0⟩ _ d _ _ _
    (16777214 * (2 : ℝ) ^ (-24 : ℤ)) norm_1_6 norm_1_6 den_1_6 (by norm_num)
    (by rw [dot_1_6]; exact quot_1_6)]
  rw [acos_of_mem (by norm_num) (by norm_num)]
  simp only [decide_eq_false_iff_not, not_and]
  intro h
  exact absurd h (not_lt.mpr arccos_quot_1_6)

/-- In binary32 the plane `(3, 18, 0, 0)` is similar to itself: the product of the norms rounds
to `333` and the quotient is `1`. -/
theorem similar_3_18 (a d : ℝ) (ha : 0 < a) (hd : 0 < d) :
    is_similar_plane acos ⟨3, 18, 0, 0⟩ ⟨3, 18, 0, 0⟩ a d = true := by
  rw [is_similar_plane_eval acos ⟨3, 18, 0, 0⟩ ⟨3, 18, 0, 0⟩ a d _ _ 333 1 norm_3_18 norm_3_18
    den_3_18 (by norm_num) (by rw [dot_3_18, div_self (by norm_num), f32_one])]
  rw [acos_one]
  simp only [zero_div, f32_zero, sub_zero, f64_zero, abs_zero, decide_eq_true_eq]
  exact ⟨ha, hd⟩

/-- In binary32 the plane `(1, 6, 0, 0)` and its opposite are at an angle below `3.1415`. -/
theorem similar_1_6_opposite (d : ℝ) (hd : 0 < d) :
    is_similar_plane acos ⟨1, 6, 0, 0⟩ ⟨-1, -6, 0, 0⟩ 3.1415 d = true := by
  rw [is_similar_plane_eval acos ⟨1, 6, 0, 0⟩ ⟨-1, -6, 0, 0⟩ _ d _ _ _
    (-(16777214 * (2 : ℝ) ^ (-24 : ℤ))) norm_1_6 norm_neg_1_6 den_1_6 (by norm_num)
    (by rw [dot_1_6_neg, neg_div, f32_neg, quot_1_6])]
  rw [acos_of_mem (by norm_num) (by norm_num)]
  simp only [zero_div, f32_zero, sub_zero, f64_zero, abs_zero, decide_eq_true_eq]
  exact ⟨arccos_quot_1_6_neg, hd⟩

/-- The binary32 square of `16744417 * 2^-24`. -/
theorem sq_unit_y :
    f32 (16744417 * (2 : ℝ) ^ (-24 : ℤ) * (16744417 * (2 : ℝ) ^ (-24 : ℤ)))
      = 16711682 * (2 : ℝ) ^ (-24 : ℤ) := by
  have h := f32_eq_of_near
    (x := 16744417 * (2 : ℝ) ^ (-24 : ℤ) * (16744417 * (2 : ℝ) ^ (-24 : ℤ))) (-24) 16711682
    (by norm_num) (by norm_num) (by norm_num) (by rw [abs_lt]; constructor <;> norm_num)
  exact_mod_cast h

/-- The square of `2^-4` is exact. -/
theorem sq_unit_x : f32 ((2 : ℝ) ^ (-4 : ℤ) * (2 : ℝ) ^ (-4 : ℤ)) = (2 : ℝ) ^ (-8 : ℤ) := by
  have h := rnd_eq_self 24 1 (-8) (by norm_num)
  have e : (2 : ℝ) ^ (-4 : ℤ) * (2 : ℝ) ^ (-4 : ℤ) = (2 : ℝ) ^ (-8 : ℤ) := by norm_num
  rw [e]
  simpa [f32] using h

/-- The binary32 sum of the two squares: `1 + 2^-23`. -/
theorem sum_unit :
    f32 ((2 : ℝ) ^ (-8 : ℤ) + 16711682 * (2 : ℝ) ^ (-24 : ℤ))
      = 8388609 * (2 : ℝ) ^ (-23 : ℤ) := by
  have h := f32_eq_of_near
    (x := (2 : ℝ) ^ (-8 : ℤ) + 16711682 * (2 : ℝ) ^ (-24 : ℤ)) (-23) 8388609
    (by norm_num) (by norm_num) (by norm_num) (by rw [abs_lt]; constructor <;> norm_num)
  exact_mod_cast h

/-- The vector `(2^-4, 16744417 * 2^-24, 0) = (0.0625, 0.998044789, 0)`: its dot product with
itself is computed as `1 + 2^-23`. -/
theorem dot_unit :
    Eigen.dot ⟨(2 : ℝ) ^ (-4 : ℤ), 16744417 * (2 : ℝ) ^ (-24 : ℤ), 0⟩
        ⟨(2 : ℝ) ^ (-4 : ℤ), 16744417 * (2 : ℝ) ^ (-24 : ℤ), 0⟩
      = 8388609 * (2 : ℝ) ^ (-23 : ℤ) := by
  unfold Eigen.dot
  simp only [mul_zero, f32_zero, add_zero, f32_f32]
  rw [sq_unit_x, sq_unit_y, sum_unit]

/-- The vector `(2^-4, 16744417 * 2^-24, 0)` has length one as `norm()` computes it. -/
theorem norm_unit :
    Eigen.norm ⟨(2 : ℝ) ^ (-4 : ℤ), 16744417 * (2 : ℝ) ^ (-24 : ℤ), 0⟩ = 1 := by
  unfold Eigen.norm
  rw [dot_unit]
  have h := f32_sqrt_eq_of_near (S := 8388609 * (2 : ℝ) ^ (-23 : ℤ)) (-23) 8388608
    (by norm_num) (by norm_num) (by norm_num) (by norm_num) (by norm_num)
  rw [h]
  norm_num

/-- In binary32 a plane with the normal `(2^-4, 16744417 * 2^-24, 0)`, of computed length one,
is not similar to itself, whatever its offset and the tolerances: the quotient is `1 + 2^-23`
and, there being no clamp, `acos` of it is NaN. -/
theorem not_similar_unit (D a d : ℝ) :
    is_similar_plane acos ⟨(2 : ℝ) ^ (-4 : ℤ), 16744417 * (2 : ℝ) ^ (-24 : ℤ), 0, D⟩
      ⟨(2 : ℝ) ^ (-4 : ℤ), 16744417 * (2 : ℝ) ^ (-24 : ℤ), 0, D⟩ a d = false := by
  rw [is_similar_plane_eval acos
    ⟨(2 : ℝ) ^ (-4 : ℤ), 16744417 * (2 : ℝ) ^ (-24 : ℤ), 0, D⟩
    ⟨(2 : ℝ) ^ (-4 : ℤ), 16744417 * (2 : ℝ) ^ (-24 : ℤ), 0, D⟩ a d 1 1 1
    (8388609 * (2 : ℝ) ^ (-23 : ℤ)) norm_unit
    norm_unit (by rw [mul_one, f32_one]) one_ne_zero
    (by rw [div_one, Eigen.f32_dot]; exact dot_unit)]
  have : acos (8388609 * (2 : ℝ) ^ (-23 : ℤ)) = none := by
    unfold acos
    rw [if_neg]
    rintro ⟨_, h⟩
    norm_num at h
  rw [this]

/-- The constant `M_PI`: the `double` nearest to pi. -/
theorem f64_pi : f64 Real.pi = 7074237752028440 * (2 : ℝ) ^ (-51 : ℤ) := by
  have h1 := Real.pi_gt_d20
  have h2 := Real.pi_lt_d20
  have h := f64_eq_of_near (x := Real.pi) (-51) 7074237752028440 Real.pi_pos
    (by norm_num; linarith) (by norm_num; linarith)
    (by rw [abs_lt]; constructor <;> norm_num <;> linarith)
  exact_mod_cast h

/-- The value of `static_cast<float>(M_PI)`: `3.14159274`. -/
theorem f32_M_PI :
    f32 (7074237752028440 * (2 : ℝ) ^ (-51 : ℤ)) = 13176795 * (2 : ℝ) ^ (-22 : ℤ) := by
  have h := f32_eq_of_near (x := 7074237752028440 * (2 : ℝ) ^ (-51 : ℤ)) (-22) 13176795
    (by norm_num) (by norm_num) (by norm_num) (by rw [abs_lt]; constructor <;> norm_num)
  exact_mod_cast h

/-- The value of `30.0f / 180.0f`: `0.166666672`. -/
theorem f32_sixth : f32 (30 / 180) = 11184811 * (2 : ℝ) ^ (-26 : ℤ) := by
  have h := f32_eq_of_near (x := (30 : ℝ) / 180) (-26) 11184811
    (by norm_num) (by norm_num) (by norm_num) (by rw [abs_lt]; constructor <;> norm_num)
  exact_mod_cast h

/-- The argument of `std::cos` in `customRegionGrowing`, thirty degrees in radians as binary32
computes it: `8784530 * 2^-24 = 0.52359879`. -/
theorem thirty_degrees :
    f32 (f32 (30 / 180) * f32 (f64 Real.pi)) = 8784530 * (2 : ℝ) ^ (-24 : ℤ) := by
  rw [f64_pi, f32_M_PI, f32_sixth]
  have h := f32_eq_of_near
    (x := 11184811 * (2 : ℝ) ^ (-26 : ℤ) * (13176795 * (2 : ℝ) ^ (-22 : ℤ))) (-24) 8784530
    (by norm_num) (by norm_num) (by norm_num) (by rw [abs_lt]; constructor <;> norm_num)
  exact_mod_cast h

/-- Bounds on the cosine of the binary32 value of thirty degrees. -/
theorem cos_thirty_degrees_bounds :
    0.86602539 < Real.cos (8784530 * (2 : ℝ) ^ (-24 : ℤ)) ∧
      Real.cos (8784530 * (2 : ℝ) ^ (-24 : ℤ)) < 0.8660254 := by
  have h1 := Real.pi_gt_d20
  have h2 := Real.pi_lt_d20
  have hs1 : (1.73205080 : ℝ) < Real.sqrt 3 := by
    rw [Real.lt_sqrt (by norm_num)]; norm_num
  have hs2 : Real.sqrt 3 < 1.73205081 := by
    rw [Real.sqrt_lt' (by norm_num)]; norm_num
  obtain ⟨ε, hε⟩ : ∃ ε : ℝ, ε = 8784530 * (2 : ℝ) ^ (-24 : ℤ) - Real.pi / 6 := ⟨_, rfl⟩
  have he1 : 1.4570e-8 < ε := by
    rw [hε]; norm_num; linarith
  have he2 : ε < 1.4571e-8 := by
    rw [hε]; norm_num; linarith
  have hr : 8784530 * (2 : ℝ) ^ (-24 : ℤ) = Real.pi / 6 + ε := by rw [hε]; ring
  rw [hr, Real.cos_add, Real.cos_pi_div_six, Real.sin_pi_div_six]
  have hc1 : Real.cos ε ≤ 1 := Real.cos_le_one ε
  have hc2 := Real.one_sub_sq_div_two_le_cos (x := ε)
  have hs3 : Real.sin ε ≤ ε := Real.sin_le (by linarith)
  have hs4 := Real.sin_gt_sub_cube (x := ε) (by linarith) (by linarith)
  have hε0 : 0 < ε := by linarith
  have hsq : ε ^ 2 ≤ 1.4571e-8 ^ 2 := pow_le_pow_left₀ (le_of_lt hε0) (le_of_lt he2) 2
  have hcu : ε ^ 3 ≤ 1.4571e-8 ^ 3 := pow_le_pow_left₀ (le_of_lt hε0) (le_of_lt he2) 3
  have hcos0 : 0 ≤ Real.cos ε := by
    have : (0 : ℝ) ≤ 1 - ε ^ 2 / 2 := by norm_num at hsq ⊢; linarith
    linarith
  have hsqrt0 : 0 < Real.sqrt 3 / 2 := by linarith
  generalize Real.cos ε = c at *
  generalize Real.sin ε = s at *
  generalize Real.sqrt 3 = r at *
  constructor
  · have a1 : (1.73205080 / 2 : ℝ) * (1 - ε ^ 2 / 2) ≤ r / 2 * c := by
      apply mul_le_mul (by linarith) hc2 (by norm_num at hsq ⊢; linarith) (le_of_lt hsqrt0)
    have a2 : (1.73205080 / 2 : ℝ) * (1 - 1.4571e-8 ^ 2 / 2) ≤ r / 2 * c := by
      have : (1.73205080 / 2 : ℝ) * (1 - 1.4571e-8 ^ 2 / 2)
          ≤ (1.73205080 / 2 : ℝ) * (1 - ε ^ 2 / 2) := by
        apply mul_le_mul_of_nonneg_left _ (by norm_num)
        linarith
      linarith
    norm_num at a2 ⊢
    linarith
  · have a1 : r / 2 * c ≤ r / 2 * 1 :=
      mul_le_mul_of_nonneg_left hc1 (le_of_lt hsqrt0)
    norm_num at hcu ⊢
    linarith

/-- The threshold of `customRegionGrowing` with a correctly rounded `cosf`: the binary32 number
`14529495 * 2^-24 = 0.866025388`, just below `cos` of thirty degrees. -/
theorem threshold_value :
    cosf (f32 (f32 (30 / 180) * f32 (f64 Real.pi))) = 14529495 * (2 : ℝ) ^ (-24 : ℤ) := by
  rw [thirty_degrees]
  unfold cosf
  obtain ⟨h1, h2⟩ := cos_thirty_degrees_bounds
  generalize Real.cos (8784530 * (2 : ℝ) ^ (-24 : ℤ)) = c at h1 h2
  have h := f32_eq_of_near (x := c) (-24) 14529495
    (by linarith) (by norm_num; linarith) (by norm_num; linarith)
    (by rw [abs_lt]; constructor <;> norm_num <;> linarith)
  exact_mod_cast h

/-- The dot product of `(0, 0, 1)` and `(0, 0, -1)`. -/
theorem dot_opposite_z : Eigen.dot ⟨0, 0, 1⟩ ⟨0, 0, -1⟩ = -1 := by
  rw [Eigen.dot_axis_z, mul_neg, mul_one, f32_neg, f32_one]

/-- The threshold `0.866025388` is a binary32 number. -/
theorem f32_threshold :
    f32 (14529495 * (2 : ℝ) ^ (-24 : ℤ)) = 14529495 * (2 : ℝ) ^ (-24 : ℤ) := by
  have h := rnd_eq_self 24 14529495 (-24) (by norm_num)
  exact_mod_cast h

/-- The product of `3 * 2^-14 = 0.000183105` and `2^-13 = 0.000122070` is exact. -/
theorem f32_small_product :
    f32 (3 * (2 : ℝ) ^ (-14 : ℤ) * (2 : ℝ) ^ (-13 : ℤ)) = 3 * (2 : ℝ) ^ (-27 : ℤ) := by
  have h := rnd_eq_self 24 3 (-27) (by norm_num)
  have e : 3 * (2 : ℝ) ^ (-14 : ℤ) * (2 : ℝ) ^ (-13 : ℤ) = 3 * (2 : ℝ) ^ (-27 : ℤ) := by
    norm_num
  rw [e]
  exact_mod_cast h

/-- Adding `3 * 2^-27` to `0.866025388` in binary32 gives `0.866025388`. -/
theorem f32_absorbed :
    f32 (14529495 * (2 : ℝ) ^ (-24 : ℤ) + 3 * (2 : ℝ) ^ (-27 : ℤ))
      = 14529495 * (2 : ℝ) ^ (-24 : ℤ) := by
  have h := f32_eq_of_near
    (x := 14529495 * (2 : ℝ) ^ (-24 : ℤ) + 3 * (2 : ℝ) ^ (-27 : ℤ)) (-24) 14529495
    (by norm_num) (by norm_num) (by norm_num) (by rw [abs_lt]; constructor <;> norm_num)
  exact_mod_cast h

/-- The binary32 dot product of the normals `(0.866025388, 0.000183105, 0)` and
`(1, 0.000122070, 0)`: the second product is lost in the sum. -/
theorem dot_absorbed :
    Eigen.dot ⟨14529495 * (2 : ℝ) ^ (-24 : ℤ), 3 * (2 : ℝ) ^ (-14 : ℤ), 0⟩
        ⟨1, (2 : ℝ) ^ (-13 : ℤ), 0⟩
      = 14529495 * (2 : ℝ) ^ (-24 : ℤ) := by
  unfold Eigen.dot
  simp only [mul_one, mul_zero, f32_zero, add_zero, f32_f32]
  rw [f32_threshold, f32_small_product, f32_absorbed]

end Samples

/-! ## Lemmas on `customRegionGrowing` -/

namespace Archive

open PCL IEEE

/-- The two branches of `customRegionGrowing`, with the argument of `cos` evaluated. -/
theorem customRegionGrowing_spec (cos : ℝ → ℝ) (point_a point_b : PointTypeFull)
    (squared_distance : ℝ) :
    (squared_distance < 10000 →
      (customRegionGrowing cos point_a point_b squared_distance = true ↔
        |Eigen.dot point_a.getNormalVector3fMap point_b.getNormalVector3fMap| >
          cos (8784530 * (2 : ℝ) ^ (-24 : ℤ)))) ∧
    (10000 ≤ squared_distance →
      customRegionGrowing cos point_a point_b squared_distance = false) := by
  constructor
  · intro h
    unfold customRegionGrowing
    simp only [h, if_true, Samples.thirty_degrees]
    split_ifs with h1
    · exact ⟨fun _ => h1, fun _ => rfl⟩
    · exact ⟨fun h2 => absurd h2 (by simp), fun h2 => absurd h2 h1⟩
  · intro h
    unfold customRegionGrowing
    rw [if_neg (not_lt.mpr h)]

/-- With a correctly rounded `cosf`, `customRegionGrowing` returns false on the normals
`(0.866025388, 0.000183105, 0)` and `(1, 0.000122070, 0)`, whose exact dot product exceeds
`cos` of thirty degrees: in binary32 the dot product and the threshold are the same number. -/
theorem customRegionGrowing_rounding :
    customRegionGrowing cosf
        ⟨0, 0, 0, 14529495 * (2 : ℝ) ^ (-24 : ℤ), 3 * (2 : ℝ) ^ (-14 : ℤ), 0⟩
        ⟨0, 0, 0, 1, (2 : ℝ) ^ (-13 : ℤ), 0⟩ 0 = false ∧
      Vector3f.dot ⟨14529495 * (2 : ℝ) ^ (-24 : ℤ), 3 * (2 : ℝ) ^ (-14 : ℤ), 0⟩
        ⟨1, (2 : ℝ) ^ (-13 : ℤ), 0⟩ > Real.cos (30 / 180 * Real.pi) := by
  constructor
  · unfold customRegionGrowing PointTypeFull.getNormalVector3fMap
    simp only [Samples.dot_absorbed, Samples.threshold_value]
    rw [if_pos (by norm_num), abs_of_pos (by norm_num), if_neg (lt_irrefl _)]
  · have h : (30 : ℝ) / 180 * Real.pi = Real.pi / 6 := by ring
    have h3 : Real.sqrt 3 < 1.73205081 := by
      rw [Real.sqrt_lt' (by norm_num)]; norm_num
    rw [h, Real.cos_pi_div_six]
    unfold Vector3f.dot
    norm_num
    linarith

end Archive

/-! ## Claims on `is_similar_plane` and `customRegionGrowing` in binary32 -/

namespace Terrain.Binary32

open PCL IEEE

/-- Counterexample to C20.  With the tolerances `2^-12` and `0.05` the plane `(1, 6, 0, 0)` is
not similar to itself, the angle computed in binary32 being `acos(1 - 2^-23)`, while
`3 * (1, 6, 0, 0)` is similar to itself, the computed quotient being `1`.  With the tolerances
`0.1` and `0.05` the plane `(1, 1, 0, 0)` is not similar to itself, the computed quotient being
`1 + 2^-23` and the angle NaN, while `5 * (1, 1, 0, 0)` is similar to itself. -/
theorem scale_counterexample :
    is_similar_plane acos ⟨1, 6, 0, 0⟩ ⟨1, 6, 0, 0⟩ ((2 : ℝ) ^ (-12 : ℤ)) 0.05 = false ∧
      is_similar_plane acos (ModelCoefficients.scale 3 ⟨1, 6, 0, 0⟩)
        (ModelCoefficients.scale 3 ⟨1, 6, 0, 0⟩) ((2 : ℝ) ^ (-12 : ℤ)) 0.05 = true ∧
      is_similar_plane acos ⟨1, 1, 0, 0⟩ ⟨1, 1, 0, 0⟩ 0.1 0.05 = false ∧
      is_similar_plane acos (ModelCoefficients.scale 5 ⟨1, 1, 0, 0⟩)
        (ModelCoefficients.scale 5 ⟨1, 1, 0, 0⟩) 0.1 0.05 = true := by
  have e3 : ModelCoefficients.scale 3 ⟨1, 6, 0, 0⟩ = ⟨3, 18, 0, 0⟩ := by
    unfold ModelCoefficients.scale; norm_num
  have e5 : ModelCoefficients.scale 5 ⟨1, 1, 0, 0⟩ = ⟨5, 5, 0, 0⟩ := by
    unfold ModelCoefficients.scale; norm_num
  rw [e3, e5]
  exact ⟨Samples.not_similar_1_6 0.05,
    Samples.similar_3_18 _ 0.05 (by positivity) (by norm_num),
    Samples.not_similar_1_1 0.1 0.05,
    Samples.similar_5_5 0.1 0.05 (by norm_num) (by norm_num)⟩

/-- C20, amended: for scale factors that are powers of two, `k1 = 2^i` and `k2 = 2^j`, and planes
whose coefficients are in range before and after the scaling, `is_similar_plane` gives the same
answer for `k1 * (A1,B1,C1,D1), k2 * (A2,B2,C2,D2)` as for `(A1,B1,C1,D1), (A2,B2,C2,D2)`,
whatever the tolerances. -/
theorem is_similar_plane_scale_invariant (acos : ℝ → Option ℝ) (p1 p2 : ModelCoefficients)
    (angle_threshold distance_threshold : ℝ) (i j : ℤ)
    (hr1 : p1.InRange) (hr2 : p2.InRange)
    (hs1 : (ModelCoefficients.scale ((2 : ℝ) ^ i) p1).InRange)
    (hs2 : (ModelCoefficients.scale ((2 : ℝ) ^ j) p2).InRange) :
    is_similar_plane acos (ModelCoefficients.scale ((2 : ℝ) ^ i) p1)
        (ModelCoefficients.scale ((2 : ℝ) ^ j) p2) angle_threshold distance_threshold
      = is_similar_plane acos p1 p2 angle_threshold distance_threshold := by
  have _ := hr1
  have _ := hr2
  have _ := hs1
  have _ := hs2
  exact is_similar_plane_two_zpow acos p1 p2 angle_threshold distance_threshold i j

/-- The amended C20 at the planes `(0, 0, 1, 0)` and `(0, 0, 1, 1)` with the factors `2` and
`4`. -/
theorem is_similar_plane_scale_invariant_witness :
    (ModelCoefficients.mk 0 0 1 0).InRange ∧ (ModelCoefficients.mk 0 0 1 1).InRange ∧
      (ModelCoefficients.scale ((2 : ℝ) ^ (1 : ℤ)) ⟨0, 0, 1, 0⟩).InRange ∧
      (ModelCoefficients.scale ((2 : ℝ) ^ (2 : ℤ)) ⟨0, 0, 1, 1⟩).InRange ∧
      is_similar_plane acos (ModelCoefficients.scale ((2 : ℝ) ^ (1 : ℤ)) ⟨0, 0, 1, 0⟩)
          (ModelCoefficients.scale ((2 : ℝ) ^ (2 : ℤ)) ⟨0, 0, 1, 1⟩) 0.1 0.05
        = is_similar_plane acos ⟨0, 0, 1, 0⟩ ⟨0, 0, 1, 1⟩ 0.1 0.05 :=
  have hr1 : (ModelCoefficients.mk 0 0 1 0).InRange := by
    norm_num [ModelCoefficients.InRange, IEEE.InRange]
  have hr2 : (ModelCoefficients.mk 0 0 1 1).InRange := by
    norm_num [ModelCoefficients.InRange, IEEE.InRange]
  have hs1 : (ModelCoefficients.scale ((2 : ℝ) ^ (1 : ℤ)) ⟨0, 0, 1, 0⟩).InRange := by
    norm_num [ModelCoefficients.InRange, IEEE.InRange, ModelCoefficients.scale]
  have hs2 : (ModelCoefficients.scale ((2 : ℝ) ^ (2 : ℤ)) ⟨0, 0, 1, 1⟩).InRange := by
    norm_num [ModelCoefficients.InRange, IEEE.InRange, ModelCoefficients.scale]
  ⟨hr1, hr2, hs1, hs2,
    is_similar_plane_scale_invariant acos ⟨0, 0, 1, 0⟩ ⟨0, 0, 1, 1⟩ 0.1 0.05 1 2 hr1 hr2 hs1 hs2⟩

/-- Counterexample to C26: the plane `(1, 6, 0, 0)` has a non-zero normal and `3.1415` is at most
pi, yet with `angle_threshold = 3.1415` the plane is similar to `(-1, -6, -0, -0)`: in binary32
the product of the norms is `37.0000038`, the quotient `-0.99999988`, and the angle `3.14110`. -/
theorem opposite_counterexample :
    is_similar_plane acos ⟨1, 6, 0, 0⟩ ⟨-1, -6, -0, -0⟩ 3.1415 0.05 = true ∧
      (3.1415 : ℝ) ≤ Real.pi ∧ (1 : ℝ) ≠ 0 := by
  have hpi := Real.pi_gt_d6
  refine ⟨?_, by linarith, one_ne_zero⟩
  have e : (ModelCoefficients.mk (-1) (-6) (-0) (-0)) = ⟨-1, -6, 0, 0⟩ := by norm_num
  rw [e]
  exact Samples.similar_1_6_opposite 0.05 (by norm_num)

/-- C26, amended: for every plane with coefficients in range and a non-zero normal, every
`angle_threshold` up to `3.14`, every `distance_threshold` and every library `acos` that meets
its specification, `is_similar_plane((A,B,C,D), (-A,-B,-C,-D))` is false. -/
theorem opposite_orientations_not_similar (acos : ℝ → Option ℝ) (hacos : AcosSpec acos)
    (p : ModelCoefficients) (angle_threshold distance_threshold : ℝ) (hr : p.InRange)
    (hn : p.A ≠ 0 ∨ p.B ≠ 0 ∨ p.C ≠ 0) (ha : angle_threshold ≤ 3.14) :
    is_similar_plane acos p ⟨-p.A, -p.B, -p.C, -p.D⟩ angle_threshold distance_threshold
      = false := by
  have _ := hr
  have _ := hn
  exact is_similar_plane_opposite acos hacos p angle_threshold distance_threshold ha

/-- The amended C26 at the plane `(0, 0, 1, 0)` with the default `angle_threshold = 0.1`. -/
theorem opposite_orientations_not_similar_witness :
    AcosSpec acos ∧ (ModelCoefficients.mk 0 0 1 0).InRange ∧ (0.1 : ℝ) ≤ 3.14 ∧
      is_similar_plane acos ⟨0, 0, 1, 0⟩ ⟨-0, -0, -1, -0⟩ 0.1 0.05 = false :=
  have hr : (ModelCoefficients.mk 0 0 1 0).InRange := by
    norm_num [ModelCoefficients.InRange, IEEE.InRange]
  ⟨acosSpec_acos, hr, by norm_num,
    opposite_orientations_not_similar acos acosSpec_acos ⟨0, 0, 1, 0⟩ 0.1 0.05 hr
      (Or.inr (Or.inr one_ne_zero)) (by norm_num)⟩

end Terrain.Binary32

namespace Archive

open PCL IEEE

/-- Counterexample to C18: two points at squared distance zero with the unit normals `(0,0,1)`
and `(0,0,-1)`.  The dot product of the normals is `-1`, which does not exceed `cos` of thirty
degrees, and `customRegionGrowing` returns true: the code compares the absolute value. -/
theorem customRegionGrowing_counterexample :
    customRegionGrowing cosf ⟨0, 0, 0, 0, 0, 1⟩ ⟨0, 0, 0, 0, 0, -1⟩ 0 = true ∧
      Eigen.norm ⟨0, 0, 1⟩ = 1 ∧ Eigen.norm ⟨0, 0, -1⟩ = 1 ∧
      Vector3f.dot ⟨0, 0, 1⟩ ⟨0, 0, -1⟩ = -1 ∧
      ¬ ((-1 : ℝ) > Real.cos (30 / 180 * Real.pi)) := by
  obtain ⟨_, hpos, _⟩ := cos_thirty_degrees
  refine ⟨?_, Eigen.norm_axis_z, ?_, ?_, ?_⟩
  · unfold customRegionGrowing PointTypeFull.getNormalVector3fMap
    simp only [Samples.dot_opposite_z, Samples.threshold_value]
    norm_num
  · unfold Eigen.norm
    rw [Eigen.dot_axis_z]
    norm_num [f32_one]
  · unfold Vector3f.dot; norm_num
  · linarith

/-- C18, amended: for points whose normals have components in range and for every squared
distance below the cutoff `10000`, `customRegionGrowing` returns true exactly when the absolute
value of the dot product of the two normals, computed in binary32, exceeds the value that the
library's `cos` returns for `0.52359879`, the binary32 value of thirty degrees in radians; it
returns false whenever the squared distance is `10000` or more.  With a correctly rounded `cosf`
the threshold is the binary32 number `14529495 * 2^-24 = 0.866025388`. -/
theorem customRegionGrowing_iff (cos : ℝ → ℝ) (point_a point_b : PointTypeFull)
    (squared_distance : ℝ) (ha : point_a.NormalInRange) (hb : point_b.NormalInRange) :
    (squared_distance < 10000 →
      (customRegionGrowing cos point_a point_b squared_distance = true ↔
        |Eigen.dot point_a.getNormalVector3fMap point_b.getNormalVector3fMap| >
          cos (8784530 * (2 : ℝ) ^ (-24 : ℤ)))) ∧
    (10000 ≤ squared_distance →
      customRegionGrowing cos point_a point_b squared_distance = false) ∧
    cosf (8784530 * (2 : ℝ) ^ (-24 : ℤ)) = 14529495 * (2 : ℝ) ^ (-24 : ℤ) := by
  have _ := ha
  have _ := hb
  have h := customRegionGrowing_spec cos point_a point_b squared_distance
  have hc := Samples.threshold_value
  rw [Samples.thirty_degrees] at hc
  exact ⟨h.1, h.2, hc⟩

/-- The amended C18 at the normals `(0,0,1)` and `(0,0,-1)`, with a correctly rounded `cosf`. -/
theorem customRegionGrowing_iff_witness :
    (PointTypeFull.mk 0 0 0 0 0 1).NormalInRange ∧
      (PointTypeFull.mk 0 0 0 0 0 (-1)).NormalInRange ∧
      (customRegionGrowing cosf ⟨0, 0, 0, 0, 0, 1⟩ ⟨0, 0, 0, 0, 0, -1⟩ 0 = true ↔
        |Eigen.dot (PointTypeFull.mk 0 0 0 0 0 1).getNormalVector3fMap
            (PointTypeFull.mk 0 0 0 0 0 (-1)).getNormalVector3fMap| >
          cosf (8784530 * (2 : ℝ) ^ (-24 : ℤ))) ∧
      customRegionGrowing cosf ⟨0, 0, 0, 0, 0, 1⟩ ⟨0, 0, 0, 0, 0, -1⟩ 10000 = false :=
  have ha : (PointTypeFull.mk 0 0 0 0 0 1).NormalInRange := by
    norm_num [PointTypeFull.NormalInRange, IEEE.InRange]
  have hb : (PointTypeFull.mk 0 0 0 0 0 (-1)).NormalInRange := by
    norm_num [PointTypeFull.NormalInRange, IEEE.InRange]
  ⟨ha, hb,
    (customRegionGrowing_iff cosf ⟨0, 0, 0, 0, 0, 1⟩ ⟨0, 0, 0, 0, 0, -1⟩ 0 ha hb).1
      (by norm_num),
    (customRegionGrowing_iff cosf ⟨0, 0, 0, 0, 0, 1⟩ ⟨0, 0, 0, 0, 0, -1⟩ 10000 ha hb).2.1
      (le_refl _)⟩

end Archive
